import Mathlib

set_option autoImplicit false

/-!
# sling: signals and slots (`sling.h`)

A shallow embedding of the connection-lifetime machinery of `sl::Signal` and `sl::Slot`.

Objects live in a `World`: three heaps (Slot objects, Signal objects, and the nodes of the
`std::map<std::size_t, Connection>` registries) indexed by address.  A pointer is an address;
a nullable pointer is an `Option`.  Dereferencing the address of an object that is not alive is
undefined behaviour and makes the operation return `Fault.undefined`.
-/

namespace Sling

/-- The type `SlotKey = std::size_t`. -/
abbrev SlotKey := Nat

/-- Number of values of `std::size_t` (64-bit targets): arithmetic on keys is modulo this. -/
def SIZE_MOD : Nat := 2 ^ 64

/-- Ways in which a run of the model can fail to produce a state. -/
inductive Fault where
  | undefined
  | outOfFuel
deriving DecidableEq, Repr

/-- The struct `Slot::Connection`. -/
structure Connection where
  signal : Nat
  slot : Nat
  key : SlotKey
  managed : Bool
deriving DecidableEq, Repr

/-- The data members of `Slot`: `callback` is `none` for an empty `std::function`
(otherwise the identity of its target), `connection` is `none` for `nullptr`. -/
structure Slot where
  callback : Option Nat
  connection : Option Nat
deriving DecidableEq, Repr

/-- A `std::map<std::size_t, Connection>`: the entries in ascending key order, each entry
giving the key and the address of the node that stores the `Connection`. -/
abbrev Registry := List (SlotKey × Nat)

/-- The data members of `Signal`. -/
structure Signal where
  connections : Registry
  sequence : SlotKey
deriving DecidableEq, Repr

/-- The object graph: live Slots, live Signals, live map nodes, and the next addresses that
`new Slot` and the map's node allocator hand out. -/
structure World where
  slots : Nat → Option Slot
  signals : Nat → Option Signal
  conns : Nat → Option Connection
  nextSlot : Nat
  nextConn : Nat

/-! ## The `std::map` operations used by `Signal` -/

/-- The call `connections.find(key)`: the node stored under `key`, if any. -/
def Registry.find : Registry → SlotKey → Option Nat
  | [], _ => none
  | (k, c) :: m, key => if k = key then some c else Registry.find m key

/-- Insertion of a new node at its place in key order (the key is absent). -/
def Registry.insert : Registry → SlotKey → Nat → Registry
  | [], key, c => [(key, c)]
  | (k, c') :: m, key, c =>
    if key < k then (key, c) :: (k, c') :: m else (k, c') :: Registry.insert m key c

/-- The call `connections.erase(it)` for the iterator found under `key`. -/
def Registry.erase (m : Registry) (key : SlotKey) : Registry :=
  m.filter fun e => decide (e.1 ≠ key)

/-- Increment of a map iterator that points at node `c`: `none` when `c` is not (or no longer)
a node of the map, `some none` when the increment reaches `end()`. -/
def Registry.next : Registry → Nat → Option (Option Nat)
  | [], _ => none
  | (_, c') :: m, c => if c' = c then some (m.head?.map Prod.snd) else Registry.next m c

/-! ## Heap access -/

/-- Dereference a `Slot*`. -/
def World.getSlot (w : World) (a : Nat) : Except Fault Slot :=
  match w.slots a with
  | some s => .ok s
  | none => .error .undefined

/-- Dereference a `Signal*`. -/
def World.getSignal (w : World) (a : Nat) : Except Fault Signal :=
  match w.signals a with
  | some s => .ok s
  | none => .error .undefined

/-- Dereference a `Connection*`. -/
def World.getConn (w : World) (c : Nat) : Except Fault Connection :=
  match w.conns c with
  | some x => .ok x
  | none => .error .undefined

/-- Store to the members of the Slot at `a`. -/
def World.setSlot (w : World) (a : Nat) (s : Slot) : World :=
  { w with slots := fun x => if x = a then some s else w.slots x }

/-- Release the storage of the Slot at `a`. -/
def World.freeSlot (w : World) (a : Nat) : World :=
  { w with slots := fun x => if x = a then none else w.slots x }

/-- Store to the members of the Signal at `a`. -/
def World.setSignal (w : World) (a : Nat) (s : Signal) : World :=
  { w with signals := fun x => if x = a then some s else w.signals x }

/-- Release the storage of the Signal at `a`. -/
def World.freeSignal (w : World) (a : Nat) : World :=
  { w with signals := fun x => if x = a then none else w.signals x }

/-- Store to the `Connection` in node `c`. -/
def World.setConn (w : World) (c : Nat) (x : Connection) : World :=
  { w with conns := fun y => if y = c then some x else w.conns y }

/-- Release map node `c`. -/
def World.freeConn (w : World) (c : Nat) : World :=
  { w with conns := fun y => if y = c then none else w.conns y }

/-- Release every node of a map. -/
def World.freeConns (w : World) (m : Registry) : World :=
  { w with conns := fun y => if y ∈ m.map Prod.snd then none else w.conns y }

/-- A world without objects. -/
def World.empty : World :=
  { slots := fun _ => none, signals := fun _ => none, conns := fun _ => none,
    nextSlot := 0, nextConn := 0 }

/-! ## `Connection` and the disconnect paths -/

/-- The method `Connection::releaseSlot` (lines 57-62) on the Connection in node `c`.
`delete this->slot` runs `~Slot()`, whose `disconnect()` tests `connection != nullptr`; the
line before has just stored `nullptr` there, so the destructor body does nothing and the
storage is released. -/
def Connection.releaseSlot (w : World) (c : Nat) : Except Fault World := do
  let conn ← w.getConn c
  let s ← w.getSlot conn.slot
  let w1 := w.setSlot conn.slot { s with connection := none }
  if conn.managed then
    pure (w1.freeSlot conn.slot)
  else
    pure w1

/-- The method `Signal::disconnect(SlotKey)` (lines 233-239). -/
def Signal.disconnectKey (w : World) (sig : Nat) (key : SlotKey) : Except Fault World := do
  let S ← w.getSignal sig
  match S.connections.find key with
  | none => pure w
  | some c => do
    let w1 ← Connection.releaseSlot w c
    let S1 ← w1.getSignal sig
    pure ((w1.setSignal sig { S1 with connections := S1.connections.erase key }).freeConn c)

/-- The method `Signal::disconnect(Slot*)` (lines 241-246); `slot = none` is `nullptr`. -/
def Signal.disconnectSlot (w : World) (sig : Nat) (slot : Option Nat) : Except Fault World :=
  match slot with
  | none => pure w
  | some a => do
    let s ← w.getSlot a
    match s.connection with
    | none => pure w
    | some c => do
      let conn ← w.getConn c
      if conn.signal = sig then
        Signal.disconnectKey w sig conn.key
      else
        pure w

/-- The method `Signal::disconnect(Slot&)` (lines 248-250). -/
def Signal.disconnectRef (w : World) (sig : Nat) (a : Nat) : Except Fault World :=
  Signal.disconnectSlot w sig (some a)

/-- The method `Slot::disconnect` (lines 121-125). -/
def Slot.disconnect (w : World) (this : Nat) : Except Fault World := do
  let s ← w.getSlot this
  match s.connection with
  | none => pure w
  | some c => do
    let conn ← w.getConn c
    Signal.disconnectSlot w conn.signal (some this)

/-- The destructor `Slot::~Slot` (lines 106-108) followed by the release of the storage. -/
def Slot.destroy (w : World) (this : Nat) : Except Fault World := do
  let w1 ← Slot.disconnect w this
  let _ ← w1.getSlot this
  pure (w1.freeSlot this)

/-! ## `Slot`: constructors, assignment, move -/

/-- The constructors `Slot()` and `Slot(f)` (lines 80-97) on the storage at `this`:
the callback is the given function (or empty), the connection is `nullptr`. -/
def Slot.construct (w : World) (this : Nat) (f : Option Nat) : World :=
  w.setSlot this { callback := f, connection := none }

/-- The method `Slot::setCallback` (lines 127-147). -/
def Slot.setCallback (w : World) (this : Nat) (f : Option Nat) : Except Fault World := do
  let s ← w.getSlot this
  pure (w.setSlot this { s with callback := f })

/-- The copy constructor `Slot(const Slot&)` (lines 99-100) on the storage at `this`. -/
def Slot.copyConstruct (w : World) (this : Nat) (src : Nat) : Except Fault World := do
  let s ← w.getSlot src
  pure (w.setSlot this { callback := s.callback, connection := none })

/-- Copy assignment `Slot::operator=(const Slot&)` (lines 110-113). -/
def Slot.copyAssign (w : World) (this : Nat) (src : Nat) : Except Fault World := do
  let s ← w.getSlot src
  let t ← w.getSlot this
  pure (w.setSlot this { t with callback := s.callback })

/-- The method `Slot::move` (lines 68-78).  Moving from a `std::function` leaves the source
empty. -/
def Slot.move (w : World) (this : Nat) (src : Nat) : Except Fault World := do
  -- this->callback = std::move(slot->callback);
  let s ← w.getSlot src
  let w := w.setSlot src { s with callback := none }
  let t ← w.getSlot this
  let w := w.setSlot this { t with callback := s.callback }
  -- this->connection = nullptr;
  let t ← w.getSlot this
  let w := w.setSlot this { t with connection := none }
  let s ← w.getSlot src
  match s.connection with
  | none => pure w
  | some c => do
    -- this->connection = slot->connection;
    let t ← w.getSlot this
    let w := w.setSlot this { t with connection := some c }
    -- slot->connection->releaseSlot();
    let s ← w.getSlot src
    match s.connection with
    | none => throw .undefined
    | some c1 => do
      let w ← Connection.releaseSlot w c1
      -- this->connection->slot = this;
      let t ← w.getSlot this
      match t.connection with
      | none => throw .undefined
      | some c2 => do
        let conn ← w.getConn c2
        let w := w.setConn c2 { conn with slot := this }
        -- this->connection->managed = false;
        let t ← w.getSlot this
        match t.connection with
        | none => throw .undefined
        | some c3 => do
          let conn ← w.getConn c3
          pure (w.setConn c3 { conn with managed := false })

/-- The move constructor `Slot(Slot&&)` (lines 102-104) on the storage at `this`: the members
start from their default initialisers, then `move` runs. -/
def Slot.moveConstruct (w : World) (this : Nat) (src : Nat) : Except Fault World :=
  Slot.move (w.setSlot this { callback := none, connection := none }) this src

/-- Move assignment `Slot::operator=(Slot&&)` (lines 115-119). -/
def Slot.moveAssign (w : World) (this : Nat) (src : Nat) : Except Fault World := do
  let w1 ← Slot.disconnect w this
  Slot.move w1 this src

/-! ## `Signal`: connect -/

/-- Lines 172-181 of `Signal::connect(Slot*, bool)`: advance the counter, `emplace` a
Connection under the new key (no insertion when the key is already present, in which case
`emplace` returns the existing node), and point the Slot at the node. -/
def Signal.connectNew (w : World) (sig : Nat) (a : Nat) (managed : Bool) :
    Except Fault (World × SlotKey) := do
  let S ← w.getSignal sig
  let key := (S.sequence + 1) % SIZE_MOD
  let w := w.setSignal sig { S with sequence := key }
  let S ← w.getSignal sig
  match S.connections.find key with
  | some c => do
    let s ← w.getSlot a
    pure (w.setSlot a { s with connection := some c }, key)
  | none => do
    let c := w.nextConn
    let w := { w with nextConn := c + 1 }
    let w := w.setConn c { signal := sig, slot := a, key := key, managed := managed }
    let w := w.setSignal sig { S with connections := S.connections.insert key c }
    let s ← w.getSlot a
    pure (w.setSlot a { s with connection := some c }, key)

/-- The private method `Signal::connect(Slot*, bool)` (lines 161-182);
`slot = none` is `nullptr`. -/
def Signal.connect (w : World) (sig : Nat) (slot : Option Nat) (managed : Bool) :
    Except Fault (World × SlotKey) :=
  match slot with
  | none => pure (w, 0)
  | some a => do
    let s ← w.getSlot a
    match s.connection with
    | none => Signal.connectNew w sig a managed
    | some c => do
      let conn ← w.getConn c
      if conn.signal = sig then
        pure (w, conn.key)
      else do
        let w1 ← Slot.disconnect w a
        Signal.connectNew w1 sig a managed

/-- The method `Signal::connect(Slot*)` (lines 221-223). -/
def Signal.connectPtr (w : World) (sig : Nat) (slot : Option Nat) :
    Except Fault (World × SlotKey) :=
  Signal.connect w sig slot false

/-- The method `Signal::connect(Slot&)` (lines 225-227). -/
def Signal.connectRef (w : World) (sig : Nat) (a : Nat) : Except Fault (World × SlotKey) :=
  Signal.connect w sig (some a) false

/-- The method `Signal::connect(Slot&&)` (lines 229-231): `new Slot(std::move(slot))` takes
the next heap address, move-constructs there, and the result is connected as managed. -/
def Signal.connectMove (w : World) (sig : Nat) (src : Nat) : Except Fault (World × SlotKey) := do
  let p := w.nextSlot
  let w1 ← Slot.moveConstruct { w with nextSlot := p + 1 } p src
  Signal.connect w1 sig (some p) true

/-! ## `Signal`: clear, move, construction and destruction -/

/-- The loop of `Signal::clear` (lines 253-255): `releaseSlot` on every entry, in map order. -/
def Signal.releaseAll (w : World) : Registry → Except Fault World
  | [] => pure w
  | (_, c) :: m => do
    let w1 ← Connection.releaseSlot w c
    Signal.releaseAll w1 m

/-- The method `Signal::clear` (lines 252-257). -/
def Signal.clear (w : World) (sig : Nat) : Except Fault World := do
  let S ← w.getSignal sig
  let w1 ← Signal.releaseAll w S.connections
  let S1 ← w1.getSignal sig
  pure ((w1.setSignal sig { S1 with connections := [] }).freeConns S1.connections)

/-- The loop of `Signal::move` (lines 189-191): store `this` in every Connection of the map. -/
def Signal.repoint (w : World) (this : Nat) : Registry → Except Fault World
  | [] => pure w
  | (_, c) :: m => do
    let conn ← w.getConn c
    Signal.repoint (w.setConn c { conn with signal := this }) this m

/-- The private method `Signal::move` (lines 184-195).  Move assignment of the map hands the
nodes of the source over and leaves the source map empty. -/
def Signal.move (w : World) (this : Nat) (src : Nat) : Except Fault World := do
  let w ← Signal.clear w this
  -- this->connections = std::move(signal->connections);
  let S ← w.getSignal src
  let w := w.setSignal src { S with connections := [] }
  let T ← w.getSignal this
  let w := (w.freeConns T.connections).setSignal this { T with connections := S.connections }
  -- this->sequence = signal->sequence;
  let S ← w.getSignal src
  let T ← w.getSignal this
  let w := w.setSignal this { T with sequence := S.sequence }
  let T ← w.getSignal this
  let w ← Signal.repoint w this T.connections
  -- signal->sequence = 0; signal->connections.clear();
  let S ← w.getSignal src
  let w := w.setSignal src { S with sequence := 0 }
  let S ← w.getSignal src
  pure ((w.setSignal src { S with connections := [] }).freeConns S.connections)

/-- The constructor `Signal()` (lines 197-198) on the storage at `this`. -/
def Signal.construct (w : World) (this : Nat) : World :=
  w.setSignal this { connections := [], sequence := 0 }

/-- The move constructor `Signal(Signal&&)` (lines 202-204) on the storage at `this`.  The
constructor has no initialiser for `sequence`; `garbage` is the indeterminate value it starts
with, which `move` overwrites before reading it. -/
def Signal.moveConstruct (w : World) (this : Nat) (src : Nat) (garbage : SlotKey) :
    Except Fault World :=
  Signal.move (w.setSignal this { connections := [], sequence := garbage }) this src

/-- Move assignment `Signal::operator=(Signal&&)` (lines 212-215). -/
def Signal.moveAssign (w : World) (this : Nat) (src : Nat) : Except Fault World :=
  Signal.move w this src

/-- The destructor `Signal::~Signal` (lines 206-208) followed by the release of the storage. -/
def Signal.destroy (w : World) (this : Nat) : Except Fault World := do
  let w1 ← Signal.clear w this
  let _ ← w1.getSignal this
  pure (w1.freeSignal this)

/-! ## `Signal`: emit -/

/-- State of one argument of the pack held by `emit`. -/
inductive ArgVal where
  | val (n : Nat)
  | movedFrom
deriving DecidableEq, Repr

/-- One element of `Args... args`: its current value, and whether its declared type is a
non-reference type whose move constructor empties the source. -/
structure Arg where
  val : ArgVal
  byValue : Bool
deriving DecidableEq, Repr

/-- The values a callee receives from `std::forward<Args>(args)...`. -/
def received (args : List Arg) : List ArgVal :=
  args.map Arg.val

/-- The pack after `std::forward<Args>(args)...` has initialised the callee's parameters:
a by-value argument has been moved from. -/
def forwarded (args : List Arg) : List Arg :=
  args.map fun a => if a.byValue then { a with val := ArgVal.movedFrom } else a

/-- One invocation made by `emit`: the Slot, the target of its callback, and the values it
received. -/
structure Call where
  slot : Nat
  callback : Nat
  args : List ArgVal
deriving DecidableEq, Repr

/-- What the callbacks do to the object graph: target, received values, state before. -/
abbrev Env := Nat → List ArgVal → World → Except Fault World

/-- The range-for loop of `Signal::emit` (lines 260-264), from the iterator `it`
(`none` is `end()`); `fuel` bounds the number of iterations. -/
def Signal.emitLoop (env : Env) (sig : Nat) :
    Nat → World → Option Nat → List Arg → List Call → Except Fault (World × List Call)
  | _, w, none, _, log => pure (w, log)
  | 0, _, some _, _, _ => throw .outOfFuel
  | fuel + 1, w, some c, args, log => do
    let conn ← w.getConn c
    let s ← w.getSlot conn.slot
    match s.callback with
    | none => do
      let S ← w.getSignal sig
      match S.connections.next c with
      | none => throw .undefined
      | some it => Signal.emitLoop env sig fuel w it args log
    | some f => do
      let w1 ← env f (received args) w
      let log1 := log ++ [{ slot := conn.slot, callback := f, args := received args }]
      let S ← w1.getSignal sig
      match S.connections.next c with
      | none => throw .undefined
      | some it => Signal.emitLoop env sig fuel w1 it (forwarded args) log1

/-- The method `Signal::emit` (lines 259-265) and `operator()` (lines 217-219): the final
state and the invocations made, in order. -/
def Signal.emit (env : Env) (fuel : Nat) (w : World) (sig : Nat) (args : List Arg) :
    Except Fault (World × List Call) := do
  let S ← w.getSignal sig
  Signal.emitLoop env sig fuel w (S.connections.head?.map Prod.snd) args []

/-- Callbacks of which the one with target `f0` calls `disconnect(key)` on the Signal at
`sig`; all others leave the object graph alone. -/
def Env.disconnecting (sig : Nat) (key : SlotKey) (f0 : Nat) : Env := fun f _ w =>
  if f = f0 then Signal.disconnectKey w sig key else .ok w

/-- The dispatch that the specification describes, over the snapshot `snap` of the entries
connected when the emit started: an entry that is no longer in the registry when its turn
comes is skipped, the Slot of every other entry is invoked if it has a callback.  Arguments
are handed on as `emit` hands them on. -/
def Signal.dispatchSnapshot (env : Env) (sig : Nat) :
    Registry → World → List Arg → List Call → Except Fault (World × List Call)
  | [], w, _, log => pure (w, log)
  | (k, c) :: snap, w, args, log => do
    let S ← w.getSignal sig
    if (k, c) ∈ S.connections then do
      let conn ← w.getConn c
      let s ← w.getSlot conn.slot
      match s.callback with
      | none => Signal.dispatchSnapshot env sig snap w args log
      | some f => do
        let w1 ← env f (received args) w
        Signal.dispatchSnapshot env sig snap w1 (forwarded args)
          (log ++ [{ slot := conn.slot, callback := f, args := received args }])
    else Signal.dispatchSnapshot env sig snap w args log

/-! ## Specification vocabulary -/

/-- The Slot and the callback target behind a registry entry, when that Slot has a callback. -/
def World.target (w : World) (e : SlotKey × Nat) : Option (Nat × Nat) :=
  match w.conns e.2 with
  | none => none
  | some conn =>
    match w.slots conn.slot with
    | none => none
    | some s => s.callback.map fun f => (conn.slot, f)

/-- The Slot and callback target of an invocation. -/
def Call.target (x : Call) : Nat × Nat := (x.slot, x.callback)

/-- The invocations that a walk over the entries `m` makes when the Connections and Slots
behind them are as in `w`. -/
def World.calls (w : World) : Registry → List Arg → List Call
  | [], _ => []
  | (_, c) :: m, args =>
    match w.conns c with
    | none => []
    | some conn =>
      match w.slots conn.slot with
      | none => []
      | some s =>
        match s.callback with
        | none => World.calls w m args
        | some f =>
          { slot := conn.slot, callback := f, args := received args } ::
            World.calls w m (forwarded args)

/-- State `w1` has the Signal at `sig`, the Connections of its registry and the Slots they
reference exactly as state `w` has them. -/
def World.Agree (sig : Nat) (w w1 : World) : Prop :=
  w1.signals sig = w.signals sig ∧
  ∀ S, w.signals sig = some S → ∀ e ∈ S.connections,
    w1.conns e.2 = w.conns e.2 ∧
    ∀ conn, w.conns e.2 = some conn → w1.slots conn.slot = w.slots conn.slot

/-- No callback mutates the registry of the Signal at `sig` as it is in `w`: run in a state
that agrees with `w` on it, a callback returns a state that still does. -/
def Env.Quiet (env : Env) (sig : Nat) (w : World) : Prop :=
  ∀ f vals w1, World.Agree sig w w1 → ∃ w2, env f vals w1 = .ok w2 ∧ World.Agree sig w w2

/-- Callbacks that leave the object graph alone. -/
def Env.idle : Env := fun _ _ w => .ok w

/-- Callbacks of which the one with target `f0` calls `connect(Slot&)` on the Signal at `sig`
with the Slot at `b`; all others leave the object graph alone. -/
def Env.connecting (sig b f0 : Nat) : Env := fun f _ w =>
  if f = f0 then (Signal.connectRef w sig b).map Prod.fst else .ok w

/-- Link consistency: registries are sorted by key, every registry entry leads to a live
Connection of that Signal and key whose Slot is live and points back at it, every connected
Slot is referenced by the registry entry of its Connection, and the addresses the allocators
hand out next are unused. -/
structure World.Linked (w : World) : Prop where
  sorted : ∀ sig S, w.signals sig = some S →
    S.connections.Pairwise fun e1 e2 => e1.1 < e2.1
  entry : ∀ sig S, w.signals sig = some S → ∀ e ∈ S.connections,
    ∃ conn s, w.conns e.2 = some conn ∧ conn.signal = sig ∧ conn.key = e.1 ∧
      w.slots conn.slot = some s ∧ s.connection = some e.2
  link : ∀ a s c, w.slots a = some s → s.connection = some c →
    ∃ conn S, w.conns c = some conn ∧ conn.slot = a ∧
      w.signals conn.signal = some S ∧ (conn.key, c) ∈ S.connections
  freshConn : ∀ c, w.nextConn ≤ c → w.conns c = none
  freshSlot : ∀ a, w.nextSlot ≤ a → w.slots a = none

/-- The data-model invariants: link consistency, and every key of a registry was issued by
the counter of its Signal (it lies between 1 and the counter, a `std::size_t`). -/
structure World.WF (w : World) : Prop where
  linked : w.Linked
  keys : ∀ sig S, w.signals sig = some S → ∀ e ∈ S.connections, 1 ≤ e.1 ∧ e.1 ≤ S.sequence
  counter : ∀ sig S, w.signals sig = some S → S.sequence < SIZE_MOD

/-- During the dispatch over the snapshot `snap` from state `w`, every callback that is
invoked returns, leaves the object graph link consistent, and leaves the registry of the
Signal at `sig` as it was except for entries it removes, the entry whose callback is running
not being one of them. -/
def Signal.Tolerated (env : Env) (sig : Nat) : Registry → World → List Arg → Prop
  | [], _, _ => True
  | e :: snap, w, args =>
    ∃ S, w.signals sig = some S ∧
      (e ∉ S.connections → Signal.Tolerated env sig snap w args) ∧
      (e ∈ S.connections → w.target e = none → Signal.Tolerated env sig snap w args) ∧
      (e ∈ S.connections → ∀ a f, w.target e = some (a, f) →
        ∃ w1 S1 p, env f (received args) w = .ok w1 ∧ w1.Linked ∧
          w1.signals sig = some S1 ∧ S1.connections = S.connections.filter p ∧
          p e = true ∧ Signal.Tolerated env sig snap w1 (forwarded args))

/-! ## A sample object graph -/

/-- A state with two Signals: Signal 0 holds Slot 0 (caller-owned) under key 1 and the
registry-owned Slot 2 under key 2; Signal 1 holds Slot 3, which has no callback, under key 1;
Slot 1 is not connected. -/
def World.demo : World where
  slots := fun a =>
    match a with
    | 0 => some { callback := some 7, connection := some 0 }
    | 1 => some { callback := some 8, connection := none }
    | 2 => some { callback := some 9, connection := some 1 }
    | 3 => some { callback := none, connection := some 2 }
    | _ => none
  signals := fun a =>
    match a with
    | 0 => some { connections := [(1, 0), (2, 1)], sequence := 2 }
    | 1 => some { connections := [(1, 2)], sequence := 1 }
    | _ => none
  conns := fun c =>
    match c with
    | 0 => some { signal := 0, slot := 0, key := 1, managed := false }
    | 1 => some { signal := 0, slot := 2, key := 2, managed := true }
    | 2 => some { signal := 1, slot := 3, key := 1, managed := false }
    | _ => none
  nextSlot := 4
  nextConn := 3

/-! ## Sequences of calls on one Signal -/

/-- A call of `connect`, `disconnect` or `clear` on a Signal. -/
inductive SigOp where
  | connect (slot : Option Nat)
  | connectMove (src : Nat)
  | disconnectKey (key : SlotKey)
  | disconnectSlot (slot : Option Nat)
  | clear
deriving DecidableEq, Repr

/-- A `connect` call reports its key when it created a Connection, that is, when the map
allocated a node. -/
def issued (w : World) (r : World × SlotKey) : World × Option SlotKey :=
  (r.1, if r.1.nextConn = w.nextConn then none else some r.2)

/-- Run one call on the Signal at `sig`; the second component is the key returned by a call
that created a new Connection. -/
def SigOp.run (w : World) (sig : Nat) : SigOp → Except Fault (World × Option SlotKey)
  | .connect slot => do
    let r ← Signal.connectPtr w sig slot
    pure (issued w r)
  | .connectMove src => do
    let r ← Signal.connectMove w sig src
    pure (issued w r)
  | .disconnectKey key => do
    let w2 ← Signal.disconnectKey w sig key
    pure (w2, none)
  | .disconnectSlot slot => do
    let w2 ← Signal.disconnectSlot w sig slot
    pure (w2, none)
  | .clear => do
    let w2 ← Signal.clear w sig
    pure (w2, none)

/-- Run a sequence of calls on the Signal at `sig`; the list holds, in call order, the keys
returned by the calls that created a new Connection. -/
def runOps (sig : Nat) : World → List SigOp → Except Fault (World × List SlotKey)
  | w, [] => pure (w, [])
  | w, op :: ops => do
    let (w1, k) ← op.run w sig
    let (w2, ks) ← runOps sig w1 ops
    pure (w2, k.toList ++ ks)

/-- From `w` to `w2` no map node was allocated and the Signal at `sig`, if alive, stays alive
with its counter and gains no registry entry. -/
def World.Shrinks (sig : Nat) (w w2 : World) : Prop :=
  w2.nextConn = w.nextConn ∧
  ∀ S, w.signals sig = some S → ∃ S2, w2.signals sig = some S2 ∧
    S2.sequence = S.sequence ∧ ∀ e ∈ S2.connections, e ∈ S.connections

/-- A newly constructed Signal at address 0 and a newly constructed, caller-owned Slot with a
callback at address 0. -/
def World.fresh : World :=
  Slot.construct (Signal.construct { World.empty with nextSlot := 1 } 0) 0 (some 7)

/-- The state `World.fresh` with the Signal's counter at `n mod 2^64` after `n` map nodes
have been allocated and released. -/
def World.churned (n : Nat) : World :=
  { World.fresh with
    signals := fun x => if x = 0 then some { connections := [], sequence := n % SIZE_MOD }
      else none
    nextConn := n }

/-- The calls of `n` rounds of connecting Slot 0 by reference and disconnecting it again. -/
def churnOps : Nat → List SigOp
  | 0 => []
  | n + 1 => SigOp.connect (some 0) :: SigOp.disconnectSlot (some 0) :: churnOps n

/-- One call took the Signal from `S` to `S2` and reported `r`: the counter stayed or advanced
by one, every entry is an old one or has the new counter value as its key, and a reported key
is the new counter value. -/
def Advances (S S2 : Signal) (r : Option SlotKey) : Prop :=
  (S2.sequence = S.sequence ∨ S2.sequence = (S.sequence + 1) % SIZE_MOD) ∧
  (∀ e ∈ S2.connections,
    e ∈ S.connections ∨ (e.1 = S2.sequence ∧ S2.sequence = (S.sequence + 1) % SIZE_MOD)) ∧
  (∀ k, r = some k → k = (S.sequence + 1) % SIZE_MOD ∧ S2.sequence = k)

/-- The keys issued by rounds `m`, `m + 1`, ..., `m + n - 1` of connecting to a Signal that
started at counter 0: round `i` issues `(i + 1) mod 2^64`. -/
def churnKeys (m n : Nat) : List SlotKey :=
  (List.range' m n).map fun i => (i + 1) % SIZE_MOD

/-- The state a successful run ends in. -/
def finalWorld {α : Type} (r : Except Fault (World × α)) : World :=
  match r with
  | .ok x => x.1
  | .error _ => World.empty

/-- A sequence of calls on Signal 0 of the sample state: connect Slot 1, disconnect key 1,
connect the value of Slot 3, clear, connect Slot 1 again. -/
def demoOps : List SigOp :=
  [SigOp.connect (some 1), SigOp.disconnectKey 1, SigOp.connectMove 3, SigOp.clear,
    SigOp.connect (some 1)]

/-- The Slot at `a` is one a caller can hold a reference to: it is alive and, if it is
connected, its Connection is not managed. -/
def World.CallerOwned (w : World) (a : Nat) : Prop :=
  ∃ s, w.slots a = some s ∧
    ∀ c, s.connection = some c → ∃ conn, w.conns c = some conn ∧ conn.managed = false

/-- The arguments of a call are valid in state `w`: a Slot pointer is null or points to a
Slot the caller holds, a Slot reference refers to such a Slot. -/
def SigOp.Valid (w : World) : SigOp → Prop
  | .connect none => True
  | .connect (some a) => w.CallerOwned a
  | .connectMove src => w.CallerOwned src
  | .disconnectKey _ => True
  | .disconnectSlot none => True
  | .disconnectSlot (some a) => ∃ s, w.slots a = some s
  | .clear => True

/-- Every call of the sequence has valid arguments in the state in which it is made. -/
def ValidRun (sig : Nat) : World → List SigOp → Prop
  | _, [] => True
  | w, op :: ops => op.Valid w ∧ ∀ w1 r, op.run w sig = .ok (w1, r) → ValidRun sig w1 ops

/-! ## Reachable states -/

/-- Entry `e` of the registry of the live Signal at `sig` holds a Connection that references
the Slot at `a`. -/
def World.References (w : World) (a : Nat) (sig : Nat) (e : SlotKey × Nat) : Prop :=
  ∃ S conn, w.signals sig = some S ∧ e ∈ S.connections ∧ w.conns e.2 = some conn ∧
    conn.slot = a

/-- Link consistency as the specification words it: the back-reference of a Slot is not none
if and only if exactly one Connection in exactly one registry references the Slot, and then
the back-reference is that Connection, whose stored key is the key it is stored under and
whose signal is the Signal that holds it. -/
def World.LinkConsistent (w : World) : Prop :=
  ∀ a s, w.slots a = some s →
    (s.connection ≠ none ↔
      ∃ sig e, w.References a sig e ∧
        ∀ sig2 e2, w.References a sig2 e2 → sig2 = sig ∧ e2 = e) ∧
    (∀ c, s.connection = some c →
      ∃ sig key conn, w.References a sig (key, c) ∧ w.conns c = some conn ∧
        conn.key = key ∧ conn.signal = sig)

/-- A call of a public operation of `Slot` or `Signal`, or the construction of an object.
Slots constructed by the caller take the next unused Slot address. -/
inductive Op where
  | newSignal (p : Nat)
  | newSlot (f : Option Nat)
  | signal (sig : Nat) (op : SigOp)
  | slotCopy (src : Nat)
  | slotMove (src : Nat)
  | slotCopyAssign (dst src : Nat)
  | slotMoveAssign (dst src : Nat)
  | slotSetCallback (a : Nat) (f : Option Nat)
  | slotDisconnect (a : Nat)
  | slotDestroy (a : Nat)
  | signalMove (dst src : Nat)
  | signalMoveConstruct (p src : Nat) (garbage : SlotKey)
  | signalDestroy (sig : Nat)
deriving DecidableEq, Repr

/-- Run one operation. -/
def Op.run (w : World) : Op → Except Fault World
  | .newSignal p => pure (Signal.construct w p)
  | .newSlot f => pure (Slot.construct { w with nextSlot := w.nextSlot + 1 } w.nextSlot f)
  | .signal sig op => do
    let r ← op.run w sig
    pure r.1
  | .slotCopy src => Slot.copyConstruct { w with nextSlot := w.nextSlot + 1 } w.nextSlot src
  | .slotMove src => Slot.moveConstruct { w with nextSlot := w.nextSlot + 1 } w.nextSlot src
  | .slotCopyAssign dst src => Slot.copyAssign w dst src
  | .slotMoveAssign dst src => Slot.moveAssign w dst src
  | .slotSetCallback a f => Slot.setCallback w a f
  | .slotDisconnect a => Slot.disconnect w a
  | .slotDestroy a => Slot.destroy w a
  | .signalMove dst src => Signal.moveAssign w dst src
  | .signalMoveConstruct p src garbage => Signal.moveConstruct w p src garbage
  | .signalDestroy sig => Signal.destroy w sig

/-- The operands of an operation are objects the caller holds: live Signals, live Slots that
no Signal owns, unused storage for an object under construction. -/
def Op.Valid (w : World) : Op → Prop
  | .newSignal p => w.signals p = none
  | .newSlot _ => True
  | .signal sig op => (∃ S, w.signals sig = some S) ∧ op.Valid w
  | .slotCopy src => w.CallerOwned src
  | .slotMove src => w.CallerOwned src
  | .slotCopyAssign dst src => w.CallerOwned dst ∧ w.CallerOwned src
  | .slotMoveAssign dst src => w.CallerOwned dst ∧ w.CallerOwned src
  | .slotSetCallback a _ => w.CallerOwned a
  | .slotDisconnect a => w.CallerOwned a
  | .slotDestroy a => w.CallerOwned a
  | .signalMove dst src => (∃ T, w.signals dst = some T) ∧ ∃ S, w.signals src = some S
  | .signalMoveConstruct p src garbage =>
    w.signals p = none ∧ (∃ S, w.signals src = some S) ∧ garbage < SIZE_MOD
  | .signalDestroy sig => ∃ S, w.signals sig = some S

/-- A `connect` call with a Slot finds the counter of its Signal below `2^64 - 1`. -/
def Op.Room (w : World) : Op → Prop
  | .signal sig (.connect (some _)) => ∀ S, w.signals sig = some S → S.sequence + 1 < SIZE_MOD
  | .signal sig (.connectMove _) => ∀ S, w.signals sig = some S → S.sequence + 1 < SIZE_MOD
  | _ => True

/-- The states reachable from the world without objects by operations with valid operands
that satisfy `room`. -/
inductive Reach (room : World → Op → Prop) : World → Prop
  | empty : Reach room World.empty
  | step {w w2 : World} (op : Op) : Reach room w → op.Valid w → room w op →
      op.run w = .ok w2 → Reach room w2

/-- Signal 0 with counter `n mod 2^64`, holding the caller-owned Slot 1 under key 1; the
caller-owned Slot 0 is not connected; `n` map nodes have been allocated. -/
def World.held (n : Nat) : World where
  slots := fun a =>
    if a = 0 then some { callback := some 7, connection := none }
    else if a = 1 then some { callback := some 8, connection := some 0 }
    else none
  signals := fun x =>
    if x = 0 then some { connections := [(1, 0)], sequence := n % SIZE_MOD } else none
  conns := fun c =>
    if c = 0 then some { signal := 0, slot := 1, key := 1, managed := false } else none
  nextSlot := 2
  nextConn := n

/-- The state `World.held n` after a second Signal has been constructed at address 1 and
Slot 0 has been connected to it: Signal 1 holds Slot 0 under key 1 in map node `n`. -/
def World.split (n : Nat) : World where
  slots := fun a =>
    if a = 0 then some { callback := some 7, connection := some n }
    else if a = 1 then some { callback := some 8, connection := some 0 }
    else none
  signals := fun x =>
    if x = 0 then some { connections := [(1, 0)], sequence := n % SIZE_MOD }
    else if x = 1 then some { connections := [(1, n)], sequence := 1 }
    else none
  conns := fun c =>
    if c = 0 then some { signal := 0, slot := 1, key := 1, managed := false }
    else if c = n then some { signal := 1, slot := 0, key := 1, managed := false }
    else none
  nextSlot := 2
  nextConn := n + 1

/-! ## Basic lemmas -/

section basics

variable (w : World)

@[simp] theorem getSlot_some {a : Nat} {s : Slot} (h : w.slots a = some s) :
    w.getSlot a = .ok s := by simp [World.getSlot, h]

@[simp] theorem getSlot_none {a : Nat} (h : w.slots a = none) :
    w.getSlot a = .error .undefined := by simp [World.getSlot, h]

@[simp] theorem getSignal_some {a : Nat} {s : Signal} (h : w.signals a = some s) :
    w.getSignal a = .ok s := by simp [World.getSignal, h]

@[simp] theorem getSignal_none {a : Nat} (h : w.signals a = none) :
    w.getSignal a = .error .undefined := by simp [World.getSignal, h]

@[simp] theorem getConn_some {c : Nat} {x : Connection} (h : w.conns c = some x) :
    w.getConn c = .ok x := by simp [World.getConn, h]

@[simp] theorem getConn_none {c : Nat} (h : w.conns c = none) :
    w.getConn c = .error .undefined := by simp [World.getConn, h]

@[simp] theorem setSlot_slots (a : Nat) (s : Slot) (x : Nat) :
    (w.setSlot a s).slots x = if x = a then some s else w.slots x := rfl
@[simp] theorem setSlot_signals (a : Nat) (s : Slot) : (w.setSlot a s).signals = w.signals := rfl
@[simp] theorem setSlot_conns (a : Nat) (s : Slot) : (w.setSlot a s).conns = w.conns := rfl
@[simp] theorem setSlot_nextSlot (a : Nat) (s : Slot) : (w.setSlot a s).nextSlot = w.nextSlot := rfl
@[simp] theorem setSlot_nextConn (a : Nat) (s : Slot) : (w.setSlot a s).nextConn = w.nextConn := rfl

@[simp] theorem freeSlot_slots (a x : Nat) :
    (w.freeSlot a).slots x = if x = a then none else w.slots x := rfl
@[simp] theorem freeSlot_signals (a : Nat) : (w.freeSlot a).signals = w.signals := rfl
@[simp] theorem freeSlot_conns (a : Nat) : (w.freeSlot a).conns = w.conns := rfl
@[simp] theorem freeSlot_nextSlot (a : Nat) : (w.freeSlot a).nextSlot = w.nextSlot := rfl
@[simp] theorem freeSlot_nextConn (a : Nat) : (w.freeSlot a).nextConn = w.nextConn := rfl

@[simp] theorem setSignal_signals (a : Nat) (s : Signal) (x : Nat) :
    (w.setSignal a s).signals x = if x = a then some s else w.signals x := rfl
@[simp] theorem setSignal_slots (a : Nat) (s : Signal) : (w.setSignal a s).slots = w.slots := rfl
@[simp] theorem setSignal_conns (a : Nat) (s : Signal) : (w.setSignal a s).conns = w.conns := rfl
@[simp] theorem setSignal_nextSlot (a : Nat) (s : Signal) :
    (w.setSignal a s).nextSlot = w.nextSlot := rfl
@[simp] theorem setSignal_nextConn (a : Nat) (s : Signal) :
    (w.setSignal a s).nextConn = w.nextConn := rfl

@[simp] theorem freeSignal_signals (a x : Nat) :
    (w.freeSignal a).signals x = if x = a then none else w.signals x := rfl
@[simp] theorem freeSignal_slots (a : Nat) : (w.freeSignal a).slots = w.slots := rfl
@[simp] theorem freeSignal_conns (a : Nat) : (w.freeSignal a).conns = w.conns := rfl

@[simp] theorem setConn_conns (c : Nat) (x : Connection) (y : Nat) :
    (w.setConn c x).conns y = if y = c then some x else w.conns y := rfl
@[simp] theorem setConn_slots (c : Nat) (x : Connection) : (w.setConn c x).slots = w.slots := rfl
@[simp] theorem setConn_signals (c : Nat) (x : Connection) :
    (w.setConn c x).signals = w.signals := rfl
@[simp] theorem setConn_nextSlot (c : Nat) (x : Connection) :
    (w.setConn c x).nextSlot = w.nextSlot := rfl
@[simp] theorem setConn_nextConn (c : Nat) (x : Connection) :
    (w.setConn c x).nextConn = w.nextConn := rfl

@[simp] theorem freeConn_conns (c y : Nat) :
    (w.freeConn c).conns y = if y = c then none else w.conns y := rfl
@[simp] theorem freeConn_slots (c : Nat) : (w.freeConn c).slots = w.slots := rfl
@[simp] theorem freeConn_signals (c : Nat) : (w.freeConn c).signals = w.signals := rfl
@[simp] theorem freeConn_nextSlot (c : Nat) : (w.freeConn c).nextSlot = w.nextSlot := rfl
@[simp] theorem freeConn_nextConn (c : Nat) : (w.freeConn c).nextConn = w.nextConn := rfl

@[simp] theorem freeConns_conns (m : Registry) (y : Nat) :
    (w.freeConns m).conns y = if y ∈ m.map Prod.snd then none else w.conns y := rfl
@[simp] theorem freeConns_slots (m : Registry) : (w.freeConns m).slots = w.slots := rfl
@[simp] theorem freeConns_signals (m : Registry) : (w.freeConns m).signals = w.signals := rfl
@[simp] theorem freeConns_nextSlot (m : Registry) : (w.freeConns m).nextSlot = w.nextSlot := rfl
@[simp] theorem freeConns_nextConn (m : Registry) : (w.freeConns m).nextConn = w.nextConn := rfl

end basics

/-! ## Registry lemmas -/

theorem Registry.next_append (pre : Registry) (k c : Nat) (post : Registry)
    (h : c ∉ pre.map Prod.snd) :
    Registry.next (pre ++ (k, c) :: post) c = some (post.head?.map Prod.snd) := by
  induction pre with
  | nil => simp [Registry.next]
  | cons e pre ih =>
    obtain ⟨k', c'⟩ := e
    simp only [List.map_cons, List.mem_cons, not_or] at h
    have hne : ¬ c' = c := fun hh => h.1 hh.symm
    simp [Registry.next, hne, ih h.2]

/-! ## More registry lemmas -/

theorem Registry.find_eq_none_iff (m : Registry) (key : SlotKey) :
    Registry.find m key = none ↔ ∀ e ∈ m, e.1 ≠ key := by
  induction m with
  | nil => simp [Registry.find]
  | cons e m ih =>
    obtain ⟨k, c⟩ := e
    by_cases h : k = key <;> simp [Registry.find, h, ih]

theorem Registry.mem_of_find (m : Registry) (key : SlotKey) (c : Nat)
    (h : Registry.find m key = some c) : (key, c) ∈ m := by
  induction m with
  | nil => simp [Registry.find] at h
  | cons e m ih =>
    obtain ⟨k, c'⟩ := e
    by_cases hk : k = key
    · simp [Registry.find, hk] at h
      simp [hk, h]
    · simp [Registry.find, hk] at h
      exact List.mem_cons_of_mem _ (ih h)

theorem Registry.find_of_mem (m : Registry) (key : SlotKey) (c : Nat)
    (hsorted : m.Pairwise fun e1 e2 => e1.1 < e2.1) (h : (key, c) ∈ m) :
    Registry.find m key = some c := by
  induction m with
  | nil => simp at h
  | cons e m ih =>
    obtain ⟨k, c'⟩ := e
    rw [List.pairwise_cons] at hsorted
    rcases List.mem_cons.1 h with heq | hmem
    · cases heq
      simp [Registry.find]
    · have hlt := hsorted.1 (key, c) hmem
      have hk : ¬ k = key := fun hh => by
        rw [hh] at hlt
        exact lt_irrefl _ hlt
      simp [Registry.find, hk, ih hsorted.2 hmem]

theorem Registry.mem_insert (m : Registry) (key : SlotKey) (c : Nat) (e : SlotKey × Nat) :
    e ∈ Registry.insert m key c ↔ e = (key, c) ∨ e ∈ m := by
  induction m with
  | nil => simp [Registry.insert]
  | cons e' m ih =>
    obtain ⟨k, c'⟩ := e'
    by_cases hk : key < k
    · simp [Registry.insert, hk]
    · simp only [Registry.insert, hk, if_false, List.mem_cons, ih]
      tauto

theorem Registry.length_insert (m : Registry) (key : SlotKey) (c : Nat) :
    (Registry.insert m key c).length = m.length + 1 := by
  induction m with
  | nil => simp [Registry.insert]
  | cons e' m ih =>
    obtain ⟨k, c'⟩ := e'
    by_cases hk : key < k <;> simp [Registry.insert, hk, ih]

theorem Registry.find_insert (m : Registry) (key : SlotKey) (c : Nat)
    (habs : Registry.find m key = none) (k : SlotKey) :
    Registry.find (Registry.insert m key c) k = if k = key then some c else Registry.find m k := by
  induction m with
  | nil =>
    by_cases h : key = k
    · simp [Registry.insert, Registry.find, h]
    · have h' : ¬ k = key := fun hh => h hh.symm
      simp [Registry.insert, Registry.find, h, h']
  | cons e' m ih =>
    obtain ⟨k', c'⟩ := e'
    have hk'key : ¬ k' = key := by
      intro hh
      simp [Registry.find, hh] at habs
    have habs' : Registry.find m key = none := by
      simpa [Registry.find, hk'key] using habs
    by_cases hlt : key < k'
    · by_cases h : key = k
      · subst h
        simp [Registry.insert, Registry.find, hlt]
      · have h' : ¬ k = key := fun hh => h hh.symm
        simp [Registry.insert, Registry.find, hlt, h, h']
    · by_cases h : k' = k
      · subst h
        simp [Registry.insert, Registry.find, hlt, hk'key]
      · simp [Registry.insert, Registry.find, hlt, h, ih habs']

theorem Registry.sorted_insert (m : Registry) (key : SlotKey) (c : Nat)
    (hsorted : m.Pairwise fun e1 e2 => e1.1 < e2.1) (habs : ∀ e ∈ m, e.1 ≠ key) :
    (Registry.insert m key c).Pairwise fun e1 e2 => e1.1 < e2.1 := by
  induction m with
  | nil => simp [Registry.insert]
  | cons e' m ih =>
    obtain ⟨k', c'⟩ := e'
    rw [List.pairwise_cons] at hsorted
    by_cases hlt : key < k'
    · simp only [Registry.insert, hlt, if_true]
      rw [List.pairwise_cons]
      refine ⟨?_, List.pairwise_cons.2 hsorted⟩
      intro e he
      rcases List.mem_cons.1 he with rfl | hmem
      · exact hlt
      · exact lt_trans hlt (hsorted.1 e hmem)
    · simp only [Registry.insert, hlt, if_false]
      rw [List.pairwise_cons]
      refine ⟨?_, ih hsorted.2 (fun e he => habs e (List.mem_cons_of_mem _ he))⟩
      intro e he
      rcases (Registry.mem_insert m key c e).1 he with rfl | hmem
      · have hne : k' ≠ key := habs (k', c') (List.mem_cons_self _ _)
        exact lt_of_le_of_ne (not_lt.1 hlt) hne
      · exact hsorted.1 e hmem

theorem Registry.mem_erase (m : Registry) (key : SlotKey) (e : SlotKey × Nat) :
    e ∈ Registry.erase m key ↔ e ∈ m ∧ e.1 ≠ key := by
  simp [Registry.erase]

theorem Registry.erase_cons (k' : SlotKey) (c' : Nat) (m : Registry) (key : SlotKey) :
    Registry.erase ((k', c') :: m) key
      = if k' = key then Registry.erase m key else (k', c') :: Registry.erase m key := by
  by_cases h1 : k' = key <;> simp [Registry.erase, List.filter_cons, h1]

theorem Registry.find_erase (m : Registry) (key k : SlotKey) :
    Registry.find (Registry.erase m key) k = if k = key then none else Registry.find m k := by
  induction m with
  | nil => simp [Registry.erase, Registry.find]
  | cons e' m ih =>
    obtain ⟨k', c'⟩ := e'
    rw [Registry.erase_cons]
    by_cases h1 : k' = key
    · by_cases h2 : k = key
      · subst h2
        simpa [h1] using ih
      · have h3 : ¬ key = k := fun hh => h2 hh.symm
        simp [h1, h2, h3, ih, Registry.find]
    · by_cases h2 : k' = k
      · subst h2
        simp [h1, Registry.find]
      · simp [h1, h2, ih, Registry.find]

theorem Registry.sorted_erase (m : Registry) (key : SlotKey)
    (hsorted : m.Pairwise fun e1 e2 => e1.1 < e2.1) :
    (Registry.erase m key).Pairwise fun e1 e2 => e1.1 < e2.1 :=
  List.Pairwise.filter _ hsorted

theorem Registry.erase_eq_self (m : Registry) (key : SlotKey) (h : ∀ e ∈ m, e.1 ≠ key) :
    Registry.erase m key = m := by
  induction m with
  | nil => simp [Registry.erase]
  | cons e' m ih =>
    obtain ⟨k', c'⟩ := e'
    have h1 : ¬ k' = key := h (k', c') (List.mem_cons_self _ _)
    rw [Registry.erase_cons, if_neg h1, ih (fun e he => h e (List.mem_cons_of_mem _ he))]

theorem Registry.length_erase (m : Registry) (key : SlotKey) (c : Nat)
    (hsorted : m.Pairwise fun e1 e2 => e1.1 < e2.1) (h : (key, c) ∈ m) :
    (Registry.erase m key).length + 1 = m.length := by
  induction m with
  | nil => simp at h
  | cons e' m ih =>
    obtain ⟨k', c'⟩ := e'
    rw [List.pairwise_cons] at hsorted
    rw [Registry.erase_cons]
    by_cases h1 : k' = key
    · have hrest : Registry.erase m key = m := by
        apply Registry.erase_eq_self
        intro e he
        have hlt := hsorted.1 e he
        rw [h1] at hlt
        exact ne_of_gt hlt
      simp [h1, hrest]
    · have hmem : (key, c) ∈ m := by
        rcases List.mem_cons.1 h with heq | hmem
        · cases heq; exact absurd rfl h1
        · exact hmem
      simp [h1, ih hsorted.2 hmem]

/-! ## Consequences of the invariants -/

theorem World.Linked.nodes_nodup {w : World} (hw : w.Linked) {sig : Nat} {S : Signal}
    (hS : w.signals sig = some S) : (S.connections.map Prod.snd).Nodup := by
  have hsorted := hw.sorted sig S hS
  have hentry := hw.entry sig S hS
  rw [List.Nodup, List.pairwise_map]
  refine List.Pairwise.imp_of_mem ?_ hsorted
  intro e1 e2 h1 h2 hlt heq
  obtain ⟨conn1, _, hc1, _, hk1, _⟩ := hentry e1 h1
  obtain ⟨conn2, _, hc2, _, hk2, _⟩ := hentry e2 h2
  rw [heq, hc2] at hc1
  cases hc1
  rw [← hk1, ← hk2] at hlt
  exact absurd hlt (lt_irrefl _)

theorem World.Linked.live {w : World} (hw : w.Linked) {sig : Nat} {S : Signal}
    (hS : w.signals sig = some S) :
    ∀ e ∈ S.connections, ∃ conn s, w.conns e.2 = some conn ∧ w.slots conn.slot = some s := by
  intro e he
  obtain ⟨conn, s, hc, _, _, hs, _⟩ := hw.entry sig S hS e he
  exact ⟨conn, s, hc, hs⟩

theorem World.agree_refl (sig : Nat) (w : World) : World.Agree sig w w :=
  ⟨rfl, fun _ _ _ _ => ⟨rfl, fun _ _ => rfl⟩⟩

theorem Env.idle_quiet (sig : Nat) (w : World) : Env.Quiet Env.idle sig w :=
  fun _ _ w1 h => ⟨w1, rfl, h⟩

/-! ## Emission when no callback mutates the registry -/

theorem World.calls_target (w : World) (m : Registry)
    (hlive : ∀ e ∈ m, ∃ conn s, w.conns e.2 = some conn ∧ w.slots conn.slot = some s)
    (args : List Arg) :
    (w.calls m args).map Call.target = m.filterMap w.target := by
  induction m generalizing args with
  | nil => simp [World.calls]
  | cons e m ih =>
    obtain ⟨k, c⟩ := e
    obtain ⟨conn, s, hc, hs⟩ := hlive (k, c) (List.mem_cons_self _ _)
    have ih' := fun args => ih (fun e he => hlive e (List.mem_cons_of_mem _ he)) args
    cases hcb : s.callback with
    | none => simp [World.calls, World.target, hc, hs, hcb, ih']
    | some f => simp [World.calls, World.target, hc, hs, hcb, ih', Call.target]

theorem emitLoop_quiet (env : Env) (w : World) (sig : Nat) (S : Signal)
    (hS : w.signals sig = some S) (hq : Env.Quiet env sig w)
    (hnd : (S.connections.map Prod.snd).Nodup)
    (hlive : ∀ e ∈ S.connections, ∃ conn s, w.conns e.2 = some conn ∧ w.slots conn.slot = some s) :
    ∀ (post pre : Registry), S.connections = pre ++ post →
    ∀ (fuel : Nat), post.length ≤ fuel →
    ∀ (args : List Arg) (log : List Call) (w1 : World), World.Agree sig w w1 →
      ∃ w2, Signal.emitLoop env sig fuel w1 (post.head?.map Prod.snd) args log
        = .ok (w2, log ++ w.calls post args) ∧ World.Agree sig w w2 := by
  intro post
  induction post with
  | nil =>
    intro pre _ fuel _ args log w1 h1
    refine ⟨w1, ?_, h1⟩
    cases fuel <;> simp [Signal.emitLoop, World.calls, pure, Except.pure]
  | cons e post ih =>
    intro pre hsplit fuel hfuel args log w1 h1
    obtain ⟨k, c⟩ := e
    cases fuel with
    | zero => simp at hfuel
    | succ fuel =>
      have hmem : (k, c) ∈ S.connections := by simp [hsplit]
      obtain ⟨conn, s, hc, hs⟩ := hlive (k, c) hmem
      have hc1 : w1.conns c = some conn := by rw [(h1.2 S hS (k, c) hmem).1]; exact hc
      have hs1 : w1.slots conn.slot = some s := by
        rw [(h1.2 S hS (k, c) hmem).2 conn hc]; exact hs
      have hnd' := hnd
      rw [hsplit] at hnd'
      simp only [List.map_append, List.map_cons] at hnd'
      have hcpre : c ∉ pre.map Prod.snd := fun hin =>
        (List.nodup_append.1 hnd').2.2 hin (List.mem_cons_self _ _)
      have hnext : S.connections.next c = some (post.head?.map Prod.snd) := by
        rw [hsplit]; exact Registry.next_append pre k c post hcpre
      have hsplit' : S.connections = (pre ++ [(k, c)]) ++ post := by simp [hsplit]
      have hfuel' : post.length ≤ fuel := by simpa using hfuel
      cases hcb : s.callback with
      | none =>
        have hS1 : w1.signals sig = some S := by rw [h1.1]; exact hS
        obtain ⟨w2, h2, hag⟩ := ih _ hsplit' fuel hfuel' args log w1 h1
        refine ⟨w2, ?_, hag⟩
        simp [Signal.emitLoop, hc, hs, hc1, hs1, hcb, hS1, hnext, bind, Except.bind,
          World.calls, h2]
      | some f =>
        obtain ⟨wf, hwf, hagf⟩ := hq f (received args) w1 h1
        have hSf : wf.signals sig = some S := by rw [hagf.1]; exact hS
        obtain ⟨w2, h2, hag⟩ := ih _ hsplit' fuel hfuel' (forwarded args)
          (log ++ [{ slot := conn.slot, callback := f, args := received args }]) wf hagf
        refine ⟨w2, ?_, hag⟩
        simp [Signal.emitLoop, hc, hs, hc1, hs1, hcb, hSf, hnext, bind, Except.bind,
          World.calls, h2, hwf]

theorem emit_quiet (env : Env) (w : World) (sig : Nat) (S : Signal)
    (hS : w.signals sig = some S) (hq : Env.Quiet env sig w)
    (hnd : (S.connections.map Prod.snd).Nodup)
    (hlive : ∀ e ∈ S.connections, ∃ conn s, w.conns e.2 = some conn ∧ w.slots conn.slot = some s)
    (fuel : Nat) (hfuel : S.connections.length ≤ fuel) (args : List Arg) :
    ∃ w2, Signal.emit env fuel w sig args = .ok (w2, w.calls S.connections args) ∧
      World.Agree sig w w2 := by
  obtain ⟨w2, h2, hag⟩ := emitLoop_quiet env w sig S hS hq hnd hlive S.connections [] rfl
    fuel hfuel args [] w (World.agree_refl sig w)
  refine ⟨w2, ?_, hag⟩
  simpa [Signal.emit, hS, bind, Except.bind] using h2

/-! ## The sample object graph is well formed -/

theorem World.demo_linked : World.demo.Linked := by
  constructor
  · intro sig S h
    simp only [World.demo] at h
    split at h <;> simp at h <;> subst h <;> simp
  · intro sig S h e he
    simp only [World.demo] at h
    split at h <;> simp at h <;> subst h <;> simp at he
    · rcases he with rfl | rfl <;> simp [World.demo]
    · subst he; simp [World.demo]
  · intro a s c h hc
    simp only [World.demo] at h
    split at h <;> simp at h <;> subst h <;> simp at hc <;> subst hc <;> simp [World.demo]
  · intro c hc
    simp only [World.demo] at hc ⊢
    split <;> simp_all
  · intro a ha
    simp only [World.demo] at ha ⊢
    split <;> simp_all

theorem World.demo_wf : World.demo.WF := by
  refine ⟨World.demo_linked, ?_, ?_⟩
  · intro sig S h e he
    simp only [World.demo] at h
    split at h <;> simp at h <;> subst h <;> simp at he
    · rcases he with rfl | rfl <;> simp
    · subst he; simp
  · intro sig S h
    simp only [World.demo] at h
    split at h <;> simp at h <;> subst h <;> simp [SIZE_MOD]

/-! ## Who is invoked -/

theorem World.Linked.target_slots_nodup {w : World} (hw : w.Linked) {sig : Nat} {S : Signal}
    (hS : w.signals sig = some S) :
    ((S.connections.filterMap w.target).map Prod.fst).Nodup := by
  have hnd := hw.nodes_nodup hS
  rw [List.Nodup, List.pairwise_map] at hnd
  rw [List.Nodup, List.pairwise_map]
  have hmem : S.connections.Pairwise fun e1 e2 =>
      e1 ∈ S.connections ∧ e2 ∈ S.connections ∧ e1.2 ≠ e2.2 :=
    List.Pairwise.imp_of_mem (fun h1 h2 h => ⟨h1, h2, h⟩) hnd
  refine List.Pairwise.filterMap w.target ?_ hmem
  rintro e1 e2 ⟨h1, h2, hne⟩ t1 ht1 t2 ht2 heq
  obtain ⟨conn1, s1, hc1, _, _, hs1, hb1⟩ := hw.entry sig S hS e1 h1
  obtain ⟨conn2, s2, hc2, _, _, hs2, hb2⟩ := hw.entry sig S hS e2 h2
  simp only [World.target, hc1, hs1, Option.mem_def, Option.map_eq_some'] at ht1
  simp only [World.target, hc2, hs2, Option.mem_def, Option.map_eq_some'] at ht2
  obtain ⟨f1, _, rfl⟩ := ht1
  obtain ⟨f2, _, rfl⟩ := ht2
  simp only at heq
  rw [heq, hs2] at hs1
  cases hs1
  rw [hb2] at hb1
  exact hne (Option.some.inj hb1).symm

theorem World.calls_slot_mem (w : World) (m : Registry)
    (hlive : ∀ e ∈ m, ∃ conn s, w.conns e.2 = some conn ∧ w.slots conn.slot = some s)
    (args : List Arg) (a : Nat) :
    a ∈ (w.calls m args).map Call.slot ↔ ∃ e ∈ m, ∃ f, w.target e = some (a, f) := by
  have h := World.calls_target w m hlive args
  have hslot : (w.calls m args).map Call.slot = ((w.calls m args).map Call.target).map Prod.fst := by
    simp [Call.target, Function.comp_def]
  rw [hslot, h]
  simp only [List.mem_map, List.mem_filterMap, Prod.exists, exists_and_right, exists_eq_right]
  constructor
  · rintro ⟨f, k, c, hmem, ht⟩
    exact ⟨k, c, hmem, f, ht⟩
  · rintro ⟨k, c, hmem, f, ht⟩
    exact ⟨f, k, c, hmem, ht⟩

/-! ## Connecting -/

theorem next_key_ne (k n M : Nat) (h1 : 1 ≤ k) (h2 : k ≤ n) (hc : n < M) :
    k ≠ (n + 1) % M := by
  by_cases hlt : n + 1 < M
  · rw [Nat.mod_eq_of_lt hlt]
    omega
  · have hM : n + 1 = M := by omega
    rw [hM, Nat.mod_self]
    omega

theorem World.WF.next_key_absent {w : World} (hw : w.WF) {sig : Nat} {S : Signal}
    (hS : w.signals sig = some S) :
    S.connections.find ((S.sequence + 1) % SIZE_MOD) = none := by
  rw [Registry.find_eq_none_iff]
  intro e he
  have hk := hw.keys sig S hS e he
  exact next_key_ne e.1 S.sequence SIZE_MOD hk.1 hk.2 (hw.counter sig S hS)

theorem connectNew_ok (w : World) (sig a : Nat) (managed : Bool) (S : Signal) (s : Slot)
    (hS : w.signals sig = some S) (hs : w.slots a = some s)
    (habs : S.connections.find ((S.sequence + 1) % SIZE_MOD) = none) :
    ∃ w2, Signal.connectNew w sig a managed = .ok (w2, (S.sequence + 1) % SIZE_MOD) ∧
      w2.signals = (fun x => if x = sig then
        some { connections := S.connections.insert ((S.sequence + 1) % SIZE_MOD) w.nextConn,
               sequence := (S.sequence + 1) % SIZE_MOD } else w.signals x) ∧
      w2.conns = (fun y => if y = w.nextConn then
        some { signal := sig, slot := a, key := (S.sequence + 1) % SIZE_MOD, managed := managed }
        else w.conns y) ∧
      w2.slots = (fun x => if x = a then some { s with connection := some w.nextConn }
        else w.slots x) ∧
      w2.nextConn = w.nextConn + 1 ∧ w2.nextSlot = w.nextSlot := by
  refine ⟨((({ (w.setSignal sig { S with sequence := (S.sequence + 1) % SIZE_MOD }) with
      nextConn := w.nextConn + 1 }).setConn w.nextConn
      { signal := sig, slot := a, key := (S.sequence + 1) % SIZE_MOD, managed := managed }).setSignal
      sig { connections := S.connections.insert ((S.sequence + 1) % SIZE_MOD) w.nextConn,
            sequence := (S.sequence + 1) % SIZE_MOD }).setSlot a
      { s with connection := some w.nextConn }, ?_, ?_, ?_, ?_, ?_, ?_⟩
  · simp [Signal.connectNew, hS, hs, habs, bind, Except.bind, pure, Except.pure]
  · funext x
    by_cases hx : x = sig <;> simp [hx]
  · funext y
    simp [World.setConn]
  · funext x
    simp
  · simp
  · simp

/-! ## Disconnecting -/

theorem releaseSlot_ok (w : World) (c : Nat) (conn : Connection) (s : Slot)
    (hc : w.conns c = some conn) (hs : w.slots conn.slot = some s) :
    ∃ w2, Connection.releaseSlot w c = .ok w2 ∧
      w2.slots = (fun x => if x = conn.slot then
        (if conn.managed then none else some { s with connection := none }) else w.slots x) ∧
      w2.signals = w.signals ∧ w2.conns = w.conns ∧
      w2.nextConn = w.nextConn ∧ w2.nextSlot = w.nextSlot := by
  cases hm : conn.managed with
  | true =>
    refine ⟨(w.setSlot conn.slot { s with connection := none }).freeSlot conn.slot,
      ?_, ?_, rfl, rfl, rfl, rfl⟩
    · simp [Connection.releaseSlot, hc, hs, hm, bind, Except.bind, pure, Except.pure]
    · funext x
      by_cases hx : x = conn.slot <;> simp [hx]
  | false =>
    refine ⟨w.setSlot conn.slot { s with connection := none }, ?_, ?_, rfl, rfl, rfl, rfl⟩
    · simp [Connection.releaseSlot, hc, hs, hm, bind, Except.bind, pure, Except.pure]
    · funext x
      by_cases hx : x = conn.slot <;> simp [hx]

theorem disconnectKey_absent (w : World) (sig : Nat) (key : SlotKey) (S : Signal)
    (hS : w.signals sig = some S) (hfind : S.connections.find key = none) :
    Signal.disconnectKey w sig key = .ok w := by
  simp [Signal.disconnectKey, hS, hfind, bind, Except.bind, pure, Except.pure]

theorem disconnectKey_ok (w : World) (sig : Nat) (key : SlotKey) (S : Signal) (c : Nat)
    (conn : Connection) (s : Slot) (hS : w.signals sig = some S)
    (hfind : S.connections.find key = some c) (hc : w.conns c = some conn)
    (hs : w.slots conn.slot = some s) :
    ∃ w2, Signal.disconnectKey w sig key = .ok w2 ∧
      w2.signals = (fun x => if x = sig then
        some { connections := S.connections.erase key, sequence := S.sequence }
        else w.signals x) ∧
      w2.conns = (fun y => if y = c then none else w.conns y) ∧
      w2.slots = (fun x => if x = conn.slot then
        (if conn.managed then none else some { s with connection := none }) else w.slots x) ∧
      w2.nextConn = w.nextConn ∧ w2.nextSlot = w.nextSlot := by
  obtain ⟨w1, h1, hsl, hsg, hcn, hnc, hns⟩ := releaseSlot_ok w c conn s hc hs
  have hS1 : w1.signals sig = some S := by rw [hsg]; exact hS
  refine ⟨(w1.setSignal sig { S with connections := S.connections.erase key }).freeConn c,
    ?_, ?_, ?_, ?_, ?_, ?_⟩
  · simp [Signal.disconnectKey, hS, hfind, h1, hS1, bind, Except.bind, pure, Except.pure]
  · funext x
    by_cases hx : x = sig <;> simp [hx, hsg]
  · funext y
    simp [hcn]
  · simp [hsl]
  · simpa using hnc
  · simpa using hns

theorem World.Linked.of_find {w : World} (hw : w.Linked) {sig : Nat} {S : Signal} {key : SlotKey}
    {c : Nat} (hS : w.signals sig = some S) (hfind : S.connections.find key = some c) :
    ∃ conn s, w.conns c = some conn ∧ conn.signal = sig ∧ conn.key = key ∧
      w.slots conn.slot = some s ∧ s.connection = some c :=
  hw.entry sig S hS (key, c) (Registry.mem_of_find _ _ _ hfind)

theorem World.Linked.find_of_link {w : World} (hw : w.Linked) {a c : Nat} {s : Slot}
    (hs : w.slots a = some s) (hconn : s.connection = some c) :
    ∃ conn S, w.conns c = some conn ∧ conn.slot = a ∧ w.signals conn.signal = some S ∧
      S.connections.find conn.key = some c := by
  obtain ⟨conn, S, hc, hsl, hS, hmem⟩ := hw.link a s c hs hconn
  exact ⟨conn, S, hc, hsl, hS, Registry.find_of_mem _ _ _ (hw.sorted _ S hS) hmem⟩

theorem disconnectKey_linked (w w2 : World) (hw : w.Linked) (sig : Nat) (key : SlotKey) (S : Signal)
    (c : Nat) (conn : Connection) (s : Slot) (hS : w.signals sig = some S)
    (hfind : S.connections.find key = some c) (hc : w.conns c = some conn)
    (hs : w.slots conn.slot = some s)
    (hsig : w2.signals = (fun x => if x = sig then
        some { connections := S.connections.erase key, sequence := S.sequence }
        else w.signals x))
    (hconns : w2.conns = (fun y => if y = c then none else w.conns y))
    (hslots : w2.slots = (fun x => if x = conn.slot then
        (if conn.managed then none else some { s with connection := none }) else w.slots x))
    (hnc : w2.nextConn = w.nextConn) (hns : w2.nextSlot = w.nextSlot) : w2.Linked := by
  obtain ⟨conn0, s0, hc0, hcsig, hckey, hs0, hback⟩ := hw.of_find hS hfind
  rw [hc] at hc0
  cases hc0
  rw [hs] at hs0
  cases hs0
  -- an entry of any registry other than the erased one keeps its node and its Slot
  have keep : ∀ t T, w.signals t = some T → ∀ e ∈ T.connections, (t = sig → e.1 ≠ key) →
      ∃ conn1 s1, w2.conns e.2 = some conn1 ∧ conn1.signal = t ∧ conn1.key = e.1 ∧
        w2.slots conn1.slot = some s1 ∧ s1.connection = some e.2 := by
    intro t T hT e he hne
    obtain ⟨conn1, s1, hc1, hsig1, hkey1, hs1, hb1⟩ := hw.entry t T hT e he
    have hne_c : e.2 ≠ c := by
      intro heq
      rw [heq, hc] at hc1
      cases hc1
      exact hne (hsig1.symm.trans hcsig) (hkey1.symm.trans hckey)
    have hne_s : conn1.slot ≠ conn.slot := by
      intro heq
      rw [heq, hs] at hs1
      cases hs1
      rw [hback] at hb1
      exact hne_c (Option.some.inj hb1).symm
    refine ⟨conn1, s1, ?_, hsig1, hkey1, ?_, hb1⟩
    · rw [hconns]; simp [hne_c, hc1]
    · rw [hslots]; simp [hne_s, hs1]
  constructor
  · intro t T hT
    rw [hsig] at hT
    by_cases ht : t = sig
    · simp [ht] at hT
      subst hT
      exact Registry.sorted_erase _ _ (hw.sorted sig S hS)
    · simp [ht] at hT
      exact hw.sorted t T hT
  · intro t T hT e he
    rw [hsig] at hT
    by_cases ht : t = sig
    · simp [ht] at hT
      subst hT
      subst ht
      rw [Registry.mem_erase] at he
      exact keep t S hS e he.1 (fun _ => he.2)
    · simp [ht] at hT
      exact keep t T hT e he (fun h => absurd h ht)
  · intro b sb cb hb hcb
    rw [hslots] at hb
    by_cases hbs : b = conn.slot
    · cases hm : conn.managed <;> simp [hbs, hm] at hb
      subst hb
      simp at hcb
    · simp [hbs] at hb
      obtain ⟨connb, T, hcb1, hslb, hT, hmem⟩ := hw.link b sb cb hb hcb
      have hne_c : cb ≠ c := by
        intro heq
        rw [heq, hc] at hcb1
        cases hcb1
        exact hbs hslb.symm
      by_cases ht : connb.signal = sig
      · rw [ht, hS] at hT
        cases hT
        refine ⟨connb, { connections := S.connections.erase key, sequence := S.sequence },
          ?_, hslb, ?_, ?_⟩
        · rw [hconns]; simp [hne_c, hcb1]
        · rw [hsig]; simp [ht]
        · rw [Registry.mem_erase]
          refine ⟨hmem, ?_⟩
          intro hk
          have hk' : connb.key = key := hk
          rw [hk'] at hmem
          have := Registry.find_of_mem _ _ _ (hw.sorted sig S hS) hmem
          rw [hfind] at this
          exact hne_c (Option.some.inj this).symm
      · refine ⟨connb, T, ?_, hslb, ?_, hmem⟩
        · rw [hconns]; simp [hne_c, hcb1]
        · rw [hsig]; simp [ht, hT]
  · intro y hy
    rw [hconns]
    rw [hnc] at hy
    by_cases hyc : y = c
    · simp [hyc]
    · simp [hyc, hw.freshConn y hy]
  · intro x hx
    rw [hslots]
    rw [hns] at hx
    by_cases hxs : x = conn.slot
    · have := hw.freshSlot x hx
      rw [hxs, hs] at this
      cases this
    · simp [hxs, hw.freshSlot x hx]

theorem disconnectKey_wf (w w2 : World) (hw : w.WF) (sig : Nat) (key : SlotKey) (S : Signal)
    (c : Nat) (conn : Connection) (s : Slot) (hS : w.signals sig = some S)
    (hfind : S.connections.find key = some c) (hc : w.conns c = some conn)
    (hs : w.slots conn.slot = some s)
    (hsig : w2.signals = (fun x => if x = sig then
        some { connections := S.connections.erase key, sequence := S.sequence }
        else w.signals x))
    (hconns : w2.conns = (fun y => if y = c then none else w.conns y))
    (hslots : w2.slots = (fun x => if x = conn.slot then
        (if conn.managed then none else some { s with connection := none }) else w.slots x))
    (hnc : w2.nextConn = w.nextConn) (hns : w2.nextSlot = w.nextSlot) : w2.WF := by
  refine ⟨disconnectKey_linked w w2 hw.linked sig key S c conn s hS hfind hc hs hsig hconns
    hslots hnc hns, ?_, ?_⟩
  · intro t T hT e he
    rw [hsig] at hT
    by_cases ht : t = sig
    · simp [ht] at hT
      subst hT
      rw [Registry.mem_erase] at he
      exact hw.keys sig S hS e he.1
    · simp [ht] at hT
      exact hw.keys t T hT e he
  · intro t T hT
    rw [hsig] at hT
    by_cases ht : t = sig
    · simp [ht] at hT
      subst hT
      exact hw.counter sig S hS
    · simp [ht] at hT
      exact hw.counter t T hT

/-! ## Which Slots an emission reaches -/

theorem emit_slots (env : Env) (w : World) (sig : Nat) (S : Signal) (args : List Arg)
    (fuel : Nat) (hw : w.Linked) (hS : w.signals sig = some S) (hq : Env.Quiet env sig w)
    (hfuel : S.connections.length ≤ fuel) :
    ∃ w2 log, Signal.emit env fuel w sig args = .ok (w2, log) ∧
      World.Agree sig w w2 ∧
      log.map Call.target = S.connections.filterMap w.target ∧
      (log.map Call.slot).Nodup ∧
      ∀ a, a ∈ log.map Call.slot ↔ ∃ e ∈ S.connections, ∃ f, w.target e = some (a, f) := by
  obtain ⟨w2, h2, hag⟩ := emit_quiet env w sig S hS hq (hw.nodes_nodup hS) (hw.live hS)
    fuel hfuel args
  have ht := World.calls_target w S.connections (hw.live hS) args
  refine ⟨w2, _, h2, hag, ht, ?_, World.calls_slot_mem w S.connections (hw.live hS) args⟩
  have hslot : (w.calls S.connections args).map Call.slot
      = ((w.calls S.connections args).map Call.target).map Prod.fst := by
    simp [Call.target, Function.comp_def]
  rw [hslot, ht]
  exact hw.target_slots_nodup hS

theorem emit_skips (env : Env) (w : World) (sig : Nat) (S : Signal) (args : List Arg)
    (fuel : Nat) (hw : w.Linked) (hS : w.signals sig = some S) (hq : Env.Quiet env sig w)
    (hfuel : S.connections.length ≤ fuel) (a : Nat)
    (hna : ∀ s c conn, w.slots a = some s → s.connection = some c →
      w.conns c = some conn → conn.signal ≠ sig) :
    ∃ w2 log, Signal.emit env fuel w sig args = .ok (w2, log) ∧ a ∉ log.map Call.slot := by
  obtain ⟨w2, log, h2, _, _, _, hmem⟩ := emit_slots env w sig S args fuel hw hS hq hfuel
  refine ⟨w2, log, h2, ?_⟩
  rw [hmem]
  rintro ⟨e, he, f, ht⟩
  obtain ⟨conn, s, hc, hsig, _, hs, hb⟩ := hw.entry sig S hS e he
  simp only [World.target, hc, hs, Option.map_eq_some'] at ht
  obtain ⟨_, _, heq⟩ := ht
  have hslot : conn.slot = a := congrArg Prod.fst heq
  rw [hslot] at hs
  exact hna s e.2 conn hs hb hc hsig

theorem emit_once (env : Env) (w : World) (sig : Nat) (S : Signal) (args : List Arg)
    (fuel : Nat) (hw : w.Linked) (hS : w.signals sig = some S) (hq : Env.Quiet env sig w)
    (hfuel : S.connections.length ≤ fuel) (a c f : Nat) (s : Slot) (conn : Connection)
    (hs : w.slots a = some s) (hb : s.connection = some c) (hc : w.conns c = some conn)
    (hsig : conn.signal = sig) (hf : s.callback = some f) :
    ∃ w2 log, Signal.emit env fuel w sig args = .ok (w2, log) ∧
      (log.map Call.slot).count a = 1 ∧ (a, f) ∈ log.map Call.target := by
  obtain ⟨w2, log, h2, _, ht, hnd, hmem⟩ := emit_slots env w sig S args fuel hw hS hq hfuel
  obtain ⟨conn1, S1, hc1, hsl1, hS1, hin⟩ := hw.link a s c hs hb
  rw [hc] at hc1
  cases hc1
  rw [hsig, hS] at hS1
  cases hS1
  have htarget : w.target (conn.key, c) = some (a, f) := by
    simp [World.target, hc, hsl1, hs, hf]
  refine ⟨w2, log, h2, ?_, ?_⟩
  · exact List.count_eq_one_of_mem hnd ((hmem a).2 ⟨_, hin, f, htarget⟩)
  · rw [ht, List.mem_filterMap]
    exact ⟨_, hin, htarget⟩

/-! ## Connecting keeps the invariants -/

theorem connectNew_linked (w w2 : World) (hw : w.Linked) (sig a : Nat) (managed : Bool)
    (S : Signal) (s : Slot) (key : SlotKey) (hS : w.signals sig = some S)
    (hs : w.slots a = some s) (hnc : s.connection = none)
    (habs : S.connections.find key = none)
    (hsig : w2.signals = (fun x => if x = sig then
        some { connections := S.connections.insert key w.nextConn, sequence := key }
        else w.signals x))
    (hconns : w2.conns = (fun y => if y = w.nextConn then
        some { signal := sig, slot := a, key := key, managed := managed } else w.conns y))
    (hslots : w2.slots = (fun x => if x = a then some { s with connection := some w.nextConn }
        else w.slots x))
    (hnext : w2.nextConn = w.nextConn + 1) (hns : w2.nextSlot = w.nextSlot) : w2.Linked := by
  have hfresh : w.conns w.nextConn = none := hw.freshConn _ (le_refl _)
  have keep : ∀ t T, w.signals t = some T → ∀ e ∈ T.connections,
      ∃ conn1 s1, w2.conns e.2 = some conn1 ∧ conn1.signal = t ∧ conn1.key = e.1 ∧
        w2.slots conn1.slot = some s1 ∧ s1.connection = some e.2 := by
    intro t T hT e he
    obtain ⟨conn1, s1, hc1, hsig1, hkey1, hs1, hb1⟩ := hw.entry t T hT e he
    have hne_c : e.2 ≠ w.nextConn := by
      intro heq
      rw [heq, hfresh] at hc1
      cases hc1
    have hne_s : conn1.slot ≠ a := by
      intro heq
      rw [heq, hs] at hs1
      cases hs1
      rw [hnc] at hb1
      cases hb1
    refine ⟨conn1, s1, ?_, hsig1, hkey1, ?_, hb1⟩
    · rw [hconns]; simp [hne_c, hc1]
    · rw [hslots]; simp [hne_s, hs1]
  constructor
  · intro t T hT
    rw [hsig] at hT
    by_cases ht : t = sig
    · simp [ht] at hT
      subst hT
      exact Registry.sorted_insert _ _ _ (hw.sorted sig S hS)
        ((Registry.find_eq_none_iff _ _).1 habs)
    · simp [ht] at hT
      exact hw.sorted t T hT
  · intro t T hT e he
    rw [hsig] at hT
    by_cases ht : t = sig
    · simp [ht] at hT
      subst hT
      subst ht
      rcases (Registry.mem_insert _ _ _ _).1 he with rfl | hmem
      · refine ⟨{ signal := t, slot := a, key := key, managed := managed },
          { s with connection := some w.nextConn }, ?_, rfl, rfl, ?_, rfl⟩
        · rw [hconns]; simp
        · rw [hslots]; simp
      · exact keep t S hS e hmem
    · simp [ht] at hT
      exact keep t T hT e he
  · intro b sb cb hb hcb
    rw [hslots] at hb
    by_cases hba : b = a
    · simp [hba] at hb
      subst hb
      simp at hcb
      subst hcb
      refine ⟨{ signal := sig, slot := a, key := key, managed := managed },
        { connections := S.connections.insert key w.nextConn, sequence := key },
        ?_, hba.symm, ?_, ?_⟩
      · rw [hconns]; simp
      · rw [hsig]; simp
      · exact (Registry.mem_insert _ _ _ _).2 (Or.inl rfl)
    · simp [hba] at hb
      obtain ⟨connb, T, hcb1, hslb, hT, hmem⟩ := hw.link b sb cb hb hcb
      have hne_c : cb ≠ w.nextConn := by
        intro heq
        rw [heq, hfresh] at hcb1
        cases hcb1
      by_cases ht : connb.signal = sig
      · rw [ht, hS] at hT
        cases hT
        refine ⟨connb, { connections := S.connections.insert key w.nextConn, sequence := key },
          ?_, hslb, ?_, ?_⟩
        · rw [hconns]; simp [hne_c, hcb1]
        · rw [hsig]; simp [ht]
        · exact (Registry.mem_insert _ _ _ _).2 (Or.inr hmem)
      · refine ⟨connb, T, ?_, hslb, ?_, hmem⟩
        · rw [hconns]; simp [hne_c, hcb1]
        · rw [hsig]; simp [ht, hT]
  · intro y hy
    rw [hconns]
    rw [hnext] at hy
    have hne : y ≠ w.nextConn := by omega
    simp [hne]
    exact hw.freshConn y (by omega)
  · intro x hx
    rw [hslots]
    rw [hns] at hx
    have hne : x ≠ a := by
      intro heq
      have := hw.freshSlot x hx
      rw [heq, hs] at this
      cases this
    simp [hne, hw.freshSlot x hx]

theorem connectNew_wf (w w2 : World) (hw : w.WF) (sig a : Nat) (managed : Bool)
    (S : Signal) (s : Slot) (hS : w.signals sig = some S)
    (hs : w.slots a = some s) (hnc : s.connection = none)
    (hroom : S.sequence + 1 < SIZE_MOD)
    (hsig : w2.signals = (fun x => if x = sig then
        some { connections := S.connections.insert ((S.sequence + 1) % SIZE_MOD) w.nextConn,
               sequence := (S.sequence + 1) % SIZE_MOD }
        else w.signals x))
    (hconns : w2.conns = (fun y => if y = w.nextConn then
        some { signal := sig, slot := a, key := (S.sequence + 1) % SIZE_MOD, managed := managed }
        else w.conns y))
    (hslots : w2.slots = (fun x => if x = a then some { s with connection := some w.nextConn }
        else w.slots x))
    (hnext : w2.nextConn = w.nextConn + 1) (hns : w2.nextSlot = w.nextSlot) : w2.WF := by
  have habs := hw.next_key_absent hS
  refine ⟨connectNew_linked w w2 hw.linked sig a managed S s _ hS hs hnc habs hsig hconns
    hslots hnext hns, ?_, ?_⟩
  · intro t T hT e he
    rw [hsig] at hT
    by_cases ht : t = sig
    · simp [ht] at hT
      subst hT
      simp only [Nat.mod_eq_of_lt hroom] at he ⊢
      rcases (Registry.mem_insert _ _ _ _).1 he with rfl | hmem
      · exact ⟨Nat.le_add_left 1 _, le_refl _⟩
      · have := hw.keys sig S hS e hmem
        exact ⟨this.1, le_trans this.2 (Nat.le_succ _)⟩
    · simp [ht] at hT
      exact hw.keys t T hT e he
  · intro t T hT
    rw [hsig] at hT
    by_cases ht : t = sig
    · simp [ht] at hT
      subst hT
      exact Nat.mod_lt _ (by simp [SIZE_MOD])
    · simp [ht] at hT
      exact hw.counter t T hT

/-! ## `Slot::disconnect` -/

theorem slot_disconnect_unconnected (w : World) (a : Nat) (s : Slot)
    (hs : w.slots a = some s) (hb : s.connection = none) :
    Slot.disconnect w a = .ok w := by
  simp [Slot.disconnect, hs, hb, bind, Except.bind, pure, Except.pure]

theorem slot_disconnect_connected (w : World) (a c : Nat) (s : Slot) (conn : Connection)
    (hs : w.slots a = some s) (hb : s.connection = some c) (hc : w.conns c = some conn) :
    Slot.disconnect w a = Signal.disconnectKey w conn.signal conn.key := by
  simp [Slot.disconnect, Signal.disconnectSlot, hs, hb, hc, bind, Except.bind]

theorem disconnectSlot_connected (w : World) (sig a c : Nat) (s : Slot) (conn : Connection)
    (hs : w.slots a = some s) (hb : s.connection = some c) (hc : w.conns c = some conn)
    (hsig : conn.signal = sig) :
    Signal.disconnectSlot w sig (some a) = Signal.disconnectKey w sig conn.key := by
  simp [Signal.disconnectSlot, hs, hb, hc, hsig, bind, Except.bind]

/-! ## Connecting a Slot that is connected elsewhere -/

theorem connect_migrate (w : World) (sigA sigB a c : Nat) (SA SB : Signal) (s : Slot)
    (conn : Connection) (managed : Bool) (hw : w.WF) (hne : sigA ≠ sigB)
    (hA : w.signals sigA = some SA) (hB : w.signals sigB = some SB)
    (hs : w.slots a = some s) (hb : s.connection = some c) (hc : w.conns c = some conn)
    (hsigA : conn.signal = sigA) (hm : conn.managed = false) :
    ∃ w2, Signal.connect w sigB (some a) managed = .ok (w2, (SB.sequence + 1) % SIZE_MOD) ∧
      w2.signals = (fun x => if x = sigB then
          some { connections := SB.connections.insert ((SB.sequence + 1) % SIZE_MOD) w.nextConn,
                 sequence := (SB.sequence + 1) % SIZE_MOD }
        else if x = sigA then
          some { connections := SA.connections.erase conn.key, sequence := SA.sequence }
        else w.signals x) ∧
      w2.conns = (fun y => if y = w.nextConn then
          some { signal := sigB, slot := a, key := (SB.sequence + 1) % SIZE_MOD,
                 managed := managed }
        else if y = c then none else w.conns y) ∧
      w2.slots = (fun x => if x = a then
          some { callback := s.callback, connection := some w.nextConn } else w.slots x) ∧
      w2.nextConn = w.nextConn + 1 ∧ w2.nextSlot = w.nextSlot ∧
      w2.Linked ∧ (SB.sequence + 1 < SIZE_MOD → w2.WF) := by
  obtain ⟨conn1, S1, hc1, hslot, hS1, hfind⟩ := hw.linked.find_of_link hs hb
  rw [hc] at hc1
  cases hc1
  rw [hsigA, hA] at hS1
  cases hS1
  have hs' : w.slots conn.slot = some s := by rw [hslot]; exact hs
  obtain ⟨w1, hrun1, hsig1, hconns1, hslots1, hnc1, hns1⟩ :=
    disconnectKey_ok w sigA conn.key SA c conn s hA hfind hc hs'
  have hw1 : w1.WF :=
    disconnectKey_wf w w1 hw sigA conn.key SA c conn s hA hfind hc hs' hsig1 hconns1 hslots1
      hnc1 hns1
  have hne' : ¬ sigB = sigA := fun h => hne h.symm
  have hB1 : w1.signals sigB = some SB := by simp [hsig1, hne', hB]
  have hs1 : w1.slots a = some { s with connection := none } := by
    simp [hslots1, hslot, hm]
  have habs := hw1.next_key_absent hB1
  obtain ⟨w2, hrun2, hsig2, hconns2, hslots2, hnc2, hns2⟩ :=
    connectNew_ok w1 sigB a managed SB { s with connection := none } hB1 hs1 habs
  have hlinked : w2.Linked :=
    connectNew_linked w1 w2 hw1.linked sigB a managed SB { s with connection := none } _ hB1 hs1
      rfl habs hsig2 hconns2 hslots2 hnc2 hns2
  have hwf : SB.sequence + 1 < SIZE_MOD → w2.WF := fun hroom =>
    connectNew_wf w1 w2 hw1 sigB a managed SB { s with connection := none } hB1 hs1 rfl hroom
      hsig2 hconns2 hslots2 hnc2 hns2
  have hdis : Slot.disconnect w a = .ok w1 := by
    rw [slot_disconnect_connected w a c s conn hs hb hc, hsigA]
    exact hrun1
  have hsigne : ¬ conn.signal = sigB := by rw [hsigA]; exact hne
  refine ⟨w2, ?_, ?_, ?_, ?_, ?_, ?_, hlinked, hwf⟩
  · simp [Signal.connect, hs, hb, hc, hsigne, hdis, hrun2, bind, Except.bind]
  · rw [hsig2, hsig1, hnc1]
  · rw [hconns2, hconns1, hnc1]
  · rw [hslots2, hslots1, hnc1]
    funext x
    by_cases hx : x = a
    · simp [hx]
    · have hx' : ¬ x = conn.slot := by rw [hslot]; exact hx
      simp [hx, hx']
  · rw [hnc2, hnc1]
  · rw [hns2, hns1]

/-! ## What any call can do to the counter and the keys of a Signal -/

theorem World.shrinks_refl (sig : Nat) (w : World) : World.Shrinks sig w w :=
  ⟨rfl, fun S hS => ⟨S, hS, rfl, fun _ h => h⟩⟩

theorem World.shrinks_trans {sig : Nat} {w w1 w2 : World} (h1 : World.Shrinks sig w w1)
    (h2 : World.Shrinks sig w1 w2) : World.Shrinks sig w w2 := by
  refine ⟨h2.1.trans h1.1, ?_⟩
  intro S hS
  obtain ⟨S1, hS1, hseq1, hsub1⟩ := h1.2 S hS
  obtain ⟨S2, hS2, hseq2, hsub2⟩ := h2.2 S1 hS1
  exact ⟨S2, hS2, hseq2.trans hseq1, fun e he => hsub1 e (hsub2 e he)⟩

theorem World.shrinks_of_eq {sig : Nat} {w w2 : World} (hsig : w2.signals = w.signals)
    (hnc : w2.nextConn = w.nextConn) : World.Shrinks sig w w2 :=
  ⟨hnc, fun S hS => ⟨S, by rw [hsig]; exact hS, rfl, fun _ h => h⟩⟩

theorem releaseSlot_frame {w w2 : World} {c : Nat}
    (h : Connection.releaseSlot w c = .ok w2) :
    w2.signals = w.signals ∧ w2.nextConn = w.nextConn ∧ w2.conns = w.conns := by
  cases hc : w.conns c with
  | none => simp [Connection.releaseSlot, hc, bind, Except.bind] at h
  | some conn =>
    cases hs : w.slots conn.slot with
    | none => simp [Connection.releaseSlot, hc, hs, bind, Except.bind] at h
    | some s =>
      obtain ⟨w3, hrun, _, hsig, hcn, hnc, _⟩ := releaseSlot_ok w c conn s hc hs
      rw [hrun] at h
      cases h
      exact ⟨hsig, hnc, hcn⟩

theorem disconnectKey_shrinks {w w2 : World} {t : Nat} {key : SlotKey} (sig : Nat)
    (h : Signal.disconnectKey w t key = .ok w2) : World.Shrinks sig w w2 := by
  cases hT : w.signals t with
  | none => simp [Signal.disconnectKey, hT, bind, Except.bind] at h
  | some T =>
    cases hf : T.connections.find key with
    | none =>
      rw [disconnectKey_absent w t key T hT hf] at h
      cases h
      exact World.shrinks_refl sig w
    | some c =>
      cases hc : w.conns c with
      | none =>
        simp [Signal.disconnectKey, hT, hf, Connection.releaseSlot, hc, bind, Except.bind] at h
      | some conn =>
        cases hs : w.slots conn.slot with
        | none =>
          simp [Signal.disconnectKey, hT, hf, Connection.releaseSlot, hc, hs, bind,
            Except.bind] at h
        | some s =>
          obtain ⟨w3, hrun, hsig, _, _, hnc, _⟩ := disconnectKey_ok w t key T c conn s hT hf hc hs
          rw [hrun] at h
          cases h
          refine ⟨hnc, ?_⟩
          intro S hS
          by_cases hst : sig = t
          · subst hst
            rw [hT] at hS
            cases hS
            refine ⟨{ connections := T.connections.erase key, sequence := T.sequence },
              by simp [hsig], rfl, ?_⟩
            intro e he
            exact ((Registry.mem_erase _ _ _).1 he).1
          · exact ⟨S, by simp [hsig, hst, hS], rfl, fun _ he => he⟩

theorem disconnectSlot_shrinks {w w2 : World} {t : Nat} {slot : Option Nat} (sig : Nat)
    (h : Signal.disconnectSlot w t slot = .ok w2) : World.Shrinks sig w w2 := by
  cases slot with
  | none =>
    simp [Signal.disconnectSlot, pure, Except.pure] at h
    subst h
    exact World.shrinks_refl sig w
  | some a =>
    cases hs : w.slots a with
    | none => simp [Signal.disconnectSlot, hs, bind, Except.bind] at h
    | some s =>
      cases hb : s.connection with
      | none =>
        simp [Signal.disconnectSlot, hs, hb, bind, Except.bind, pure, Except.pure] at h
        subst h
        exact World.shrinks_refl sig w
      | some c =>
        cases hc : w.conns c with
        | none => simp [Signal.disconnectSlot, hs, hb, hc, bind, Except.bind] at h
        | some conn =>
          by_cases ht : conn.signal = t
          · rw [disconnectSlot_connected w t a c s conn hs hb hc ht] at h
            exact disconnectKey_shrinks sig h
          · simp [Signal.disconnectSlot, hs, hb, hc, ht, bind, Except.bind, pure,
              Except.pure] at h
            subst h
            exact World.shrinks_refl sig w

theorem slot_disconnect_shrinks {w w2 : World} {a : Nat} (sig : Nat)
    (h : Slot.disconnect w a = .ok w2) : World.Shrinks sig w w2 := by
  cases hs : w.slots a with
  | none => simp [Slot.disconnect, hs, bind, Except.bind] at h
  | some s =>
    cases hb : s.connection with
    | none =>
      rw [slot_disconnect_unconnected w a s hs hb] at h
      cases h
      exact World.shrinks_refl sig w
    | some c =>
      cases hc : w.conns c with
      | none => simp [Slot.disconnect, hs, hb, hc, bind, Except.bind] at h
      | some conn =>
        rw [slot_disconnect_connected w a c s conn hs hb hc] at h
        exact disconnectKey_shrinks sig h

theorem releaseAll_frame {w w2 : World} {m : Registry}
    (h : Signal.releaseAll w m = .ok w2) :
    w2.signals = w.signals ∧ w2.nextConn = w.nextConn ∧ w2.conns = w.conns := by
  induction m generalizing w with
  | nil =>
    simp [Signal.releaseAll, pure, Except.pure] at h
    subst h
    exact ⟨rfl, rfl, rfl⟩
  | cons e m ih =>
    obtain ⟨k, c⟩ := e
    cases h1 : Connection.releaseSlot w c with
    | error x => simp [Signal.releaseAll, h1, bind, Except.bind] at h
    | ok w1 =>
      simp only [Signal.releaseAll, h1, bind, Except.bind] at h
      obtain ⟨ha, hb, hc⟩ := releaseSlot_frame h1
      obtain ⟨ha2, hb2, hc2⟩ := ih h
      exact ⟨ha2.trans ha, hb2.trans hb, hc2.trans hc⟩

theorem clear_shrinks {w w2 : World} {t : Nat} (sig : Nat)
    (h : Signal.clear w t = .ok w2) : World.Shrinks sig w w2 := by
  cases hT : w.signals t with
  | none => simp [Signal.clear, hT, bind, Except.bind] at h
  | some T =>
    cases h1 : Signal.releaseAll w T.connections with
    | error x => simp [Signal.clear, hT, h1, bind, Except.bind] at h
    | ok w1 =>
      obtain ⟨ha, hb, _⟩ := releaseAll_frame h1
      have hT1 : w1.signals t = some T := by rw [ha]; exact hT
      simp [Signal.clear, hT, h1, hT1, bind, Except.bind, pure, Except.pure] at h
      subst h
      refine ⟨by simpa using hb, ?_⟩
      intro S hS
      by_cases hst : sig = t
      · subst hst
        rw [hT] at hS
        cases hS
        exact ⟨{ connections := [], sequence := T.sequence }, by simp, rfl, by simp⟩
      · exact ⟨S, by simp [hst, ha, hS], rfl, fun _ he => he⟩

theorem slot_move_frame {w w2 : World} {this src : Nat}
    (h : Slot.move w this src = .ok w2) :
    w2.signals = w.signals ∧ w2.nextConn = w.nextConn := by
  unfold Slot.move at h
  simp only [bind, Except.bind, World.getSlot, World.getConn, pure,
    Except.pure, throw, throwThe, MonadExceptOf.throw] at h
  repeat' split at h
  all_goals cases h
  all_goals first
    | exact ⟨rfl, rfl⟩
    | (have hf := releaseSlot_frame (by assumption)
       simp only [setConn_signals, setConn_nextConn, hf.1, hf.2.1, setSlot_signals,
         setSlot_nextConn, and_self])

theorem Advances.of_shrinks {sig : Nat} {w w1 : World} {S : Signal}
    (h : World.Shrinks sig w w1) (hS : w.signals sig = some S) :
    ∃ S1, w1.signals sig = some S1 ∧ Advances S S1 none := by
  obtain ⟨S1, hS1, hseq, hsub⟩ := h.2 S hS
  exact ⟨S1, hS1, Or.inl hseq, fun e he => Or.inl (hsub e he), fun k hk => by cases hk⟩

theorem connectNew_step {w : World} {sig a : Nat} {managed : Bool} {S : Signal}
    {r : World × SlotKey} (h : Signal.connectNew w sig a managed = .ok r)
    (hS : w.signals sig = some S) :
    ∃ S2, r.1.signals sig = some S2 ∧ Advances S S2 (issued w r).2 := by
  cases hf : S.connections.find ((S.sequence + 1) % SIZE_MOD) with
  | some c =>
    cases hs : w.slots a with
    | none => simp [Signal.connectNew, hS, hf, hs, bind, Except.bind] at h
    | some s =>
      simp [Signal.connectNew, hS, hf, hs, bind, Except.bind, pure, Except.pure] at h
      subst h
      refine ⟨{ connections := S.connections, sequence := (S.sequence + 1) % SIZE_MOD },
        by simp, Or.inr rfl, fun e he => Or.inl he, ?_⟩
      intro k hk
      simp [issued] at hk
  | none =>
    cases hs : w.slots a with
    | none => simp [Signal.connectNew, hS, hf, hs, bind, Except.bind] at h
    | some s =>
      obtain ⟨w2, hrun, hsig, _, _, hnc, _⟩ := connectNew_ok w sig a managed S s hS hs hf
      rw [hrun] at h
      cases h
      have hS2 : w2.signals sig = some
          { connections := S.connections.insert ((S.sequence + 1) % SIZE_MOD) w.nextConn,
            sequence := (S.sequence + 1) % SIZE_MOD } := by simp [hsig]
      refine ⟨_, hS2, Or.inr rfl, ?_, ?_⟩
      · intro e he
        rcases (Registry.mem_insert _ _ _ _).1 he with rfl | hmem
        · exact Or.inr ⟨rfl, rfl⟩
        · exact Or.inl hmem
      · intro k hk
        simp [issued, hnc] at hk
        exact ⟨hk.symm, hk⟩

theorem Advances.after_shrink {S S1 S2 : Signal} {r : Option SlotKey}
    (hseq : S1.sequence = S.sequence) (hsub : ∀ e ∈ S1.connections, e ∈ S.connections)
    (h : Advances S1 S2 r) : Advances S S2 r := by
  obtain ⟨h1, h2, h3⟩ := h
  rw [hseq] at h1 h2 h3
  refine ⟨h1, ?_, h3⟩
  intro e he
  rcases h2 e he with hin | hnew
  · exact Or.inl (hsub e hin)
  · exact Or.inr hnew

theorem connect_step {w : World} {sig : Nat} {slot : Option Nat} {managed : Bool} {S : Signal}
    {r : World × SlotKey} (h : Signal.connect w sig slot managed = .ok r)
    (hS : w.signals sig = some S) :
    ∃ S2, r.1.signals sig = some S2 ∧ Advances S S2 (issued w r).2 := by
  have hsame : ∀ k, r = (w, k) → ∃ S2, r.1.signals sig = some S2 ∧
      Advances S S2 (issued w r).2 := by
    intro k hr
    subst hr
    exact ⟨S, hS, Or.inl rfl, fun e he => Or.inl he, fun k hk => (by simp [issued] at hk)⟩
  cases slot with
  | none =>
    simp [Signal.connect, pure, Except.pure] at h
    exact hsame 0 h.symm
  | some a =>
    cases hs : w.slots a with
    | none => simp [Signal.connect, hs, bind, Except.bind] at h
    | some s =>
      cases hb : s.connection with
      | none =>
        simp only [Signal.connect, getSlot_some w hs, hb, bind, Except.bind] at h
        exact connectNew_step h hS
      | some c =>
        cases hc : w.conns c with
        | none => simp [Signal.connect, hs, hb, hc, bind, Except.bind] at h
        | some conn =>
          by_cases ht : conn.signal = sig
          · simp [Signal.connect, hs, hb, hc, ht, bind, Except.bind, pure, Except.pure] at h
            exact hsame conn.key h.symm
          · cases hd : Slot.disconnect w a with
            | error x =>
              simp [Signal.connect, hs, hb, hc, ht, hd, bind, Except.bind] at h
            | ok w1 =>
              simp only [Signal.connect, getSlot_some w hs, hb, getConn_some w hc, ht, hd, bind,
                Except.bind, if_false] at h
              have hsh := slot_disconnect_shrinks sig hd
              obtain ⟨S1, hS1, hseq, hsub⟩ := hsh.2 S hS
              obtain ⟨S2, hS2, hadv⟩ := connectNew_step h hS1
              refine ⟨S2, hS2, ?_⟩
              have hiss : (issued w r).2 = (issued w1 r).2 := by
                simp [issued, hsh.1]
              rw [hiss]
              exact Advances.after_shrink hseq hsub hadv

theorem connectMove_step {w : World} {sig src : Nat} {S : Signal}
    {r : World × SlotKey} (h : Signal.connectMove w sig src = .ok r)
    (hS : w.signals sig = some S) :
    ∃ S2, r.1.signals sig = some S2 ∧ Advances S S2 (issued w r).2 := by
  cases hm : Slot.moveConstruct { w with nextSlot := w.nextSlot + 1 } w.nextSlot src with
  | error x => simp [Signal.connectMove, hm, bind, Except.bind] at h
  | ok w1 =>
    simp only [Signal.connectMove, hm, bind, Except.bind] at h
    obtain ⟨hsig, hnc⟩ := slot_move_frame hm
    have hS1 : w1.signals sig = some S := by
      rw [hsig]; exact hS
    obtain ⟨S2, hS2, hadv⟩ := connect_step h hS1
    refine ⟨S2, hS2, ?_⟩
    have hiss : (issued w r).2 = (issued w1 r).2 := by
      have : w1.nextConn = w.nextConn := hnc
      simp [issued, this]
    rw [hiss]
    exact hadv

theorem SigOp.run_step {w w2 : World} {sig : Nat} {op : SigOp} {S : Signal}
    {r : Option SlotKey} (h : op.run w sig = .ok (w2, r)) (hS : w.signals sig = some S) :
    ∃ S2, w2.signals sig = some S2 ∧ Advances S S2 r := by
  cases op with
  | connect slot =>
    cases hc : Signal.connectPtr w sig slot with
    | error x => simp [SigOp.run, hc, bind, Except.bind] at h
    | ok r1 =>
      simp [SigOp.run, hc, bind, Except.bind, pure, Except.pure] at h
      obtain ⟨S2, hS2, hadv⟩ := connect_step hc hS
      simp only [issued, Prod.mk.injEq] at h
      obtain ⟨rfl, rfl⟩ := h
      exact ⟨S2, hS2, hadv⟩
  | connectMove src =>
    cases hc : Signal.connectMove w sig src with
    | error x => simp [SigOp.run, hc, bind, Except.bind] at h
    | ok r1 =>
      simp [SigOp.run, hc, bind, Except.bind, pure, Except.pure] at h
      obtain ⟨S2, hS2, hadv⟩ := connectMove_step hc hS
      simp only [issued, Prod.mk.injEq] at h
      obtain ⟨rfl, rfl⟩ := h
      exact ⟨S2, hS2, hadv⟩
  | disconnectKey key =>
    cases hc : Signal.disconnectKey w sig key with
    | error x => simp [SigOp.run, hc, bind, Except.bind] at h
    | ok w1 =>
      simp [SigOp.run, hc, bind, Except.bind, pure, Except.pure] at h
      obtain ⟨rfl, rfl⟩ := h
      exact Advances.of_shrinks (disconnectKey_shrinks sig hc) hS
  | disconnectSlot slot =>
    cases hc : Signal.disconnectSlot w sig slot with
    | error x => simp [SigOp.run, hc, bind, Except.bind] at h
    | ok w1 =>
      simp [SigOp.run, hc, bind, Except.bind, pure, Except.pure] at h
      obtain ⟨rfl, rfl⟩ := h
      exact Advances.of_shrinks (disconnectSlot_shrinks sig hc) hS
  | clear =>
    cases hc : Signal.clear w sig with
    | error x => simp [SigOp.run, hc, bind, Except.bind] at h
    | ok w1 =>
      simp [SigOp.run, hc, bind, Except.bind, pure, Except.pure] at h
      obtain ⟨rfl, rfl⟩ := h
      exact Advances.of_shrinks (clear_shrinks sig hc) hS

theorem runOps_keys (sig : Nat) (ops : List SigOp) :
    ∀ (w : World) (S : Signal) (w2 : World) (keys : List SlotKey),
      w.signals sig = some S → (∀ e ∈ S.connections, e.1 ≤ S.sequence) →
      S.sequence + ops.length < SIZE_MOD → runOps sig w ops = .ok (w2, keys) →
      ∃ S2, w2.signals sig = some S2 ∧ S.sequence ≤ S2.sequence ∧
        S2.sequence ≤ S.sequence + ops.length ∧
        (∀ e ∈ S2.connections, e.1 ≤ S2.sequence) ∧
        keys.Pairwise (fun k1 k2 => k1 < k2) ∧
        ∀ k ∈ keys, S.sequence < k ∧ k ≤ S2.sequence := by
  induction ops with
  | nil =>
    intro w S w2 keys hS hbound _ hrun
    simp [runOps, pure, Except.pure] at hrun
    obtain ⟨rfl, rfl⟩ := hrun
    exact ⟨S, hS, le_refl _, le_refl _, hbound, List.Pairwise.nil, by simp⟩
  | cons op ops ih =>
    intro w S w2 keys hS hbound hroom hrun
    cases h1 : op.run w sig with
    | error x => simp [runOps, h1, bind, Except.bind] at hrun
    | ok r1 =>
      obtain ⟨w1, r⟩ := r1
      cases h2 : runOps sig w1 ops with
      | error x => simp [runOps, h1, h2, bind, Except.bind] at hrun
      | ok r2 =>
        obtain ⟨w3, ks⟩ := r2
        simp [runOps, h1, h2, bind, Except.bind, pure, Except.pure] at hrun
        obtain ⟨rfl, rfl⟩ := hrun
        obtain ⟨S1, hS1, hseq, hent, hkey⟩ := SigOp.run_step h1 hS
        have hlen : (op :: ops).length = ops.length + 1 := rfl
        rw [hlen] at hroom ⊢
        have hmod : (S.sequence + 1) % SIZE_MOD = S.sequence + 1 :=
          Nat.mod_eq_of_lt (by unfold SlotKey at *; omega)
        rw [hmod] at hseq hent hkey
        have hbound1 : ∀ e ∈ S1.connections, e.1 ≤ S1.sequence := by
          intro e he
          rcases hent e he with hin | ⟨hnew, _⟩
          · have := hbound e hin
            unfold SlotKey at *
            omega
          · exact le_of_eq hnew
        have hroom1 : S1.sequence + ops.length < SIZE_MOD := by
          unfold SlotKey at *
          omega
        obtain ⟨S2, hS2, hle, hup, hbound2, hpw, hks⟩ := ih w1 S1 w3 ks hS1 hbound1 hroom1 h2
        refine ⟨S2, hS2, ?_, ?_, hbound2, ?_, ?_⟩
        · unfold SlotKey at *
          omega
        · unfold SlotKey at *
          omega
        · cases r with
          | none => simpa using hpw
          | some k =>
            obtain ⟨hk1, hk2⟩ := hkey k rfl
            simp only [Option.toList, List.singleton_append, List.pairwise_cons]
            refine ⟨?_, hpw⟩
            intro k' hk'
            have := (hks k' hk').1
            unfold SlotKey at *
            omega
        · intro k hk
          rw [List.mem_append] at hk
          rcases hk with hk | hk
          · cases r with
            | none => simp at hk
            | some k0 =>
              simp at hk
              subst hk
              obtain ⟨hk1, hk2⟩ := hkey k rfl
              unfold SlotKey at *
              omega
          · have := hks k hk
            unfold SlotKey at *
            omega

/-! ## Wrapping the counter -/

theorem World.ext_fields {w w2 : World} (h1 : w2.slots = w.slots)
    (h2 : w2.signals = w.signals) (h3 : w2.conns = w.conns) (h4 : w2.nextSlot = w.nextSlot)
    (h5 : w2.nextConn = w.nextConn) : w2 = w := by
  cases w
  cases w2
  simp only at h1 h2 h3 h4 h5
  subst h1 h2 h3 h4 h5
  rfl

theorem World.fresh_eq_churned : World.fresh = World.churned 0 := by
  apply World.ext_fields
  · rfl
  · funext x
    by_cases hx : x = 0 <;>
      simp [World.churned, World.fresh, Slot.construct, Signal.construct, World.empty, hx]
  · rfl
  · rfl
  · rfl

theorem churn_round (m : Nat) :
    ∃ w1, SigOp.run (World.churned m) 0 (SigOp.connect (some 0))
        = .ok (w1, some ((m + 1) % SIZE_MOD)) ∧
      SigOp.run w1 0 (SigOp.disconnectSlot (some 0)) = .ok (World.churned (m + 1), none) := by
  have hS : (World.churned m).signals 0
      = some { connections := [], sequence := m % SIZE_MOD } := by
    simp [World.churned]
  have hs : (World.churned m).slots 0 = some { callback := some 7, connection := none } := by
    simp [World.churned, World.fresh, Slot.construct]
  have hkey : (m % SIZE_MOD + 1) % SIZE_MOD = (m + 1) % SIZE_MOD := Nat.mod_add_mod _ _ _
  obtain ⟨w1, hrun1, hsig1, hconns1, hslots1, hnc1, hns1⟩ :=
    connectNew_ok (World.churned m) 0 0 false _ _ hS hs (by simp [Registry.find])
  simp only [hkey] at hrun1 hsig1 hconns1 hslots1
  have hm : (World.churned m).nextConn = m := rfl
  rw [hm] at hsig1 hconns1 hslots1 hnc1
  have hS1 : w1.signals 0 = some
      { connections := Registry.insert [] ((m + 1) % SIZE_MOD) m,
        sequence := (m + 1) % SIZE_MOD } := by
    simp [hsig1]
  have hs1 : w1.slots 0 = some { callback := some 7, connection := some m } := by
    simp [hslots1]
  have hc1 : w1.conns m = some
      { signal := 0, slot := 0, key := (m + 1) % SIZE_MOD, managed := false } := by
    simp [hconns1]
  obtain ⟨w2, hrun2, hsig2, hconns2, hslots2, hnc2, hns2⟩ :=
    disconnectKey_ok w1 0 ((m + 1) % SIZE_MOD) _ m _ _ hS1
      (by simp [Registry.insert, Registry.find]) hc1 hs1
  have hw2 : w2 = World.churned (m + 1) := by
    apply World.ext_fields
    · rw [hslots2, hslots1]
      funext x
      by_cases hx : x = 0
      · simp [hx, World.churned, World.fresh, Slot.construct]
      · simp [hx, World.churned]
    · rw [hsig2, hsig1]
      funext x
      by_cases hx : x = 0
      · simp [hx, World.churned, Registry.insert, Registry.erase]
      · simp [hx, World.churned]
    · rw [hconns2, hconns1]
      funext y
      by_cases hy : y = m <;> simp [hy, World.churned, World.fresh, Slot.construct,
        Signal.construct, World.empty]
    · rw [hns2, hns1]
      rfl
    · rw [hnc2, hnc1]
      rfl
  refine ⟨w1, ?_, ?_⟩
  · have hne : ¬ w1.nextConn = m := by rw [hnc1]; exact Nat.succ_ne_self m
    simp [SigOp.run, Signal.connectPtr, Signal.connect, hs, hrun1, bind, Except.bind, pure,
      Except.pure, issued, hne, hm]
  · rw [← hw2]
    simp [SigOp.run, disconnectSlot_connected w1 0 0 m _ _ hs1 rfl hc1 rfl, hrun2, bind,
      Except.bind, pure, Except.pure]

theorem runOps_churn (n : Nat) : ∀ m : Nat,
    runOps 0 (World.churned m) (churnOps n) = .ok (World.churned (m + n), churnKeys m n) := by
  induction n with
  | zero =>
    intro m
    simp [churnOps, runOps, churnKeys, pure, Except.pure]
  | succ n ih =>
    intro m
    obtain ⟨w1, h1, h2⟩ := churn_round m
    have hk : churnKeys m (n + 1) = ((m + 1) % SIZE_MOD) :: churnKeys (m + 1) n := by
      simp [churnKeys, List.range'_succ]
    have hmn : m + 1 + n = m + (n + 1) := by omega
    simp [churnOps, runOps, h1, h2, ih (m + 1), hk, hmn, bind, Except.bind, pure, Except.pure]

theorem churnKeys_not_increasing :
    ¬ (churnKeys 0 SIZE_MOD).Pairwise (fun k1 k2 => k1 < k2) := by
  have hpos : SIZE_MOD = (SIZE_MOD - 1) + 1 := by simp [SIZE_MOD]
  have hone : (0 + 1) % SIZE_MOD = 1 := by simp [SIZE_MOD]
  intro h
  rw [hpos] at h
  simp only [churnKeys, List.range'_succ, List.map_cons, List.pairwise_cons] at h
  have hmem : (0 : SlotKey) ∈ List.map (fun i => (i + 1) % SIZE_MOD)
      (List.range' (0 + 1) (SIZE_MOD - 1)) := by
    rw [List.mem_map]
    refine ⟨SIZE_MOD - 1, ?_, ?_⟩
    · rw [List.mem_range'_1]
      simp [SIZE_MOD]
    · rw [← hpos, Nat.mod_self]
  have := h.1 0 hmem
  rw [hone] at this
  exact absurd this (by decide)

/-! ## Releasing the storage of an unconnected Slot -/

theorem freeSlot_linked (w : World) (a : Nat) (s : Slot) (hw : w.Linked)
    (hs : w.slots a = some s) (hb : s.connection = none) : (w.freeSlot a).Linked := by
  constructor
  · intro t T hT
    exact hw.sorted t T hT
  · intro t T hT e he
    obtain ⟨conn1, s1, hc1, hsig1, hkey1, hs1, hb1⟩ := hw.entry t T hT e he
    have hne : conn1.slot ≠ a := by
      intro heq
      rw [heq, hs] at hs1
      cases hs1
      rw [hb] at hb1
      cases hb1
    exact ⟨conn1, s1, hc1, hsig1, hkey1, by simp [hne, hs1], hb1⟩
  · intro b sb cb hsb hcb
    by_cases hba : b = a
    · simp [hba] at hsb
    · simp [hba] at hsb
      exact hw.link b sb cb hsb hcb
  · intro c hc
    exact hw.freshConn c hc
  · intro x hx
    by_cases hxa : x = a
    · simp [hxa]
    · simp [hxa]
      exact hw.freshSlot x hx

theorem freeSlot_wf (w : World) (a : Nat) (s : Slot) (hw : w.WF)
    (hs : w.slots a = some s) (hb : s.connection = none) : (w.freeSlot a).WF :=
  ⟨freeSlot_linked w a s hw.linked hs hb, hw.keys, hw.counter⟩

theorem slot_destroy_unconnected (w : World) (a : Nat) (s : Slot)
    (hs : w.slots a = some s) (hb : s.connection = none) :
    Slot.destroy w a = .ok (w.freeSlot a) := by
  simp [Slot.destroy, slot_disconnect_unconnected w a s hs hb, hs, bind, Except.bind, pure,
    Except.pure]

/-! ## Clearing a Signal -/

theorem releaseAll_ok (m : Registry) : ∀ (w : World),
    (∀ e ∈ m, ∃ conn s, w.conns e.2 = some conn ∧ w.slots conn.slot = some s) →
    (m.Pairwise fun e1 e2 => ∀ c1 c2, w.conns e1.2 = some c1 → w.conns e2.2 = some c2 →
      c1.slot ≠ c2.slot) →
    ∃ w2, Signal.releaseAll w m = .ok w2 ∧ w2.signals = w.signals ∧ w2.conns = w.conns ∧
      w2.nextConn = w.nextConn ∧ w2.nextSlot = w.nextSlot ∧
      (∀ e ∈ m, ∀ conn s, w.conns e.2 = some conn → w.slots conn.slot = some s →
        w2.slots conn.slot
          = if conn.managed then none else some { s with connection := none }) ∧
      (∀ b, (∀ e ∈ m, ∀ conn, w.conns e.2 = some conn → conn.slot ≠ b) →
        w2.slots b = w.slots b) := by
  induction m with
  | nil =>
    intro w _ _
    exact ⟨w, rfl, rfl, rfl, rfl, rfl, by simp, fun _ _ => rfl⟩
  | cons e m ih =>
    intro w hlive hdist
    obtain ⟨k, c⟩ := e
    rw [List.pairwise_cons] at hdist
    obtain ⟨conn, s, hc, hs⟩ := hlive (k, c) (List.mem_cons_self _ _)
    obtain ⟨w1, hrun1, hslots1, hsig1, hconns1, hnc1, hns1⟩ := releaseSlot_ok w c conn s hc hs
    have hother : ∀ e' ∈ m, ∀ conn', w.conns e'.2 = some conn' → conn.slot ≠ conn'.slot :=
      fun e' he' conn' hc' => hdist.1 e' he' conn conn' hc hc'
    have hlive1 : ∀ e' ∈ m, ∃ conn' s', w1.conns e'.2 = some conn' ∧
        w1.slots conn'.slot = some s' := by
      intro e' he'
      obtain ⟨conn', s', hc', hs'⟩ := hlive e' (List.mem_cons_of_mem _ he')
      have hne : ¬ conn'.slot = conn.slot := fun h => hother e' he' conn' hc' h.symm
      exact ⟨conn', s', by rw [hconns1]; exact hc', by simp [hslots1, hne, hs']⟩
    have hdist1 : m.Pairwise fun e1 e2 => ∀ c1 c2, w1.conns e1.2 = some c1 →
        w1.conns e2.2 = some c2 → c1.slot ≠ c2.slot := by
      rw [hconns1]; exact hdist.2
    obtain ⟨w2, hrun2, hsig2, hconns2, hnc2, hns2, hrel2, hframe2⟩ := ih w1 hlive1 hdist1
    refine ⟨w2, ?_, hsig2.trans hsig1, hconns2.trans hconns1, hnc2.trans hnc1,
      hns2.trans hns1, ?_, ?_⟩
    · simp [Signal.releaseAll, hrun1, hrun2, bind, Except.bind]
    · intro e' he' conn' s' hc' hs'
      rcases List.mem_cons.1 he' with heq | hmem
      · subst heq
        rw [hc] at hc'
        cases hc'
        rw [hs] at hs'
        cases hs'
        rw [hframe2 conn.slot (fun e2 he2 conn2 hc2 h =>
          hother e2 he2 conn2 (by rw [← hconns1]; exact hc2) h.symm)]
        simp [hslots1]
      · have hne : ¬ conn'.slot = conn.slot := fun h => hother e' hmem conn' hc' h.symm
        have hs1 : w1.slots conn'.slot = some s' := by simp [hslots1, hne, hs']
        exact hrel2 e' hmem conn' s' (by rw [hconns1]; exact hc') hs1
    · intro b hb
      have hne : ¬ b = conn.slot := fun h => hb (k, c) (List.mem_cons_self _ _) conn hc h.symm
      rw [hframe2 b (fun e2 he2 conn2 hc2 =>
        hb e2 (List.mem_cons_of_mem _ he2) conn2 (by rw [← hconns1]; exact hc2))]
      simp [hslots1, hne]

theorem World.Linked.slots_distinct {w : World} (hw : w.Linked) {sig : Nat} {S : Signal}
    (hS : w.signals sig = some S) :
    S.connections.Pairwise fun e1 e2 => ∀ c1 c2, w.conns e1.2 = some c1 →
      w.conns e2.2 = some c2 → c1.slot ≠ c2.slot := by
  have hnd := hw.nodes_nodup hS
  rw [List.Nodup, List.pairwise_map] at hnd
  refine List.Pairwise.imp_of_mem ?_ hnd
  intro e1 e2 h1 h2 hne c1 c2 hc1 hc2 heq
  obtain ⟨conn1, s1, hc1', _, _, hs1, hb1⟩ := hw.entry sig S hS e1 h1
  obtain ⟨conn2, s2, hc2', _, _, hs2, hb2⟩ := hw.entry sig S hS e2 h2
  rw [hc1] at hc1'
  cases hc1'
  rw [hc2] at hc2'
  cases hc2'
  rw [heq, hs2] at hs1
  cases hs1
  rw [hb2] at hb1
  exact hne (Option.some.inj hb1).symm

theorem clear_ok (w : World) (sig : Nat) (S : Signal) (hw : w.Linked)
    (hS : w.signals sig = some S) :
    ∃ w2, Signal.clear w sig = .ok w2 ∧
      w2.signals = (fun x => if x = sig then
        some { connections := [], sequence := S.sequence } else w.signals x) ∧
      w2.conns = (fun y => if y ∈ S.connections.map Prod.snd then none else w.conns y) ∧
      w2.nextConn = w.nextConn ∧ w2.nextSlot = w.nextSlot ∧
      (∀ e ∈ S.connections, ∀ conn s, w.conns e.2 = some conn → w.slots conn.slot = some s →
        w2.slots conn.slot
          = if conn.managed then none else some { s with connection := none }) ∧
      (∀ b, (∀ e ∈ S.connections, ∀ conn, w.conns e.2 = some conn → conn.slot ≠ b) →
        w2.slots b = w.slots b) := by
  obtain ⟨w1, hrun1, hsig1, hconns1, hnc1, hns1, hrel1, hframe1⟩ :=
    releaseAll_ok S.connections w (hw.live hS) (hw.slots_distinct hS)
  have hS1 : w1.signals sig = some S := by rw [hsig1]; exact hS
  refine ⟨(w1.setSignal sig { S with connections := [] }).freeConns S.connections,
    ?_, ?_, ?_, ?_, ?_, ?_, ?_⟩
  · simp [Signal.clear, hS, hrun1, hS1, bind, Except.bind, pure, Except.pure]
  · funext x
    by_cases hx : x = sig <;> simp [hx, hsig1]
  · funext y
    simp [hconns1]
  · simpa using hnc1
  · simpa using hns1
  · intro e he conn s hc hs
    simpa using hrel1 e he conn s hc hs
  · intro b hb
    simpa using hframe1 b hb

theorem clear_linked (w w2 : World) (sig : Nat) (S : Signal) (hw : w.Linked)
    (hS : w.signals sig = some S)
    (hsig : w2.signals = (fun x => if x = sig then
        some { connections := [], sequence := S.sequence } else w.signals x))
    (hconns : w2.conns
      = (fun y => if y ∈ S.connections.map Prod.snd then none else w.conns y))
    (hnc : w2.nextConn = w.nextConn) (hns : w2.nextSlot = w.nextSlot)
    (hrel : ∀ e ∈ S.connections, ∀ conn s, w.conns e.2 = some conn →
      w.slots conn.slot = some s →
      w2.slots conn.slot = if conn.managed then none else some { s with connection := none })
    (hframe : ∀ b, (∀ e ∈ S.connections, ∀ conn, w.conns e.2 = some conn → conn.slot ≠ b) →
      w2.slots b = w.slots b) : w2.Linked := by
  -- a node of the cleared registry belongs to a Connection of `sig`
  have node_sig : ∀ y ∈ S.connections.map Prod.snd, ∀ conn, w.conns y = some conn →
      conn.signal = sig := by
    intro y hy conn hc
    obtain ⟨e, he, rfl⟩ := List.mem_map.1 hy
    obtain ⟨conn1, _, hc1, hsig1, _⟩ := hw.entry sig S hS e he
    rw [hc] at hc1
    cases hc1
    exact hsig1
  -- a Slot whose back-reference survives is not one of the released Slots
  have untouched : ∀ b sb cb, w.slots b = some sb → sb.connection = some cb →
      cb ∉ S.connections.map Prod.snd →
      ∀ e ∈ S.connections, ∀ conn, w.conns e.2 = some conn → conn.slot ≠ b := by
    intro b sb cb hsb hcb hnot e he conn hc heq
    obtain ⟨conn1, s1, hc1, _, _, hs1, hb1⟩ := hw.entry sig S hS e he
    rw [hc] at hc1
    cases hc1
    rw [heq, hsb] at hs1
    cases hs1
    rw [hcb] at hb1
    cases hb1
    exact hnot (List.mem_map.2 ⟨e, he, rfl⟩)
  constructor
  · intro t T hT
    rw [hsig] at hT
    by_cases ht : t = sig
    · simp [ht] at hT
      subst hT
      exact List.Pairwise.nil
    · simp [ht] at hT
      exact hw.sorted t T hT
  · intro t T hT e he
    rw [hsig] at hT
    by_cases ht : t = sig
    · simp [ht] at hT
      subst hT
      simp at he
    · simp [ht] at hT
      obtain ⟨conn1, s1, hc1, hsig1, hkey1, hs1, hb1⟩ := hw.entry t T hT e he
      have hnot : e.2 ∉ S.connections.map Prod.snd := fun hin =>
        ht (hsig1.symm.trans (node_sig e.2 hin conn1 hc1))
      refine ⟨conn1, s1, ?_, hsig1, hkey1, ?_, hb1⟩
      · rw [hconns]; simp only [hnot, if_false]; exact hc1
      · rw [hframe conn1.slot (untouched conn1.slot s1 e.2 hs1 hb1 hnot)]
        exact hs1
  · intro b sb cb hsb hcb
    by_cases hrelb : ∃ e ∈ S.connections, ∃ conn, w.conns e.2 = some conn ∧ conn.slot = b
    · obtain ⟨e, he, conn, hc, hslot⟩ := hrelb
      obtain ⟨conn1, s1, hc1, _, _, hs1, _⟩ := hw.entry sig S hS e he
      rw [hc] at hc1
      cases hc1
      have := hrel e he conn s1 hc hs1
      rw [hslot, hsb] at this
      cases hm : conn.managed <;> simp [hm] at this
      subst this
      simp at hcb
    · have hfr : ∀ e ∈ S.connections, ∀ conn, w.conns e.2 = some conn → conn.slot ≠ b :=
        fun e he conn hc heq => hrelb ⟨e, he, conn, hc, heq⟩
      rw [hframe b hfr] at hsb
      obtain ⟨connb, T, hcb1, hslb, hT, hmem⟩ := hw.link b sb cb hsb hcb
      have hne : connb.signal ≠ sig := by
        intro heq
        rw [heq, hS] at hT
        cases hT
        exact hfr _ hmem connb hcb1 hslb
      have hnot : cb ∉ S.connections.map Prod.snd := fun hin =>
        hne (node_sig cb hin connb hcb1)
      refine ⟨connb, T, ?_, hslb, ?_, hmem⟩
      · rw [hconns]; simp only [hnot, if_false]; exact hcb1
      · rw [hsig]; simp [hne, hT]
  · intro y hy
    rw [hconns]
    rw [hnc] at hy
    by_cases hin : y ∈ S.connections.map Prod.snd
    · simp only [hin, if_true]
    · simp only [hin, if_false]
      exact hw.freshConn y hy
  · intro x hx
    rw [hns] at hx
    have hfr : ∀ e ∈ S.connections, ∀ conn, w.conns e.2 = some conn → conn.slot ≠ x := by
      intro e he conn hc heq
      obtain ⟨conn1, s1, hc1, _, _, hs1, _⟩ := hw.entry sig S hS e he
      rw [hc] at hc1
      cases hc1
      rw [heq, hw.freshSlot x hx] at hs1
      cases hs1
    rw [hframe x hfr]
    exact hw.freshSlot x hx

theorem clear_wf (w w2 : World) (sig : Nat) (S : Signal) (hw : w.WF)
    (hS : w.signals sig = some S)
    (hsig : w2.signals = (fun x => if x = sig then
        some { connections := [], sequence := S.sequence } else w.signals x))
    (hconns : w2.conns
      = (fun y => if y ∈ S.connections.map Prod.snd then none else w.conns y))
    (hnc : w2.nextConn = w.nextConn) (hns : w2.nextSlot = w.nextSlot)
    (hrel : ∀ e ∈ S.connections, ∀ conn s, w.conns e.2 = some conn →
      w.slots conn.slot = some s →
      w2.slots conn.slot = if conn.managed then none else some { s with connection := none })
    (hframe : ∀ b, (∀ e ∈ S.connections, ∀ conn, w.conns e.2 = some conn → conn.slot ≠ b) →
      w2.slots b = w.slots b) : w2.WF := by
  refine ⟨clear_linked w w2 sig S hw.linked hS hsig hconns hnc hns hrel hframe, ?_, ?_⟩
  · intro t T hT e he
    rw [hsig] at hT
    by_cases ht : t = sig
    · simp [ht] at hT
      subst hT
      simp at he
    · simp [ht] at hT
      exact hw.keys t T hT e he
  · intro t T hT
    rw [hsig] at hT
    by_cases ht : t = sig
    · simp [ht] at hT
      subst hT
      exact hw.counter sig S hS
    · simp [ht] at hT
      exact hw.counter t T hT

theorem connect_unconnected (w : World) (sig a : Nat) (managed : Bool) (S : Signal) (s : Slot)
    (hw : w.WF) (hS : w.signals sig = some S) (hs : w.slots a = some s)
    (hb : s.connection = none) :
    ∃ w2, Signal.connect w sig (some a) managed = .ok (w2, (S.sequence + 1) % SIZE_MOD) ∧
      w2.signals = (fun x => if x = sig then
        some { connections := S.connections.insert ((S.sequence + 1) % SIZE_MOD) w.nextConn,
               sequence := (S.sequence + 1) % SIZE_MOD } else w.signals x) ∧
      w2.conns = (fun y => if y = w.nextConn then
        some { signal := sig, slot := a, key := (S.sequence + 1) % SIZE_MOD, managed := managed }
        else w.conns y) ∧
      w2.slots = (fun x => if x = a then some { s with connection := some w.nextConn }
        else w.slots x) ∧
      w2.nextConn = w.nextConn + 1 ∧ w2.nextSlot = w.nextSlot ∧ w2.Linked ∧
      (S.sequence + 1 < SIZE_MOD → w2.WF) := by
  have habs := hw.next_key_absent hS
  obtain ⟨w2, hrun, hsig, hconns, hslots, hnc, hns⟩ :=
    connectNew_ok w sig a managed S s hS hs habs
  refine ⟨w2, ?_, hsig, hconns, hslots, hnc, hns,
    connectNew_linked w w2 hw.linked sig a managed S s _ hS hs hb habs hsig hconns hslots hnc
      hns,
    fun hroom => connectNew_wf w w2 hw sig a managed S s hS hs hb hroom hsig hconns hslots hnc
      hns⟩
  simp [Signal.connect, hs, hb, bind, Except.bind, hrun]

/-! ## Moving a Signal -/

theorem repoint_ok (this : Nat) (m : Registry) : ∀ (w : World),
    (∀ e ∈ m, ∃ conn, w.conns e.2 = some conn) →
    ∃ w2, Signal.repoint w this m = .ok w2 ∧ w2.slots = w.slots ∧ w2.signals = w.signals ∧
      w2.nextConn = w.nextConn ∧ w2.nextSlot = w.nextSlot ∧
      w2.conns = (fun y => if y ∈ m.map Prod.snd then
        (w.conns y).map (fun x => { x with signal := this }) else w.conns y) := by
  induction m with
  | nil =>
    intro w _
    exact ⟨w, rfl, rfl, rfl, rfl, rfl, by simp⟩
  | cons e m ih =>
    intro w hlive
    obtain ⟨k, c⟩ := e
    obtain ⟨conn, hc⟩ := hlive (k, c) (List.mem_cons_self _ _)
    have hlive1 : ∀ e' ∈ m, ∃ conn', (w.setConn c { conn with signal := this }).conns e'.2
        = some conn' := by
      intro e' he'
      obtain ⟨conn', hc'⟩ := hlive e' (List.mem_cons_of_mem _ he')
      by_cases h : e'.2 = c
      · exact ⟨{ conn with signal := this }, by simp [h]⟩
      · exact ⟨conn', by simp [h, hc']⟩
    obtain ⟨w2, hrun, hslots, hsig, hnc, hns, hconns⟩ :=
      ih (w.setConn c { conn with signal := this }) hlive1
    refine ⟨w2, ?_, hslots, hsig, hnc, hns, ?_⟩
    · simp [Signal.repoint, hc, hrun, bind, Except.bind]
    · rw [hconns]
      funext y
      by_cases hy : y = c
      · subst hy
        by_cases hin : y ∈ m.map Prod.snd
        · simp only [hin, if_true]
          simp [hc]
        · simp only [hin, if_false]
          simp [hc]
      · by_cases hin : y ∈ m.map Prod.snd
        · simp only [hin, if_true]
          simp [hy, hin]
        · simp only [hin, if_false]
          simp [hy, hin]

theorem move_ok (w : World) (A B : Nat) (SA SB : Signal) (hw : w.WF) (hne : A ≠ B)
    (hA : w.signals A = some SA) (hB : w.signals B = some SB) :
    ∃ w1 w2, Signal.clear w B = .ok w1 ∧ w1.WF ∧ Signal.move w B A = .ok w2 ∧
      w1.signals A = some SA ∧
      w1.signals B = some { connections := [], sequence := SB.sequence } ∧
      w2.signals = (fun x => if x = A then some { connections := [], sequence := 0 }
        else if x = B then some { connections := SA.connections, sequence := SA.sequence }
        else w1.signals x) ∧
      w2.conns = (fun y => if y ∈ SA.connections.map Prod.snd then
        (w1.conns y).map (fun x => { x with signal := B }) else w1.conns y) ∧
      w2.slots = w1.slots ∧ w2.nextConn = w1.nextConn ∧ w2.nextSlot = w1.nextSlot ∧
      w1.signals = (fun x => if x = B then
        some { connections := [], sequence := SB.sequence } else w.signals x) ∧
      w1.conns = (fun y => if y ∈ SB.connections.map Prod.snd then none else w.conns y) ∧
      (∀ e ∈ SB.connections, ∀ conn s, w.conns e.2 = some conn → w.slots conn.slot = some s →
        w1.slots conn.slot
          = if conn.managed then none else some { s with connection := none }) ∧
      (∀ b, (∀ e ∈ SB.connections, ∀ conn, w.conns e.2 = some conn → conn.slot ≠ b) →
        w1.slots b = w.slots b) := by
  obtain ⟨w1, hclear, hsig1, hconns1, hnc1, hns1, hrel1, hframe1⟩ :=
    clear_ok w B SB hw.linked hB
  have hw1 : w1.WF := clear_wf w w1 B SB hw hB hsig1 hconns1 hnc1 hns1 hrel1 hframe1
  have hA1 : w1.signals A = some SA := by simp [hsig1, hne, hA]
  have hB1 : w1.signals B = some { connections := [], sequence := SB.sequence } := by
    simp [hsig1]
  have hlive : ∀ e ∈ SA.connections, ∃ conn,
      ((((w1.setSignal A { SA with connections := [] }).freeConns []).setSignal B
        { connections := SA.connections, sequence := SB.sequence }).setSignal B
        { connections := SA.connections, sequence := SA.sequence }).conns e.2
        = some conn := by
    intro e he
    obtain ⟨conn, _, hc, _⟩ := hw1.linked.entry A SA hA1 e he
    exact ⟨conn, by simpa using hc⟩
  obtain ⟨wd, hrep, hslotsd, hsigd, hncd, hnsd, hconnsd⟩ := repoint_ok B SA.connections _ hlive
  have hBA : ¬ B = A := fun h => hne h.symm
  refine ⟨w1, ((wd.setSignal A { connections := [], sequence := 0 }).setSignal A
    { connections := [], sequence := 0 }).freeConns [], hclear, hw1, ?_, hA1, hB1, ?_, ?_, ?_,
    ?_, ?_, hsig1, hconns1, hrel1, hframe1⟩
  · have hdA : wd.signals A = some { connections := [], sequence := SA.sequence } := by
      rw [hsigd]; simp [hne]
    simp [Signal.move, hclear, hA1, hB1, hne, hBA, hrep, hdA, bind, Except.bind, pure,
      Except.pure]
  · funext x
    by_cases hxA : x = A
    · simp [hxA]
    · by_cases hxB : x = B
      · simp [hxA, hxB, hsigd, hBA]
      · simp [hxA, hxB, hsigd]
  · funext y
    simp [hconnsd]
  · simp [hslotsd]
  · simp [hncd]
  · simp [hnsd]


theorem transfer_wf (w1 w2 : World) (hw1 : w1.WF) (A B : Nat) (SA : Signal) (sB : SlotKey)
    (hne : A ≠ B) (hA1 : w1.signals A = some SA)
    (hB1 : w1.signals B = some { connections := [], sequence := sB })
    (hsig : w2.signals = (fun x => if x = A then some { connections := [], sequence := 0 }
        else if x = B then some { connections := SA.connections, sequence := SA.sequence }
        else w1.signals x))
    (hconns : w2.conns = (fun y => if y ∈ SA.connections.map Prod.snd then
        (w1.conns y).map (fun x => { x with signal := B }) else w1.conns y))
    (hslots : w2.slots = w1.slots) (hnc : w2.nextConn = w1.nextConn)
    (hns : w2.nextSlot = w1.nextSlot) : w2.WF := by
  have hBA : ¬ B = A := fun h => hne h.symm
  -- a node of the registry of `A` holds a Connection of `A`
  have node_A : ∀ y ∈ SA.connections.map Prod.snd, ∀ conn, w1.conns y = some conn →
      conn.signal = A := by
    intro y hy conn hc
    obtain ⟨e, he, rfl⟩ := List.mem_map.1 hy
    obtain ⟨conn1, _, hc1, hsig1, _⟩ := hw1.linked.entry A SA hA1 e he
    rw [hc] at hc1
    cases hc1
    exact hsig1
  refine ⟨⟨?_, ?_, ?_, ?_, ?_⟩, ?_, ?_⟩
  · intro t T hT
    rw [hsig] at hT
    by_cases htA : t = A
    · simp [htA] at hT
      subst hT
      exact List.Pairwise.nil
    · by_cases htB : t = B
      · simp [htB, hBA] at hT
        subst hT
        exact hw1.linked.sorted A SA hA1
      · simp [htA, htB] at hT
        exact hw1.linked.sorted t T hT
  · intro t T hT e he
    rw [hsig] at hT
    by_cases htA : t = A
    · simp [htA] at hT
      subst hT
      simp at he
    · by_cases htB : t = B
      · simp [htB, hBA] at hT
        subst hT
        obtain ⟨conn1, s1, hc1, hsig1, hkey1, hs1, hb1⟩ := hw1.linked.entry A SA hA1 e he
        have hin : e.2 ∈ SA.connections.map Prod.snd := List.mem_map.2 ⟨e, he, rfl⟩
        refine ⟨{ conn1 with signal := B }, s1, ?_, htB.symm, hkey1, ?_, hb1⟩
        · rw [hconns]; simp only [hin, if_true, hc1, Option.map_some']
        · rw [hslots]; exact hs1
      · simp [htA, htB] at hT
        obtain ⟨conn1, s1, hc1, hsig1, hkey1, hs1, hb1⟩ := hw1.linked.entry t T hT e he
        have hnot : e.2 ∉ SA.connections.map Prod.snd := fun hin =>
          htA (hsig1.symm.trans (node_A e.2 hin conn1 hc1))
        refine ⟨conn1, s1, ?_, hsig1, hkey1, ?_, hb1⟩
        · rw [hconns]; simp only [hnot, if_false]; exact hc1
        · rw [hslots]; exact hs1
  · intro b sb cb hsb hcb
    rw [hslots] at hsb
    obtain ⟨connb, T, hcb1, hslb, hT, hmem⟩ := hw1.linked.link b sb cb hsb hcb
    by_cases hsA : connb.signal = A
    · rw [hsA, hA1] at hT
      cases hT
      have hin : cb ∈ SA.connections.map Prod.snd := List.mem_map.2 ⟨_, hmem, rfl⟩
      refine ⟨{ connb with signal := B },
        { connections := SA.connections, sequence := SA.sequence }, ?_, hslb, ?_, hmem⟩
      · rw [hconns]; simp only [hin, if_true, hcb1, Option.map_some']
      · rw [hsig]; simp [hBA]
    · have hsB : connb.signal ≠ B := by
        intro heq
        rw [heq, hB1] at hT
        cases hT
        simp at hmem
      have hnot : cb ∉ SA.connections.map Prod.snd := fun hin =>
        hsA (node_A cb hin connb hcb1)
      refine ⟨connb, T, ?_, hslb, ?_, hmem⟩
      · rw [hconns]; simp only [hnot, if_false]; exact hcb1
      · rw [hsig]; simp [hsA, hsB, hT]
  · intro y hy
    rw [hnc] at hy
    rw [hconns]
    by_cases hin : y ∈ SA.connections.map Prod.snd
    · simp only [hin, if_true, hw1.linked.freshConn y hy, Option.map_none']
    · simp only [hin, if_false]
      exact hw1.linked.freshConn y hy
  · intro x hx
    rw [hns] at hx
    rw [hslots]
    exact hw1.linked.freshSlot x hx
  · intro t T hT e he
    rw [hsig] at hT
    by_cases htA : t = A
    · simp [htA] at hT
      subst hT
      simp at he
    · by_cases htB : t = B
      · simp [htB, hBA] at hT
        subst hT
        exact hw1.keys A SA hA1 e he
      · simp [htA, htB] at hT
        exact hw1.keys t T hT e he
  · intro t T hT
    rw [hsig] at hT
    by_cases htA : t = A
    · simp [htA] at hT
      subst hT
      simp [SIZE_MOD]
    · by_cases htB : t = B
      · simp [htB, hBA] at hT
        subst hT
        exact hw1.counter A SA hA1
      · simp [htA, htB] at hT
        exact hw1.counter t T hT

theorem move_spec (w : World) (A B : Nat) (SA SB : Signal) (hw : w.WF) (hne : A ≠ B)
    (hA : w.signals A = some SA) (hB : w.signals B = some SB) :
    ∃ w2, Signal.move w B A = .ok w2 ∧
      w2.signals B = some { connections := SA.connections, sequence := SA.sequence } ∧
      w2.signals A = some { connections := [], sequence := 0 } ∧
      (∀ e ∈ SA.connections, ∀ conn, w.conns e.2 = some conn →
        w2.conns e.2 = some { conn with signal := B }) ∧
      (∀ e ∈ SA.connections, ∀ conn s, w.conns e.2 = some conn →
        w.slots conn.slot = some s → w2.slots conn.slot = some s ∧ s.connection = some e.2) ∧
      (∀ e ∈ SB.connections, w2.conns e.2 = none) ∧
      (∀ e ∈ SB.connections, ∀ conn s, w.conns e.2 = some conn → w.slots conn.slot = some s →
        (conn.managed = true → w2.slots conn.slot = none) ∧
        (conn.managed = false → w2.slots conn.slot = some { s with connection := none })) ∧
      (∀ t, t ≠ A → t ≠ B → w2.signals t = w.signals t) ∧
      w2.WF := by
  obtain ⟨w1, w2, _, hw1, hmove, hA1, hB1, hsig, hconns, hslots, hnc, hns, hsig1, hconns1,
    hrel1, hframe1⟩ := move_ok w A B SA SB hw hne hA hB
  have hw2 : w2.WF :=
    transfer_wf w1 w2 hw1 A B SA SB.sequence hne hA1 hB1 hsig hconns hslots hnc hns
  have hBA : ¬ B = A := fun h => hne h.symm
  -- the nodes of the two registries are different nodes
  have apart : ∀ e ∈ SA.connections, e.2 ∉ SB.connections.map Prod.snd := by
    intro e he hin
    obtain ⟨e', he', heq⟩ := List.mem_map.1 hin
    obtain ⟨conn1, _, hc1, hsg1, _⟩ := hw.linked.entry A SA hA e he
    obtain ⟨conn2, _, hc2, hsg2, _⟩ := hw.linked.entry B SB hB e' he'
    rw [heq, hc1] at hc2
    cases hc2
    exact hne (hsg1.symm.trans hsg2)
  refine ⟨w2, hmove, by simp [hsig, hBA], by simp [hsig], ?_, ?_, ?_, ?_, ?_, hw2⟩
  · intro e he conn hc
    have hin : e.2 ∈ SA.connections.map Prod.snd := List.mem_map.2 ⟨e, he, rfl⟩
    have hc1 : w1.conns e.2 = some conn := by
      rw [hconns1]; simp only [apart e he, if_false]; exact hc
    rw [hconns]
    simp only [hin, if_true, hc1, Option.map_some']
  · intro e he conn s hc hs
    obtain ⟨conn1, s1, hc1, _, _, hs1, hb1⟩ := hw.linked.entry A SA hA e he
    rw [hc] at hc1
    cases hc1
    rw [hs] at hs1
    cases hs1
    refine ⟨?_, hb1⟩
    rw [hslots, hframe1 conn.slot ?_]
    · exact hs
    · intro e' he' conn' hc' heq
      obtain ⟨conn2, s2, hc2, _, _, hs2, hb2⟩ := hw.linked.entry B SB hB e' he'
      rw [hc'] at hc2
      cases hc2
      rw [heq, hs] at hs2
      cases hs2
      rw [hb1] at hb2
      have : e.2 = e'.2 := Option.some.inj hb2
      exact apart e he (List.mem_map.2 ⟨e', he', this.symm⟩)
  · intro e he
    have hin : e.2 ∈ SB.connections.map Prod.snd := List.mem_map.2 ⟨e, he, rfl⟩
    have hc1 : w1.conns e.2 = none := by
      rw [hconns1]; simp only [hin, if_true]
    rw [hconns]
    by_cases hinA : e.2 ∈ SA.connections.map Prod.snd
    · simp only [hinA, if_true, hc1, Option.map_none']
    · simp only [hinA, if_false]
      exact hc1
  · intro e he conn s hc hs
    have := hrel1 e he conn s hc hs
    rw [← hslots] at this
    constructor
    · intro hm
      simpa [hm] using this
    · intro hm
      simpa [hm] using this
  · intro t htA htB
    simp [hsig, htA, htB, hsig1]

theorem construct_wf (w : World) (C : Nat) (g : SlotKey) (hw : w.WF)
    (hC : w.signals C = none) (hg : g < SIZE_MOD) :
    (w.setSignal C { connections := [], sequence := g }).WF := by
  have hne : ∀ t T, w.signals t = some T → t ≠ C := by
    intro t T hT heq
    rw [heq, hC] at hT
    cases hT
  refine ⟨⟨?_, ?_, ?_, hw.linked.freshConn, hw.linked.freshSlot⟩, ?_, ?_⟩
  · intro t T hT
    by_cases ht : t = C
    · simp [ht] at hT
      subst hT
      exact List.Pairwise.nil
    · simp [ht] at hT
      exact hw.linked.sorted t T hT
  · intro t T hT e he
    by_cases ht : t = C
    · simp [ht] at hT
      subst hT
      simp at he
    · simp [ht] at hT
      exact hw.linked.entry t T hT e he
  · intro b sb cb hsb hcb
    obtain ⟨connb, T, hcb1, hslb, hT, hmem⟩ := hw.linked.link b sb cb hsb hcb
    exact ⟨connb, T, hcb1, hslb, by simp [hne _ T hT, hT], hmem⟩
  · intro t T hT e he
    by_cases ht : t = C
    · simp [ht] at hT
      subst hT
      simp at he
    · simp [ht] at hT
      exact hw.keys t T hT e he
  · intro t T hT
    by_cases ht : t = C
    · simp [ht] at hT
      subst hT
      exact hg
    · simp [ht] at hT
      exact hw.counter t T hT

/-! ## Move construction of a Slot on the heap -/

theorem moveConstruct_unconnected (w : World) (src : Nat) (s : Slot) (hw : w.WF)
    (hs : w.slots src = some s) (hb : s.connection = none) :
    ∃ w1, Slot.moveConstruct { w with nextSlot := w.nextSlot + 1 } w.nextSlot src = .ok w1 ∧
      w1.slots = (fun x => if x = w.nextSlot then
          some { callback := s.callback, connection := none }
        else if x = src then some { callback := none, connection := none } else w.slots x) ∧
      w1.signals = w.signals ∧ w1.conns = w.conns ∧ w1.nextConn = w.nextConn ∧
      w1.nextSlot = w.nextSlot + 1 ∧ w1.WF := by
  have hfresh : w.slots w.nextSlot = none := hw.linked.freshSlot _ (le_refl _)
  have hne : ¬ src = w.nextSlot := by
    intro h
    rw [h, hfresh] at hs
    cases hs
  have hne' : ¬ w.nextSlot = src := fun h => hne h.symm
  have hslots : ∀ w1 : World, w1.slots = (fun x => if x = w.nextSlot then
        some { callback := s.callback, connection := none }
      else if x = src then some { callback := none, connection := none } else w.slots x) →
      w1.signals = w.signals → w1.conns = w.conns → w1.nextConn = w.nextConn →
      w1.nextSlot = w.nextSlot + 1 → w1.WF := by
    intro w1 h1 h2 h3 h4 h5
    have keep : ∀ t T, w.signals t = some T → ∀ e ∈ T.connections,
        ∃ conn1 s1, w1.conns e.2 = some conn1 ∧ conn1.signal = t ∧ conn1.key = e.1 ∧
          w1.slots conn1.slot = some s1 ∧ s1.connection = some e.2 := by
      intro t T hT e he
      obtain ⟨conn1, s1, hc1, hsig1, hkey1, hs1, hb1⟩ := hw.linked.entry t T hT e he
      have hn1 : ¬ conn1.slot = w.nextSlot := by
        intro h
        rw [h, hfresh] at hs1
        cases hs1
      have hn2 : ¬ conn1.slot = src := by
        intro h
        rw [h, hs] at hs1
        cases hs1
        rw [hb] at hb1
        cases hb1
      exact ⟨conn1, s1, by rw [h3]; exact hc1, hsig1, hkey1, by simp [h1, hn1, hn2, hs1], hb1⟩
    refine ⟨⟨?_, ?_, ?_, ?_, ?_⟩, ?_, ?_⟩
    · intro t T hT
      rw [h2] at hT
      exact hw.linked.sorted t T hT
    · intro t T hT e he
      rw [h2] at hT
      exact keep t T hT e he
    · intro b sb cb hsb hcb
      rw [h1] at hsb
      by_cases hb1 : b = w.nextSlot
      · simp [hb1] at hsb
        subst hsb
        simp at hcb
      · by_cases hb2 : b = src
        · simp [hb1, hb2, hne] at hsb
          subst hsb
          simp at hcb
        · simp [hb1, hb2] at hsb
          obtain ⟨connb, T, hcb1, hslb, hT, hmem⟩ := hw.linked.link b sb cb hsb hcb
          exact ⟨connb, T, by rw [h3]; exact hcb1, hslb, by rw [h2]; exact hT, hmem⟩
    · intro y hy
      rw [h4] at hy
      rw [h3]
      exact hw.linked.freshConn y hy
    · intro x hx
      rw [h5] at hx
      have hx1 : ¬ x = w.nextSlot := by omega
      have hx2 : ¬ x = src := by
        intro h
        have := hw.linked.freshSlot x (by omega)
        rw [h, hs] at this
        cases this
      simp [h1, hx1, hx2]
      exact hw.linked.freshSlot x (by omega)
    · intro t T hT e he
      rw [h2] at hT
      exact hw.keys t T hT e he
    · intro t T hT
      rw [h2] at hT
      exact hw.counter t T hT
  refine ⟨World.mk (fun x => if x = w.nextSlot then
        some { callback := s.callback, connection := none }
      else if x = src then some { callback := none, connection := none } else w.slots x)
      w.signals w.conns (w.nextSlot + 1) w.nextConn,
    ?_, rfl, rfl, rfl, rfl, rfl, hslots _ rfl rfl rfl rfl rfl⟩
  simp [Slot.moveConstruct, Slot.move, hs, hb, hne, hne', bind, Except.bind, pure,
    Except.pure]
  apply World.ext_fields
  · funext x
    by_cases hx1 : x = w.nextSlot
    · simp [hx1]
    · by_cases hx2 : x = src
      · simp [hx1, hx2, hne]
      · simp [hx1, hx2]
  · rfl
  · rfl
  · rfl
  · rfl

theorem moveConstruct_connected (w : World) (src c : Nat) (s : Slot) (conn : Connection)
    (hw : w.WF) (hs : w.slots src = some s) (hb : s.connection = some c)
    (hc : w.conns c = some conn) (hm : conn.managed = false) :
    ∃ w1, Slot.moveConstruct { w with nextSlot := w.nextSlot + 1 } w.nextSlot src = .ok w1 ∧
      w1.slots = (fun x => if x = w.nextSlot then
          some { callback := s.callback, connection := some c }
        else if x = src then some { callback := none, connection := none } else w.slots x) ∧
      w1.signals = w.signals ∧
      w1.conns = (fun y => if y = c then
          some { conn with slot := w.nextSlot, managed := false } else w.conns y) ∧
      w1.nextConn = w.nextConn ∧ w1.nextSlot = w.nextSlot + 1 ∧ w1.WF := by
  have hfresh : w.slots w.nextSlot = none := hw.linked.freshSlot _ (le_refl _)
  have hne : ¬ src = w.nextSlot := by
    intro h
    rw [h, hfresh] at hs
    cases hs
  have hne' : ¬ w.nextSlot = src := fun h => hne h.symm
  obtain ⟨conn0, S0, hc0, hslot, hS0, hmem0⟩ := hw.linked.link src s c hs hb
  rw [hc] at hc0
  cases hc0
  have hwf : ∀ w1 : World, w1.slots = (fun x => if x = w.nextSlot then
        some { callback := s.callback, connection := some c }
      else if x = src then some { callback := none, connection := none } else w.slots x) →
      w1.signals = w.signals →
      w1.conns = (fun y => if y = c then
          some { conn with slot := w.nextSlot, managed := false } else w.conns y) →
      w1.nextConn = w.nextConn → w1.nextSlot = w.nextSlot + 1 → w1.WF := by
    intro w1 h1 h2 h3 h4 h5
    refine ⟨⟨?_, ?_, ?_, ?_, ?_⟩, ?_, ?_⟩
    · intro t T hT
      rw [h2] at hT
      exact hw.linked.sorted t T hT
    · intro t T hT e he
      rw [h2] at hT
      obtain ⟨conn1, s1, hc1, hsig1, hkey1, hs1, hb1⟩ := hw.linked.entry t T hT e he
      by_cases hec : e.2 = c
      · rw [hec, hc] at hc1
        cases hc1
        refine ⟨{ conn with slot := w.nextSlot, managed := false },
          { callback := s.callback, connection := some c }, ?_, hsig1, hkey1, ?_, ?_⟩
        · rw [h3]; simp [hec]
        · rw [h1]; simp
        · simp [hec]
      · have hn1 : ¬ conn1.slot = w.nextSlot := by
          intro h
          rw [h, hfresh] at hs1
          cases hs1
        have hn2 : ¬ conn1.slot = src := by
          intro h
          rw [h, hs] at hs1
          cases hs1
          rw [hb] at hb1
          exact hec (Option.some.inj hb1).symm
        exact ⟨conn1, s1, by rw [h3]; simp [hec, hc1], hsig1, hkey1,
          by simp [h1, hn1, hn2, hs1], hb1⟩
    · intro b sb cb hsb hcb
      rw [h1] at hsb
      by_cases hb1 : b = w.nextSlot
      · simp [hb1] at hsb
        subst hsb
        simp at hcb
        subst hcb
        refine ⟨{ conn with slot := w.nextSlot, managed := false }, S0, ?_, hb1.symm, ?_, hmem0⟩
        · rw [h3]; simp
        · rw [h2]; exact hS0
      · by_cases hb2 : b = src
        · simp [hb1, hb2, hne] at hsb
          subst hsb
          simp at hcb
        · simp [hb1, hb2] at hsb
          obtain ⟨connb, T, hcb1, hslb, hT, hmem⟩ := hw.linked.link b sb cb hsb hcb
          have hcne : ¬ cb = c := by
            intro h
            rw [h, hc] at hcb1
            cases hcb1
            exact hb2 (hslb.symm.trans hslot)
          exact ⟨connb, T, by rw [h3]; simp [hcne, hcb1], hslb, by rw [h2]; exact hT, hmem⟩
    · intro y hy
      rw [h4] at hy
      rw [h3]
      have hyc : ¬ y = c := by
        intro h
        have := hw.linked.freshConn y hy
        rw [h, hc] at this
        cases this
      simp [hyc]
      exact hw.linked.freshConn y hy
    · intro x hx
      rw [h5] at hx
      have hx1 : ¬ x = w.nextSlot := by omega
      have hx2 : ¬ x = src := by
        intro h
        have := hw.linked.freshSlot x (by omega)
        rw [h, hs] at this
        cases this
      simp [h1, hx1, hx2]
      exact hw.linked.freshSlot x (by omega)
    · intro t T hT e he
      rw [h2] at hT
      exact hw.keys t T hT e he
    · intro t T hT
      rw [h2] at hT
      exact hw.counter t T hT
  refine ⟨World.mk (fun x => if x = w.nextSlot then
        some { callback := s.callback, connection := some c }
      else if x = src then some { callback := none, connection := none } else w.slots x)
      w.signals (fun y => if y = c then
          some { conn with slot := w.nextSlot, managed := false } else w.conns y)
      (w.nextSlot + 1) w.nextConn,
    ?_, rfl, rfl, rfl, rfl, rfl, hwf _ rfl rfl rfl rfl rfl⟩
  simp [Slot.moveConstruct, Slot.move, Connection.releaseSlot, hs, hb, hc, hm, hslot, hne,
    hne', bind, Except.bind, pure, Except.pure]
  apply World.ext_fields
  · funext x
    by_cases hx1 : x = w.nextSlot
    · simp [hx1, hne']
    · by_cases hx2 : x = src
      · simp [hx1, hx2, hne]
      · simp [hx1, hx2]
  · rfl
  · funext y
    by_cases hy : y = c <;> simp [hy]
  · rfl
  · rfl

/-! ## Calls with valid arguments return and keep the invariants -/

theorem connect_total (w : World) (sig a : Nat) (managed : Bool) (S : Signal) (hw : w.WF)
    (hS : w.signals sig = some S) (hroom : S.sequence + 1 < SIZE_MOD)
    (hown : w.CallerOwned a) :
    ∃ r, Signal.connect w sig (some a) managed = .ok r ∧ r.1.WF := by
  obtain ⟨s, hs, hconn⟩ := hown
  cases hb : s.connection with
  | none =>
    obtain ⟨w2, hrun, _, _, _, _, _, _, hwf⟩ :=
      connect_unconnected w sig a managed S s hw hS hs hb
    exact ⟨_, hrun, hwf hroom⟩
  | some c =>
    obtain ⟨conn, hc, hm⟩ := hconn c hb
    by_cases hsig : conn.signal = sig
    · refine ⟨(w, conn.key), ?_, hw⟩
      simp [Signal.connect, hs, hb, hc, hsig, bind, Except.bind, pure, Except.pure]
    · obtain ⟨conn1, SA, hc1, _, hSA, _⟩ := hw.linked.link a s c hs hb
      rw [hc] at hc1
      cases hc1
      obtain ⟨w2, hrun, _, _, _, _, _, _, hwf⟩ :=
        connect_migrate w conn.signal sig a c SA S s conn managed hw hsig hSA hS hs hb hc rfl hm
      exact ⟨_, hrun, hwf hroom⟩

theorem connectMove_total (w : World) (sig src : Nat) (S : Signal) (hw : w.WF)
    (hS : w.signals sig = some S) (hroom : S.sequence + 1 < SIZE_MOD)
    (hown : w.CallerOwned src) :
    ∃ r, Signal.connectMove w sig src = .ok r ∧ r.1.WF := by
  obtain ⟨s, hs, hconn⟩ := hown
  cases hb : s.connection with
  | none =>
    obtain ⟨w1, hrun1, hslots1, hsig1, _, _, _, hw1⟩ :=
      moveConstruct_unconnected w src s hw hs hb
    have hS1 : w1.signals sig = some S := by rw [hsig1]; exact hS
    have hown1 : w1.CallerOwned w.nextSlot :=
      ⟨{ callback := s.callback, connection := none }, by simp [hslots1],
        fun c hc => by simp at hc⟩
    obtain ⟨r, hrun, hwf⟩ := connect_total w1 sig w.nextSlot true S hw1 hS1 hroom hown1
    exact ⟨r, by simp [Signal.connectMove, hrun1, hrun, bind, Except.bind], hwf⟩
  | some c =>
    obtain ⟨conn, hc, hm⟩ := hconn c hb
    obtain ⟨w1, hrun1, hslots1, hsig1, hconns1, _, _, hw1⟩ :=
      moveConstruct_connected w src c s conn hw hs hb hc hm
    have hS1 : w1.signals sig = some S := by rw [hsig1]; exact hS
    have hown1 : w1.CallerOwned w.nextSlot := by
      refine ⟨{ callback := s.callback, connection := some c }, by simp [hslots1], ?_⟩
      intro c' hc'
      simp at hc'
      subst hc'
      exact ⟨{ conn with slot := w.nextSlot, managed := false }, by simp [hconns1], rfl⟩
    obtain ⟨r, hrun, hwf⟩ := connect_total w1 sig w.nextSlot true S hw1 hS1 hroom hown1
    exact ⟨r, by simp [Signal.connectMove, hrun1, hrun, bind, Except.bind], hwf⟩

theorem disconnectKey_total (w : World) (sig : Nat) (key : SlotKey) (S : Signal) (hw : w.WF)
    (hS : w.signals sig = some S) :
    ∃ w1, Signal.disconnectKey w sig key = .ok w1 ∧ w1.WF := by
  cases hf : S.connections.find key with
  | none => exact ⟨w, disconnectKey_absent w sig key S hS hf, hw⟩
  | some c =>
    obtain ⟨conn, s, hc, _, _, hs, _⟩ := hw.linked.of_find hS hf
    obtain ⟨w1, hrun, hsig, hconns, hslots, hnc, hns⟩ :=
      disconnectKey_ok w sig key S c conn s hS hf hc hs
    exact ⟨w1, hrun,
      disconnectKey_wf w w1 hw sig key S c conn s hS hf hc hs hsig hconns hslots hnc hns⟩

theorem disconnectSlot_total (w : World) (sig : Nat) (slot : Option Nat) (S : Signal)
    (hw : w.WF) (hS : w.signals sig = some S)
    (hv : ∀ a, slot = some a → ∃ s, w.slots a = some s) :
    ∃ w1, Signal.disconnectSlot w sig slot = .ok w1 ∧ w1.WF := by
  cases slot with
  | none => exact ⟨w, rfl, hw⟩
  | some a =>
    obtain ⟨s, hs⟩ := hv a rfl
    cases hb : s.connection with
    | none =>
      refine ⟨w, ?_, hw⟩
      simp [Signal.disconnectSlot, hs, hb, bind, Except.bind, pure, Except.pure]
    | some c =>
      obtain ⟨conn, _, hc, _⟩ := hw.linked.link a s c hs hb
      by_cases hsig : conn.signal = sig
      · rw [disconnectSlot_connected w sig a c s conn hs hb hc hsig]
        exact disconnectKey_total w sig conn.key S hw hS
      · refine ⟨w, ?_, hw⟩
        simp [Signal.disconnectSlot, hs, hb, hc, hsig, bind, Except.bind, pure, Except.pure]

theorem run_total (w : World) (sig : Nat) (op : SigOp) (S : Signal) (hw : w.WF)
    (hS : w.signals sig = some S) (hroom : S.sequence + 1 < SIZE_MOD) (hv : op.Valid w) :
    ∃ w1 r, op.run w sig = .ok (w1, r) ∧ w1.WF := by
  cases op with
  | connect slot =>
    cases slot with
    | none =>
      refine ⟨w, none, ?_, hw⟩
      simp [SigOp.run, Signal.connectPtr, Signal.connect, issued, bind, Except.bind, pure,
        Except.pure]
    | some a =>
      obtain ⟨r, hrun, hwf⟩ := connect_total w sig a false S hw hS hroom hv
      refine ⟨r.1, (issued w r).2, ?_, hwf⟩
      simp [SigOp.run, Signal.connectPtr, hrun, issued, bind, Except.bind, pure, Except.pure]
  | connectMove src =>
    obtain ⟨r, hrun, hwf⟩ := connectMove_total w sig src S hw hS hroom hv
    refine ⟨r.1, (issued w r).2, ?_, hwf⟩
    simp [SigOp.run, hrun, issued, bind, Except.bind, pure, Except.pure]
  | disconnectKey key =>
    obtain ⟨w1, hrun, hwf⟩ := disconnectKey_total w sig key S hw hS
    exact ⟨w1, none, by simp [SigOp.run, hrun, bind, Except.bind, pure, Except.pure], hwf⟩
  | disconnectSlot slot =>
    have hv' : ∀ a, slot = some a → ∃ s, w.slots a = some s := by
      intro a ha
      subst ha
      exact hv
    obtain ⟨w1, hrun, hwf⟩ := disconnectSlot_total w sig slot S hw hS hv'
    exact ⟨w1, none, by simp [SigOp.run, hrun, bind, Except.bind, pure, Except.pure], hwf⟩
  | clear =>
    obtain ⟨w1, hrun, hsig, hconns, hnc, hns, hrel, hframe⟩ := clear_ok w sig S hw.linked hS
    exact ⟨w1, none, by simp [SigOp.run, hrun, bind, Except.bind, pure, Except.pure],
      clear_wf w w1 sig S hw hS hsig hconns hnc hns hrel hframe⟩

theorem runOps_total (sig : Nat) (ops : List SigOp) :
    ∀ (w : World) (S : Signal), w.WF → w.signals sig = some S →
      S.sequence + ops.length < SIZE_MOD → ValidRun sig w ops →
      ∃ w2 keys, runOps sig w ops = .ok (w2, keys) ∧ w2.WF := by
  induction ops with
  | nil =>
    intro w S hw _ _ _
    exact ⟨w, [], rfl, hw⟩
  | cons op ops ih =>
    intro w S hw hS hroom hvalid
    have hlen : (op :: ops).length = ops.length + 1 := rfl
    rw [hlen] at hroom
    have hroom1 : S.sequence + 1 < SIZE_MOD := by
      unfold SlotKey at *
      omega
    obtain ⟨w1, r, hrun1, hw1⟩ := run_total w sig op S hw hS hroom1 hvalid.1
    obtain ⟨S1, hS1, hseq, _, _⟩ := SigOp.run_step hrun1 hS
    have hmod : (S.sequence + 1) % SIZE_MOD = S.sequence + 1 := Nat.mod_eq_of_lt hroom1
    rw [hmod] at hseq
    have hroom2 : S1.sequence + ops.length < SIZE_MOD := by
      unfold SlotKey at *
      omega
    obtain ⟨w2, ks, hrun2, hw2⟩ := ih w1 S1 hw1 hS1 hroom2 (hvalid.2 w1 r hrun1)
    exact ⟨w2, r.toList ++ ks, by simp [runOps, hrun1, hrun2, bind, Except.bind, pure,
      Except.pure], hw2⟩

/-! ## `Slot::move` into a live Slot -/

theorem slot_move_unconnected (w : World) (this src : Nat) (t s : Slot)
    (ht : w.slots this = some t) (hs : w.slots src = some s) (hne : this ≠ src)
    (hb : s.connection = none) :
    ∃ w2, Slot.move w this src = .ok w2 ∧
      w2.slots = (fun x => if x = this then
          some { callback := s.callback, connection := none }
        else if x = src then some { callback := none, connection := none } else w.slots x) ∧
      w2.signals = w.signals ∧ w2.conns = w.conns ∧ w2.nextConn = w.nextConn ∧
      w2.nextSlot = w.nextSlot := by
  have hne' : ¬ src = this := fun h => hne h.symm
  refine ⟨World.mk (fun x => if x = this then
        some { callback := s.callback, connection := none }
      else if x = src then some { callback := none, connection := none } else w.slots x)
      w.signals w.conns w.nextSlot w.nextConn, ?_, rfl, rfl, rfl, rfl, rfl⟩
  simp [Slot.move, ht, hs, hb, hne, hne', bind, Except.bind, pure, Except.pure]
  apply World.ext_fields
  · funext x
    by_cases hx1 : x = this
    · simp [hx1]
    · by_cases hx2 : x = src
      · simp [hx1, hx2, hne']
      · simp [hx1, hx2]
  · rfl
  · rfl
  · rfl
  · rfl

theorem slot_move_connected (w : World) (this src c : Nat) (t s : Slot) (conn : Connection)
    (ht : w.slots this = some t) (hs : w.slots src = some s) (hne : this ≠ src)
    (hb : s.connection = some c) (hc : w.conns c = some conn) (hslot : conn.slot = src) :
    ∃ w2, Slot.move w this src = .ok w2 ∧
      w2.slots = (fun x => if x = this then
          some { callback := s.callback, connection := some c }
        else if x = src then
          (if conn.managed then none else some { callback := none, connection := none })
        else w.slots x) ∧
      w2.signals = w.signals ∧
      w2.conns = (fun y => if y = c then
          some { conn with slot := this, managed := false } else w.conns y) ∧
      w2.nextConn = w.nextConn ∧ w2.nextSlot = w.nextSlot := by
  have hne' : ¬ src = this := fun h => hne h.symm
  refine ⟨World.mk (fun x => if x = this then
        some { callback := s.callback, connection := some c }
      else if x = src then
        (if conn.managed then none else some { callback := none, connection := none })
      else w.slots x)
      w.signals (fun y => if y = c then
          some { conn with slot := this, managed := false } else w.conns y)
      w.nextSlot w.nextConn, ?_, rfl, rfl, rfl, rfl, rfl⟩
  cases hm : conn.managed
  · simp [Slot.move, Connection.releaseSlot, ht, hs, hb, hc, hm, hslot, hne, hne', bind,
      Except.bind, pure, Except.pure]
    apply World.ext_fields
    · funext x
      by_cases hx1 : x = this
      · simp [hx1, hne]
      · by_cases hx2 : x = src
        · simp [hx1, hx2, hne']
        · simp [hx1, hx2]
    · rfl
    · funext y
      by_cases hy : y = c <;> simp [hy]
    · rfl
    · rfl
  · simp [Slot.move, Connection.releaseSlot, ht, hs, hb, hc, hm, hslot, hne, hne', bind,
      Except.bind, pure, Except.pure]
    apply World.ext_fields
    · funext x
      by_cases hx1 : x = this
      · simp [hx1, hne]
      · by_cases hx2 : x = src
        · simp [hx1, hx2, hne']
        · simp [hx1, hx2]
    · rfl
    · funext y
      by_cases hy : y = c <;> simp [hy]
    · rfl
    · rfl

theorem slot_move_unconnected_wf (w w2 : World) (hw : w.WF) (this src : Nat) (t s : Slot)
    (ht : w.slots this = some t) (htb : t.connection = none) (hs : w.slots src = some s)
    (hb : s.connection = none)
    (hslots : w2.slots = (fun x => if x = this then
          some { callback := s.callback, connection := none }
        else if x = src then some { callback := none, connection := none } else w.slots x))
    (hsig : w2.signals = w.signals) (hconns : w2.conns = w.conns)
    (hnc : w2.nextConn = w.nextConn) (hns : w2.nextSlot = w.nextSlot) : w2.WF := by
  refine ⟨⟨?_, ?_, ?_, ?_, ?_⟩, ?_, ?_⟩
  · intro u T hT
    rw [hsig] at hT
    exact hw.linked.sorted u T hT
  · intro u T hT e he
    rw [hsig] at hT
    obtain ⟨conn1, s1, hc1, hsig1, hkey1, hs1, hb1⟩ := hw.linked.entry u T hT e he
    have hn1 : ¬ conn1.slot = this := by
      intro h
      rw [h, ht] at hs1
      cases hs1
      rw [htb] at hb1
      cases hb1
    have hn2 : ¬ conn1.slot = src := by
      intro h
      rw [h, hs] at hs1
      cases hs1
      rw [hb] at hb1
      cases hb1
    exact ⟨conn1, s1, by rw [hconns]; exact hc1, hsig1, hkey1,
      by simp [hslots, hn1, hn2, hs1], hb1⟩
  · intro b sb cb hsb hcb
    rw [hslots] at hsb
    by_cases hb1 : b = this
    · simp [hb1] at hsb
      subst hsb
      simp at hcb
    · by_cases hb2 : b = src
      · simp [hb1, hb2] at hsb
        split at hsb
        · cases hsb
          simp at hcb
        · cases hsb
          simp at hcb
      · simp [hb1, hb2] at hsb
        obtain ⟨connb, T, hcb1, hslb, hT, hmem⟩ := hw.linked.link b sb cb hsb hcb
        exact ⟨connb, T, by rw [hconns]; exact hcb1, hslb, by rw [hsig]; exact hT, hmem⟩
  · intro y hy
    rw [hnc] at hy
    rw [hconns]
    exact hw.linked.freshConn y hy
  · intro x hx
    rw [hns] at hx
    have hfx := hw.linked.freshSlot x hx
    have hx1 : ¬ x = this := by
      intro h
      rw [h, ht] at hfx
      cases hfx
    have hx2 : ¬ x = src := by
      intro h
      rw [h, hs] at hfx
      cases hfx
    simp [hslots, hx1, hx2, hfx]
  · intro u T hT e he
    rw [hsig] at hT
    exact hw.keys u T hT e he
  · intro u T hT
    rw [hsig] at hT
    exact hw.counter u T hT

theorem slot_move_connected_wf (w w2 : World) (hw : w.WF) (this src c : Nat) (t s : Slot)
    (conn : Connection) (ht : w.slots this = some t) (htb : t.connection = none)
    (hs : w.slots src = some s) (hne : this ≠ src) (hb : s.connection = some c)
    (hc : w.conns c = some conn)
    (hslots : w2.slots = (fun x => if x = this then
          some { callback := s.callback, connection := some c }
        else if x = src then
          (if conn.managed then none else some { callback := none, connection := none })
        else w.slots x))
    (hsig : w2.signals = w.signals)
    (hconns : w2.conns = (fun y => if y = c then
          some { conn with slot := this, managed := false } else w.conns y))
    (hnc : w2.nextConn = w.nextConn) (hns : w2.nextSlot = w.nextSlot) : w2.WF := by
  obtain ⟨conn0, S0, hc0, hslot, hS0, hmem0⟩ := hw.linked.link src s c hs hb
  rw [hc] at hc0
  cases hc0
  refine ⟨⟨?_, ?_, ?_, ?_, ?_⟩, ?_, ?_⟩
  · intro u T hT
    rw [hsig] at hT
    exact hw.linked.sorted u T hT
  · intro u T hT e he
    rw [hsig] at hT
    obtain ⟨conn1, s1, hc1, hsig1, hkey1, hs1, hb1⟩ := hw.linked.entry u T hT e he
    by_cases hec : e.2 = c
    · rw [hec, hc] at hc1
      cases hc1
      refine ⟨{ conn with slot := this, managed := false },
        { callback := s.callback, connection := some c }, ?_, hsig1, hkey1, ?_, ?_⟩
      · rw [hconns]; simp [hec]
      · rw [hslots]; simp
      · simp [hec]
    · have hn1 : ¬ conn1.slot = this := by
        intro h
        rw [h, ht] at hs1
        cases hs1
        rw [htb] at hb1
        cases hb1
      have hn2 : ¬ conn1.slot = src := by
        intro h
        rw [h, hs] at hs1
        cases hs1
        rw [hb] at hb1
        exact hec (Option.some.inj hb1).symm
      exact ⟨conn1, s1, by rw [hconns]; simp [hec, hc1], hsig1, hkey1,
        by simp [hslots, hn1, hn2, hs1], hb1⟩
  · intro b sb cb hsb hcb
    rw [hslots] at hsb
    by_cases hb1 : b = this
    · simp [hb1] at hsb
      subst hsb
      simp at hcb
      subst hcb
      refine ⟨{ conn with slot := this, managed := false }, S0, ?_, hb1.symm, ?_, hmem0⟩
      · rw [hconns]; simp
      · rw [hsig]; exact hS0
    · by_cases hb2 : b = src
      · have hne' : ¬ src = this := fun h => hne h.symm
        cases hm : conn.managed <;> simp [hb2, hne', hm] at hsb
        subst hsb
        simp at hcb
      · simp [hb1, hb2] at hsb
        obtain ⟨connb, T, hcb1, hslb, hT, hmem⟩ := hw.linked.link b sb cb hsb hcb
        have hcne : ¬ cb = c := by
          intro h
          rw [h, hc] at hcb1
          cases hcb1
          exact hb2 (hslb.symm.trans hslot)
        exact ⟨connb, T, by rw [hconns]; simp [hcne, hcb1], hslb, by rw [hsig]; exact hT,
          hmem⟩
  · intro y hy
    rw [hnc] at hy
    rw [hconns]
    have hyc : ¬ y = c := by
      intro h
      have := hw.linked.freshConn y hy
      rw [h, hc] at this
      cases this
    simp [hyc]
    exact hw.linked.freshConn y hy
  · intro x hx
    rw [hns] at hx
    have hfx := hw.linked.freshSlot x hx
    have hx1 : ¬ x = this := by
      intro h
      rw [h, ht] at hfx
      cases hfx
    have hx2 : ¬ x = src := by
      intro h
      rw [h, hs] at hfx
      cases hfx
    simp [hslots, hx1, hx2, hfx]
  · intro u T hT e he
    rw [hsig] at hT
    exact hw.keys u T hT e he
  · intro u T hT
    rw [hsig] at hT
    exact hw.counter u T hT

/-! ## Disconnecting a caller-owned Slot -/

theorem slot_disconnect_owned (w : World) (a : Nat) (d : Slot) (hw : w.WF)
    (hd : w.slots a = some d)
    (hown : ∀ c conn, d.connection = some c → w.conns c = some conn → conn.managed = false) :
    ∃ w1, Slot.disconnect w a = .ok w1 ∧ w1.WF ∧
      w1.slots = (fun x => if x = a then some { d with connection := none } else w.slots x) ∧
      w1.nextConn = w.nextConn ∧ w1.nextSlot = w.nextSlot ∧
      (d.connection = none → w1 = w) ∧
      (∀ y conn1, w.conns y = some conn1 → conn1.slot ≠ a → w1.conns y = some conn1) ∧
      (∀ c conn S, d.connection = some c → w.conns c = some conn →
        w.signals conn.signal = some S →
        S.connections.find conn.key = some c ∧
        w1.signals = (fun x => if x = conn.signal then
          some { connections := S.connections.erase conn.key, sequence := S.sequence }
          else w.signals x) ∧
        w1.conns = (fun y => if y = c then none else w.conns y)) := by
  cases hb : d.connection with
  | none =>
    refine ⟨w, slot_disconnect_unconnected w a d hd hb, hw, ?_, rfl, rfl, fun _ => rfl,
      fun _ _ h _ => h, ?_⟩
    · funext x
      by_cases hx : x = a
      · subst hx
        simp [hd, ← hb]
      · simp [hx]
    · intro c conn S hc
      cases hc
  | some c =>
    obtain ⟨conn, S, hc, hslot, hS, hfind⟩ := hw.linked.find_of_link hd hb
    have hm := hown c conn hb hc
    have hd' : w.slots conn.slot = some d := by rw [hslot]; exact hd
    obtain ⟨w1, hrun, hsig, hconns, hslots, hnc, hns⟩ :=
      disconnectKey_ok w conn.signal conn.key S c conn d hS hfind hc hd'
    have hw1 : w1.WF :=
      disconnectKey_wf w w1 hw conn.signal conn.key S c conn d hS hfind hc hd' hsig hconns
        hslots hnc hns
    refine ⟨w1, ?_, hw1, ?_, hnc, hns, (fun h => by cases h), ?_, ?_⟩
    · rw [slot_disconnect_connected w a c d conn hd hb hc]
      exact hrun
    · rw [hslots, hslot]
      funext x
      by_cases hx : x = a <;> simp [hx, hm]
    · intro y conn1 hc1 hne
      have hy : ¬ y = c := by
        intro h
        rw [h, hc] at hc1
        cases hc1
        exact hne hslot
      simp [hconns, hy, hc1]
    · intro c' conn' S' hb' hc' hS'
      cases hb'
      rw [hc] at hc'
      cases hc'
      rw [hS] at hS'
      cases hS'
      exact ⟨hfind, hsig, hconns⟩

/-! ## Move assignment of Slots -/

theorem moveAssign_owned (w : World) (a b : Nat) (d s : Slot) (hw : w.WF)
    (hd : w.slots a = some d) (hs : w.slots b = some s) (hne : a ≠ b)
    (hown : ∀ c conn, d.connection = some c → w.conns c = some conn → conn.managed = false) :
    ∃ w1 w2, Slot.disconnect w a = .ok w1 ∧ Slot.move w1 a b = .ok w2 ∧
      Slot.moveAssign w a b = .ok w2 ∧ w1.WF ∧ w2.WF ∧
      w1.slots = (fun x => if x = a then some { d with connection := none } else w.slots x) ∧
      (d.connection = none → w1 = w) ∧
      (∀ c conn S, d.connection = some c → w.conns c = some conn →
        w.signals conn.signal = some S →
        S.connections.find conn.key = some c ∧
        w1.signals = (fun x => if x = conn.signal then
          some { connections := S.connections.erase conn.key, sequence := S.sequence }
          else w.signals x) ∧
        w1.conns = (fun y => if y = c then none else w.conns y)) ∧
      w2.signals = w1.signals ∧ w2.nextConn = w.nextConn ∧ w2.nextSlot = w.nextSlot ∧
      (s.connection = none →
        w2.slots = (fun x => if x = a then some { callback := s.callback, connection := none }
          else if x = b then some { callback := none, connection := none } else w.slots x) ∧
        w2.conns = w1.conns) ∧
      (∀ c conn, s.connection = some c → w.conns c = some conn →
        w1.conns c = some conn ∧
        w2.slots = (fun x => if x = a then some { callback := s.callback, connection := some c }
          else if x = b then
            (if conn.managed then none else some { callback := none, connection := none })
          else w.slots x) ∧
        w2.conns = (fun y => if y = c then some { conn with slot := a, managed := false }
          else w1.conns y)) := by
  obtain ⟨w1, hrun1, hw1, hslots1, hnc1, hns1, hsame, hframe, hdetail⟩ :=
    slot_disconnect_owned w a d hw hd hown
  have hne' : ¬ b = a := fun h => hne h.symm
  have ht1 : w1.slots a = some { d with connection := none } := by simp [hslots1]
  have hs1 : w1.slots b = some s := by simp [hslots1, hne', hs]
  cases hb : s.connection with
  | none =>
    obtain ⟨w2, hrun2, hslots2, hsig2, hconns2, hnc2, hns2⟩ :=
      slot_move_unconnected w1 a b _ s ht1 hs1 hne hb
    have hw2 : w2.WF :=
      slot_move_unconnected_wf w1 w2 hw1 a b _ s ht1 rfl hs1 hb hslots2 hsig2 hconns2 hnc2 hns2
    refine ⟨w1, w2, hrun1, hrun2, ?_, hw1, hw2, hslots1, hsame, hdetail, hsig2,
      by rw [hnc2, hnc1], by rw [hns2, hns1], ?_, ?_⟩
    · simp [Slot.moveAssign, hrun1, hrun2, bind, Except.bind]
    · intro _
      refine ⟨?_, hconns2⟩
      rw [hslots2, hslots1]
      funext x
      by_cases hx : x = a <;> simp [hx]
    · intro c conn hc
      cases hc
  | some c =>
    obtain ⟨conn, S, hc, hslot, hS, hfind⟩ := hw.linked.find_of_link hs hb
    have hc1 : w1.conns c = some conn := hframe c conn hc (by rw [hslot]; exact hne')
    obtain ⟨w2, hrun2, hslots2, hsig2, hconns2, hnc2, hns2⟩ :=
      slot_move_connected w1 a b c _ s conn ht1 hs1 hne hb hc1 hslot
    have hw2 : w2.WF :=
      slot_move_connected_wf w1 w2 hw1 a b c _ s conn ht1 rfl hs1 hne hb hc1 hslots2 hsig2
        hconns2 hnc2 hns2
    refine ⟨w1, w2, hrun1, hrun2, ?_, hw1, hw2, hslots1, hsame, hdetail, hsig2,
      by rw [hnc2, hnc1], by rw [hns2, hns1], (fun h => by cases h), ?_⟩
    · simp [Slot.moveAssign, hrun1, hrun2, bind, Except.bind]
    · intro c' conn' hb' hc'
      cases hb'
      rw [hc] at hc'
      cases hc'
      refine ⟨hc1, ?_, hconns2⟩
      rw [hslots2, hslots1]
      funext x
      by_cases hx : x = a <;> simp [hx]

/-! ## The key returned by `connect` -/

theorem connect_key (w : World) (sig a : Nat) (managed : Bool) (S : Signal) (hw : w.WF)
    (hS : w.signals sig = some S) (hroom : S.sequence + 1 < SIZE_MOD)
    (hown : w.CallerOwned a) :
    ∃ w2 key, Signal.connect w sig (some a) managed = .ok (w2, key) ∧ w2.WF ∧ 1 ≤ key ∧
      ∃ S2 c, w2.signals sig = some S2 ∧ S2.connections.find key = some c := by
  have hpos : 1 ≤ (S.sequence + 1) % SIZE_MOD := by
    rw [Nat.mod_eq_of_lt hroom]
    exact Nat.le_add_left 1 _
  have habs := hw.next_key_absent hS
  obtain ⟨s, hs, hconn⟩ := hown
  cases hb : s.connection with
  | none =>
    obtain ⟨w2, hrun, hsig, _, _, _, _, _, hwf⟩ :=
      connect_unconnected w sig a managed S s hw hS hs hb
    refine ⟨w2, _, hrun, hwf hroom, hpos,
      { connections := S.connections.insert ((S.sequence + 1) % SIZE_MOD) w.nextConn,
        sequence := (S.sequence + 1) % SIZE_MOD }, w.nextConn, by simp [hsig], ?_⟩
    simp [Registry.find_insert _ _ _ habs]
  | some c =>
    obtain ⟨conn, hc, hm⟩ := hconn c hb
    obtain ⟨conn1, SA, hc1, _, hSA, hmem⟩ := hw.linked.link a s c hs hb
    rw [hc] at hc1
    cases hc1
    by_cases hsig : conn.signal = sig
    · rw [hsig, hS] at hSA
      cases hSA
      refine ⟨w, conn.key, ?_, hw, (hw.keys sig S hS _ hmem).1, S, c, hS,
        Registry.find_of_mem _ _ _ (hw.linked.sorted sig S hS) hmem⟩
      simp [Signal.connect, hs, hb, hc, hsig, bind, Except.bind, pure, Except.pure]
    · obtain ⟨w2, hrun, hsig2, _, _, _, _, _, hwf⟩ :=
        connect_migrate w conn.signal sig a c SA S s conn managed hw hsig hSA hS hs hb hc rfl hm
      refine ⟨w2, _, hrun, hwf hroom, hpos,
        { connections := S.connections.insert ((S.sequence + 1) % SIZE_MOD) w.nextConn,
          sequence := (S.sequence + 1) % SIZE_MOD }, w.nextConn, by simp [hsig2], ?_⟩
      simp [Registry.find_insert _ _ _ habs]

theorem connectMove_key (w : World) (sig src : Nat) (S : Signal) (hw : w.WF)
    (hS : w.signals sig = some S) (hroom : S.sequence + 1 < SIZE_MOD)
    (hown : w.CallerOwned src) :
    ∃ w2 key, Signal.connectMove w sig src = .ok (w2, key) ∧ w2.WF ∧ 1 ≤ key ∧
      ∃ S2 c, w2.signals sig = some S2 ∧ S2.connections.find key = some c := by
  obtain ⟨s, hs, hconn⟩ := hown
  cases hb : s.connection with
  | none =>
    obtain ⟨w1, hrun1, hslots1, hsig1, _, _, _, hw1⟩ :=
      moveConstruct_unconnected w src s hw hs hb
    have hS1 : w1.signals sig = some S := by rw [hsig1]; exact hS
    have hown1 : w1.CallerOwned w.nextSlot :=
      ⟨{ callback := s.callback, connection := none }, by simp [hslots1],
        fun c hc => by simp at hc⟩
    obtain ⟨w2, key, hrun, hwf, hkey, hreg⟩ :=
      connect_key w1 sig w.nextSlot true S hw1 hS1 hroom hown1
    exact ⟨w2, key, by simp [Signal.connectMove, hrun1, hrun, bind, Except.bind], hwf, hkey,
      hreg⟩
  | some c =>
    obtain ⟨conn, hc, hm⟩ := hconn c hb
    obtain ⟨w1, hrun1, hslots1, hsig1, hconns1, _, _, hw1⟩ :=
      moveConstruct_connected w src c s conn hw hs hb hc hm
    have hS1 : w1.signals sig = some S := by rw [hsig1]; exact hS
    have hown1 : w1.CallerOwned w.nextSlot := by
      refine ⟨{ callback := s.callback, connection := some c }, by simp [hslots1], ?_⟩
      intro c' hc'
      simp at hc'
      subst hc'
      exact ⟨{ conn with slot := w.nextSlot, managed := false }, by simp [hconns1], rfl⟩
    obtain ⟨w2, key, hrun, hwf, hkey, hreg⟩ :=
      connect_key w1 sig w.nextSlot true S hw1 hS1 hroom hown1
    exact ⟨w2, key, by simp [Signal.connectMove, hrun1, hrun, bind, Except.bind], hwf, hkey,
      hreg⟩

/-! ## Emission when a callback connects a Slot -/

theorem Registry.insert_last (m : Registry) (key : SlotKey) (c : Nat)
    (h : ∀ e ∈ m, e.1 < key) : Registry.insert m key c = m ++ [(key, c)] := by
  induction m with
  | nil => simp [Registry.insert]
  | cons e m ih =>
    obtain ⟨k, c'⟩ := e
    have hk : ¬ key < k := Nat.not_lt.2 (Nat.le_of_lt (h (k, c') (List.mem_cons_self _ _)))
    simp [Registry.insert, hk, ih (fun e he => h e (List.mem_cons_of_mem _ he))]

theorem connect_appends (w : World) (sig b : Nat) (S : Signal) (sb : Slot) (hw : w.WF)
    (hS : w.signals sig = some S) (hb : w.slots b = some sb) (hbc : sb.connection = none)
    (hroom : S.sequence + 1 < SIZE_MOD) :
    ∃ w1, Signal.connect w sig (some b) false = .ok (w1, S.sequence + 1) ∧ w1.WF ∧
      w1.signals sig = some { connections := S.connections ++ [(S.sequence + 1, w.nextConn)],
                              sequence := S.sequence + 1 } ∧
      (∀ e ∈ S.connections, w1.conns e.2 = w.conns e.2 ∧
        ∀ conn, w.conns e.2 = some conn → w1.slots conn.slot = w.slots conn.slot) ∧
      w1.conns w.nextConn
        = some { signal := sig, slot := b, key := S.sequence + 1, managed := false } ∧
      w1.slots b = some { callback := sb.callback, connection := some w.nextConn } ∧
      w1.nextConn = w.nextConn + 1 ∧ (∀ x, x ≠ b → w1.slots x = w.slots x) := by
  obtain ⟨w1, hrun, hsig, hconns, hslots, hnc, _, _, hwf⟩ :=
    connect_unconnected w sig b false S sb hw hS hb hbc
  have hK : (S.sequence + 1) % SIZE_MOD = S.sequence + 1 := Nat.mod_eq_of_lt hroom
  rw [hK] at hrun hsig hconns
  have hlast : Registry.insert S.connections (S.sequence + 1) w.nextConn
      = S.connections ++ [(S.sequence + 1, w.nextConn)] :=
    Registry.insert_last _ _ _ (fun e he => Nat.lt_succ_of_le (hw.keys sig S hS e he).2)
  refine ⟨w1, hrun, hwf hroom, by simp [hsig, hlast], ?_, by simp [hconns], by simp [hslots],
    hnc, fun x hx => by simp [hslots, hx]⟩
  intro e he
  obtain ⟨conn, s, hc, _, _, hs, hsb⟩ := hw.linked.entry sig S hS e he
  have hne : ¬ e.2 = w.nextConn := by
    intro h
    rw [h, hw.linked.freshConn _ (le_refl _)] at hc
    cases hc
  refine ⟨by simp [hconns, hne], ?_⟩
  intro conn1 hc1
  rw [hc] at hc1
  cases hc1
  have hnb : ¬ conn.slot = b := by
    intro h
    rw [h, hb] at hs
    cases hs
    rw [hbc] at hsb
    cases hsb
  simp [hslots, hnb]

theorem connecting_quiet (w : World) (sig b f0 c : Nat) (key : SlotKey) (S : Signal)
    (sb : Slot) (conn : Connection)
    (hS : w.signals sig = some S) (hmem : (key, c) ∈ S.connections)
    (hc : w.conns c = some conn) (hslot : conn.slot = b) (hsig : conn.signal = sig)
    (hb : w.slots b = some sb) (hbc : sb.connection = some c) :
    Env.Quiet (Env.connecting sig b f0) sig w := by
  intro f vals w1 hag
  by_cases hf : f = f0
  · have h := hag.2 S hS (key, c) hmem
    have hc1 : w1.conns c = some conn := by rw [h.1]; exact hc
    have hb1 : w1.slots b = some sb := by
      have h2 := h.2 conn hc
      rw [hslot] at h2
      rw [h2]; exact hb
    refine ⟨w1, ?_, hag⟩
    simp [Env.connecting, hf, Signal.connectRef, Signal.connect, hb1, hbc, hc1, hsig, bind,
      Except.bind, pure, Except.pure, Except.map]
  · exact ⟨w1, by simp [Env.connecting, hf], hag⟩

theorem emitLoop_connecting (w w1 : World) (sig b f0 cn : Nat) (K : SlotKey) (S S1 : Signal)
    (hw : w.Linked) (hS : w.signals sig = some S)
    (hrun : Signal.connect w sig (some b) false = .ok (w1, K)) (hw1 : w1.Linked)
    (hS1 : w1.signals sig = some S1) (hreg : S1.connections = S.connections ++ [(K, cn)])
    (hframe : ∀ e ∈ S.connections, w1.conns e.2 = w.conns e.2 ∧
      ∀ conn, w.conns e.2 = some conn → w1.slots conn.slot = w.slots conn.slot)
    (hq : Env.Quiet (Env.connecting sig b f0) sig w1) :
    ∀ (post pre : Registry), S.connections = pre ++ post →
    (∃ e ∈ post, ∃ a, w.target e = some (a, f0)) →
    ∀ (fuel : Nat), post.length + 1 ≤ fuel →
    ∀ (args : List Arg) (log : List Call),
      ∃ w2, Signal.emitLoop (Env.connecting sig b f0) sig fuel w (post.head?.map Prod.snd)
          args log = .ok (w2, log ++ w1.calls (post ++ [(K, cn)]) args) ∧
        World.Agree sig w1 w2 := by
  intro post
  induction post with
  | nil =>
    intro pre _ hex
    obtain ⟨e, he, _⟩ := hex
    cases he
  | cons e post ih =>
    intro pre hsplit hex fuel hfuel args log
    obtain ⟨k, c⟩ := e
    cases fuel with
    | zero => simp at hfuel
    | succ fuel =>
      have hmem : (k, c) ∈ S.connections := by simp [hsplit]
      obtain ⟨conn, s, hc, hs⟩ := hw.live hS (k, c) hmem
      have hc1 : w1.conns c = some conn := by rw [(hframe (k, c) hmem).1]; exact hc
      have hs1 : w1.slots conn.slot = some s := by
        rw [(hframe (k, c) hmem).2 conn hc]; exact hs
      have hnd := hw.nodes_nodup hS
      rw [hsplit] at hnd
      simp only [List.map_append, List.map_cons] at hnd
      have hcpre : c ∉ pre.map Prod.snd := fun hin =>
        (List.nodup_append.1 hnd).2.2 hin (List.mem_cons_self _ _)
      have hnext : S.connections.next c = some (post.head?.map Prod.snd) := by
        rw [hsplit]; exact Registry.next_append pre k c post hcpre
      have hsplit' : S.connections = (pre ++ [(k, c)]) ++ post := by simp [hsplit]
      have hfuel' : post.length + 1 ≤ fuel := by simpa using hfuel
      cases hcb : s.callback with
      | none =>
        have hex' : ∃ e ∈ post, ∃ a, w.target e = some (a, f0) := by
          obtain ⟨e, he, a, ht⟩ := hex
          rcases List.mem_cons.1 he with heq | hin
          · subst heq
            simp [World.target, hc, hs, hcb] at ht
          · exact ⟨e, hin, a, ht⟩
        obtain ⟨w2, h2, hag⟩ := ih _ hsplit' hex' fuel hfuel' args log
        refine ⟨w2, ?_, hag⟩
        simp [Signal.emitLoop, hc, hs, hc1, hs1, hcb, hS, hnext, bind, Except.bind,
          World.calls, h2]
      | some f =>
        by_cases hf : f = f0
        · have henv : Env.connecting sig b f0 f (received args) w = .ok w1 := by
            simp [Env.connecting, hf, Signal.connectRef, hrun, Except.map]
          have hnext1 : S1.connections.next c
              = some ((post ++ [(K, cn)]).head?.map Prod.snd) := by
            rw [hreg, hsplit, List.append_assoc, List.cons_append]
            exact Registry.next_append pre k c (post ++ [(K, cn)]) hcpre
          have hsplit1 : S1.connections = (pre ++ [(k, c)]) ++ (post ++ [(K, cn)]) := by
            simp [hreg, hsplit]
          have hfuel1 : (post ++ [(K, cn)]).length ≤ fuel := by simpa using hfuel'
          obtain ⟨w2, h2, hag⟩ := emitLoop_quiet (Env.connecting sig b f0) w1 sig S1 hS1 hq
            (hw1.nodes_nodup hS1) (hw1.live hS1) (post ++ [(K, cn)]) (pre ++ [(k, c)]) hsplit1
            fuel hfuel1 (forwarded args)
            (log ++ [{ slot := conn.slot, callback := f, args := received args }]) w1
            (World.agree_refl sig w1)
          obtain ⟨it, hit⟩ : ∃ it, it = (post ++ [(K, cn)]).head?.map Prod.snd := ⟨_, rfl⟩
          rw [← hit] at hnext1 h2
          refine ⟨w2, ?_, hag⟩
          simp [Signal.emitLoop, hc, hs, hc1, hs1, hcb, hS1, hnext1, bind, Except.bind,
            World.calls, h2, henv]
        · have henv : Env.connecting sig b f0 f (received args) w = .ok w := by
            simp [Env.connecting, hf]
          have hex' : ∃ e ∈ post, ∃ a, w.target e = some (a, f0) := by
            obtain ⟨e, he, a, ht⟩ := hex
            rcases List.mem_cons.1 he with heq | hin
            · subst heq
              simp [World.target, hc, hs, hcb, hf] at ht
            · exact ⟨e, hin, a, ht⟩
          obtain ⟨w2, h2, hag⟩ := ih _ hsplit' hex' fuel hfuel' (forwarded args)
            (log ++ [{ slot := conn.slot, callback := f, args := received args }])
          refine ⟨w2, ?_, hag⟩
          simp [Signal.emitLoop, hc, hs, hc1, hs1, hcb, hS, hnext, bind, Except.bind,
            World.calls, h2, henv]

theorem emit_connecting (w : World) (sig b f0 : Nat) (S : Signal) (sb : Slot) (hw : w.WF)
    (hS : w.signals sig = some S) (hb : w.slots b = some sb) (hbc : sb.connection = none)
    (hroom : S.sequence + 1 < SIZE_MOD)
    (hex : ∃ e ∈ S.connections, ∃ a, w.target e = some (a, f0))
    (fuel : Nat) (hfuel : S.connections.length + 1 ≤ fuel) (args : List Arg) :
    ∃ w2 log, Signal.emit (Env.connecting sig b f0) fuel w sig args = .ok (w2, log) ∧
      log.map Call.target
        = S.connections.filterMap w.target ++ (sb.callback.map fun g => (b, g)).toList ∧
      w2.signals sig = some { connections := S.connections ++ [(S.sequence + 1, w.nextConn)],
                              sequence := S.sequence + 1 } := by
  obtain ⟨w1, hrun, hw1, hS1, hframe, hcn, hb1, _, _⟩ :=
    connect_appends w sig b S sb hw hS hb hbc hroom
  have hq : Env.Quiet (Env.connecting sig b f0) sig w1 :=
    connecting_quiet w1 sig b f0 w.nextConn (S.sequence + 1) _ _ _ hS1 (by simp) hcn rfl rfl
      hb1 rfl
  obtain ⟨w2, h2, hag⟩ := emitLoop_connecting w w1 sig b f0 w.nextConn (S.sequence + 1) S _
    hw.linked hS hrun hw1.linked hS1 rfl hframe hq S.connections [] rfl hex fuel hfuel args []
  refine ⟨w2, w1.calls (S.connections ++ [(S.sequence + 1, w.nextConn)]) args, ?_, ?_, ?_⟩
  · simpa [Signal.emit, hS, bind, Except.bind] using h2
  · have hlive : ∀ e ∈ S.connections ++ [(S.sequence + 1, w.nextConn)],
        ∃ conn s, w1.conns e.2 = some conn ∧ w1.slots conn.slot = some s := by
      intro e he
      exact hw1.linked.live hS1 e he
    rw [World.calls_target w1 _ hlive args, List.filterMap_append]
    congr 1
    · apply List.filterMap_congr
      intro e he
      obtain ⟨conn, s, hc, hs⟩ := hw.linked.live hS e he
      have h := hframe e he
      simp [World.target, h.1, hc, h.2 conn hc, hs]
    · cases hcb : sb.callback <;>
        simp [List.filterMap, World.target, hcn, hb1, hcb]
  · rw [hag.1]
    exact hS1

/-! ## Emission when callbacks disconnect other Slots -/

theorem Registry.filter_mem_filter (rest R : Registry) (p : SlotKey × Nat → Bool) :
    (rest.filter fun e => decide (e ∈ R)).filter p
      = rest.filter fun e => decide (e ∈ R.filter p) := by
  rw [List.filter_filter]
  apply List.filter_congr
  intro x _
  by_cases h1 : x ∈ R <;> by_cases h2 : p x = true <;> simp [List.mem_filter, h1, h2]

theorem emitLoop_tolerated (env : Env) (sig : Nat) :
    ∀ (snap : Registry) (w : World) (S : Signal) (pre post : Registry), w.Linked →
    w.signals sig = some S → S.connections = pre ++ post →
    post = snap.filter (fun e => decide (e ∈ S.connections)) →
    ∀ (args : List Arg), Signal.Tolerated env sig snap w args →
    ∀ (fuel : Nat), snap.length ≤ fuel → ∀ (log : List Call),
      ∃ r, Signal.emitLoop env sig fuel w (post.head?.map Prod.snd) args log = .ok r ∧
        Signal.dispatchSnapshot env sig snap w args log = .ok r ∧ r.1.Linked := by
  intro snap
  induction snap with
  | nil =>
    intro w S pre post hI hS _ hpost args _ fuel _ log
    subst hpost
    refine ⟨(w, log), ?_, ?_, hI⟩
    · cases fuel <;> simp [Signal.emitLoop, pure, Except.pure]
    · simp [Signal.dispatchSnapshot, pure, Except.pure]
  | cons e rest ih =>
    intro w S pre post hI hS hsplit hpost args htol fuel hfuel log
    obtain ⟨k, c⟩ := e
    obtain ⟨S0, hS0, hout, hnone, hsome⟩ := htol
    rw [hS] at hS0
    cases hS0
    have hfuel0 : rest.length ≤ fuel := Nat.le_of_succ_le (by simpa using hfuel)
    obtain ⟨post1, hpost1⟩ :
        ∃ post1, post1 = rest.filter (fun e => decide (e ∈ S.connections)) := ⟨_, rfl⟩
    by_cases hin : (k, c) ∈ S.connections
    · have hfilter : ((k, c) :: rest).filter (fun e => decide (e ∈ S.connections))
          = (k, c) :: rest.filter (fun e => decide (e ∈ S.connections)) := by
        simp [List.filter_cons, hin]
      rw [hfilter, ← hpost1] at hpost
      subst hpost
      cases fuel with
      | zero => simp at hfuel
      | succ fuel =>
        have hfuel' : rest.length ≤ fuel := by simpa using hfuel
        obtain ⟨conn, s, hc, hs⟩ := hI.live hS (k, c) hin
        have hnd := hI.nodes_nodup hS
        rw [hsplit] at hnd
        simp only [List.map_append, List.map_cons] at hnd
        have hcpre : c ∉ pre.map Prod.snd := fun hmem =>
          (List.nodup_append.1 hnd).2.2 hmem (List.mem_cons_self _ _)
        cases hcb : s.callback with
        | none =>
          have htarget : w.target (k, c) = none := by
            simp [World.target, hc, hs, hcb]
          have hnext : S.connections.next c = some (post1.head?.map Prod.snd) := by
            rw [hsplit]
            exact Registry.next_append pre k c post1 hcpre
          have hsplit' : S.connections = (pre ++ [(k, c)]) ++ post1 := by
            rw [List.append_assoc]
            exact hsplit
          obtain ⟨r, h1, h2, hIr⟩ := ih w S _ post1 hI hS hsplit' hpost1 args
            (hnone hin htarget) fuel hfuel' log
          refine ⟨r, ?_, ?_, hIr⟩
          · simp [Signal.emitLoop, hc, hs, hcb, hS, hnext, bind, Except.bind, h1]
          · simp [Signal.dispatchSnapshot, hS, hin, hc, hs, hcb, bind, Except.bind, h2]
        | some f =>
          have htarget : w.target (k, c) = some (conn.slot, f) := by
            simp [World.target, hc, hs, hcb]
          obtain ⟨w2, S2, p, henv, hI2, hS2, hreg, hp, htol2⟩ :=
            hsome hin conn.slot f htarget
          have hpost2 : post1.filter p
              = rest.filter fun e => decide (e ∈ S2.connections) := by
            rw [hreg, hpost1]
            exact Registry.filter_mem_filter rest S.connections p
          have hsplit2 : S2.connections = pre.filter p ++ (k, c) :: post1.filter p := by
            rw [hreg, hsplit]
            simp [List.filter_append, List.filter_cons, hp]
          have hnd2 := hI2.nodes_nodup hS2
          rw [hsplit2] at hnd2
          simp only [List.map_append, List.map_cons] at hnd2
          have hcpre2 : c ∉ (pre.filter p).map Prod.snd := fun hmem =>
            (List.nodup_append.1 hnd2).2.2 hmem (List.mem_cons_self _ _)
          have hnext2 : S2.connections.next c
              = some ((post1.filter p).head?.map Prod.snd) := by
            rw [hsplit2]
            exact Registry.next_append (pre.filter p) k c _ hcpre2
          have hsplit2' : S2.connections = (pre.filter p ++ [(k, c)]) ++ post1.filter p := by
            rw [List.append_assoc]
            exact hsplit2
          obtain ⟨r, h1, h2, hIr⟩ := ih w2 S2 _ (post1.filter p) hI2 hS2 hsplit2' hpost2
            (forwarded args) htol2 fuel hfuel'
            (log ++ [{ slot := conn.slot, callback := f, args := received args }])
          obtain ⟨it, hit⟩ : ∃ it, it = (post1.filter p).head?.map Prod.snd := ⟨_, rfl⟩
          rw [← hit] at hnext2 h1
          refine ⟨r, ?_, ?_, hIr⟩
          · simp [Signal.emitLoop, hc, hs, hcb, hS2, hnext2, bind, Except.bind, h1, henv]
          · simp [Signal.dispatchSnapshot, hS, hin, hc, hs, hcb, bind, Except.bind, h2, henv]
    · have hfilter : ((k, c) :: rest).filter (fun e => decide (e ∈ S.connections))
          = rest.filter (fun e => decide (e ∈ S.connections)) := by
        simp [List.filter_cons, hin]
      rw [hfilter] at hpost
      obtain ⟨r, h1, h2, hIr⟩ := ih w S pre post hI hS hsplit hpost args (hout hin) fuel
        hfuel0 log
      refine ⟨r, h1, ?_, hIr⟩
      simp [Signal.dispatchSnapshot, hS, hin, bind, Except.bind, h2]

theorem emit_tolerated (env : Env) (sig : Nat) (w : World) (S : Signal) (hw : w.Linked)
    (hS : w.signals sig = some S) (args : List Arg)
    (htol : Signal.Tolerated env sig S.connections w args)
    (fuel : Nat) (hfuel : S.connections.length ≤ fuel) :
    ∃ r, Signal.emit env fuel w sig args = .ok r ∧
      Signal.dispatchSnapshot env sig S.connections w args [] = .ok r ∧ r.1.Linked := by
  have hpost : S.connections
      = S.connections.filter (fun e => decide (e ∈ S.connections)) := by
    symm
    rw [List.filter_eq_self]
    intro e he
    simpa using he
  obtain ⟨r, h1, h2, hIr⟩ := emitLoop_tolerated env sig S.connections w S [] S.connections
    hw hS rfl hpost args htol fuel hfuel []
  refine ⟨r, ?_, h2, hIr⟩
  simpa [Signal.emit, hS, bind, Except.bind] using h1

/-! ## Link consistency in the words of the specification -/

theorem World.Linked.consistent {w : World} (hw : w.Linked) : w.LinkConsistent := by
  intro a s hs
  have huniq : ∀ c, s.connection = some c → ∀ sig2 e2, w.References a sig2 e2 →
      ∃ conn, w.conns c = some conn ∧ sig2 = conn.signal ∧ e2 = (conn.key, c) := by
    intro c hb sig2 e2 href
    obtain ⟨S2, conn2, hS2, he2, hc2, hslot2⟩ := href
    obtain ⟨conn3, s3, hc3, hsig3, hkey3, hs3, hb3⟩ := hw.entry sig2 S2 hS2 e2 he2
    rw [hc2] at hc3
    cases hc3
    rw [hslot2, hs] at hs3
    cases hs3
    rw [hb] at hb3
    cases hb3
    exact ⟨conn2, hc2, hsig3.symm, by rw [hkey3]⟩
  constructor
  · constructor
    · intro hne
      cases hb : s.connection with
      | none => exact absurd hb hne
      | some c =>
        obtain ⟨conn, S, hc, hslot, hS, hmem⟩ := hw.link a s c hs hb
        refine ⟨conn.signal, (conn.key, c), ⟨S, conn, hS, hmem, hc, hslot⟩, ?_⟩
        intro sig2 e2 href
        obtain ⟨conn2, hc2, h1, h2⟩ := huniq c hb sig2 e2 href
        rw [hc] at hc2
        cases hc2
        exact ⟨h1, h2⟩
    · rintro ⟨sig, e, ⟨S, conn, hS, he, hc, hslot⟩, _⟩
      obtain ⟨conn3, s3, hc3, _, _, hs3, hb3⟩ := hw.entry sig S hS e he
      rw [hc] at hc3
      cases hc3
      rw [hslot, hs] at hs3
      cases hs3
      rw [hb3]
      simp
  · intro c hb
    obtain ⟨conn, S, hc, hslot, hS, hmem⟩ := hw.link a s c hs hb
    exact ⟨conn.signal, conn.key, conn, ⟨S, conn, hS, hmem, hc, hslot⟩, hc, rfl, rfl⟩

/-! ## Operations that keep the links -/

theorem slots_update_wf (w w2 : World) (hw : w.WF) (a : Nat) (s2 : Slot)
    (hsame : ∀ s, w.slots a = some s → s.connection = s2.connection)
    (hnew : w.slots a = none → s2.connection = none)
    (hslots : w2.slots = (fun x => if x = a then some s2 else w.slots x))
    (hsig : w2.signals = w.signals) (hconns : w2.conns = w.conns)
    (hnc : w2.nextConn = w.nextConn) (hns : w.nextSlot ≤ w2.nextSlot)
    (ha : a < w2.nextSlot) : w2.WF := by
  refine ⟨⟨?_, ?_, ?_, ?_, ?_⟩, ?_, ?_⟩
  · intro t T hT
    rw [hsig] at hT
    exact hw.linked.sorted t T hT
  · intro t T hT e he
    rw [hsig] at hT
    obtain ⟨conn, s, hc, hcs, hck, hs, hb⟩ := hw.linked.entry t T hT e he
    by_cases hx : conn.slot = a
    · refine ⟨conn, s2, by rw [hconns]; exact hc, hcs, hck, by simp [hslots, hx], ?_⟩
      rw [hx] at hs
      rw [← hsame s hs]
      exact hb
    · exact ⟨conn, s, by rw [hconns]; exact hc, hcs, hck, by simp [hslots, hx, hs], hb⟩
  · intro b sb c hsb hcb
    have hold : ∃ s, w.slots b = some s ∧ s.connection = some c := by
      by_cases hx : b = a
      · simp [hslots, hx] at hsb
        subst hsb
        cases hold : w.slots a with
        | none =>
          rw [hnew hold] at hcb
          cases hcb
        | some s =>
          refine ⟨s, by rw [hx]; exact hold, ?_⟩
          rw [hsame s hold]
          exact hcb
      · simp [hslots, hx] at hsb
        exact ⟨sb, hsb, hcb⟩
    obtain ⟨s, hs, hb⟩ := hold
    obtain ⟨conn, T, hc, hslot, hT, hmem⟩ := hw.linked.link b s c hs hb
    exact ⟨conn, T, by rw [hconns]; exact hc, hslot, by rw [hsig]; exact hT, hmem⟩
  · intro c hc
    rw [hconns]
    exact hw.linked.freshConn c (by rw [← hnc]; exact hc)
  · intro x hx
    have hxa : ¬ x = a := by
      intro h
      rw [h] at hx
      exact absurd ha (Nat.not_lt.2 hx)
    simp [hslots, hxa]
    exact hw.linked.freshSlot x (Nat.le_trans hns hx)
  · intro t T hT
    rw [hsig] at hT
    exact hw.keys t T hT
  · intro t T hT
    rw [hsig] at hT
    exact hw.counter t T hT

theorem World.Linked.slot_below {w : World} (hw : w.Linked) {a : Nat} {s : Slot}
    (hs : w.slots a = some s) : a < w.nextSlot := by
  by_contra h
  rw [hw.freshSlot a (Nat.not_lt.1 h)] at hs
  cases hs

theorem newSlot_wf (w : World) (hw : w.WF) (f : Option Nat) :
    (Slot.construct { w with nextSlot := w.nextSlot + 1 } w.nextSlot f).WF := by
  have hfresh : w.slots w.nextSlot = none := hw.linked.freshSlot _ (le_refl _)
  apply slots_update_wf w _ hw w.nextSlot { callback := f, connection := none }
  · intro s hs
    rw [hfresh] at hs
    cases hs
  · intro _
    rfl
  · rfl
  · rfl
  · rfl
  · rfl
  · exact Nat.le_succ _
  · exact Nat.lt_succ_self _

theorem setCallback_wf (w : World) (hw : w.WF) (a : Nat) (s : Slot) (f : Option Nat)
    (hs : w.slots a = some s) : (w.setSlot a { s with callback := f }).WF := by
  apply slots_update_wf w _ hw a { s with callback := f }
  · intro s1 hs1
    rw [hs] at hs1
    cases hs1
    rfl
  · intro h
    rw [hs] at h
    cases h
  · rfl
  · rfl
  · rfl
  · rfl
  · exact le_refl _
  · exact hw.linked.slot_below hs

theorem reset_signal_wf (w w2 : World) (hw : w.WF) (C : Nat) (g : SlotKey)
    (hC : ∀ T, w.signals C = some T → T.connections = []) (hg : g < SIZE_MOD)
    (hsig : w2.signals
      = (fun x => if x = C then some { connections := [], sequence := g } else w.signals x))
    (hslots : w2.slots = w.slots) (hconns : w2.conns = w.conns)
    (hnc : w2.nextConn = w.nextConn) (hns : w2.nextSlot = w.nextSlot) : w2.WF := by
  have hne : ∀ t T e, w.signals t = some T → e ∈ T.connections → ¬ t = C := by
    intro t T e hT he heq
    rw [heq] at hT
    rw [hC T hT] at he
    cases he
  have hold : ∀ t T, w2.signals t = some T → ∀ e ∈ T.connections, w.signals t = some T := by
    intro t T hT e he
    rw [hsig] at hT
    by_cases ht : t = C
    · simp [ht] at hT
      subst hT
      cases he
    · simpa [ht] using hT
  refine ⟨⟨?_, ?_, ?_, ?_, ?_⟩, ?_, ?_⟩
  · intro t T hT
    rw [hsig] at hT
    by_cases ht : t = C
    · simp [ht] at hT
      subst hT
      exact List.Pairwise.nil
    · simp [ht] at hT
      exact hw.linked.sorted t T hT
  · intro t T hT e he
    obtain ⟨conn, s, hc, hcs, hck, hs, hb⟩ := hw.linked.entry t T (hold t T hT e he) e he
    exact ⟨conn, s, by rw [hconns]; exact hc, hcs, hck, by rw [hslots]; exact hs, hb⟩
  · intro b sb c hsb hcb
    rw [hslots] at hsb
    obtain ⟨conn, T, hc, hslot, hT, hmem⟩ := hw.linked.link b sb c hsb hcb
    refine ⟨conn, T, by rw [hconns]; exact hc, hslot, ?_, hmem⟩
    rw [hsig]
    simp [hne _ T _ hT hmem, hT]
  · intro c hc
    rw [hconns]
    exact hw.linked.freshConn c (by rw [← hnc]; exact hc)
  · intro x hx
    rw [hslots]
    exact hw.linked.freshSlot x (by rw [← hns]; exact hx)
  · intro t T hT e he
    exact hw.keys t T (hold t T hT e he) e he
  · intro t T hT
    rw [hsig] at hT
    by_cases ht : t = C
    · simp [ht] at hT
      subst hT
      exact hg
    · simp [ht] at hT
      exact hw.counter t T hT

theorem freeSignal_wf (w : World) (hw : w.WF) (C : Nat)
    (hC : ∀ T, w.signals C = some T → T.connections = []) : (w.freeSignal C).WF := by
  have hne : ∀ t T e, w.signals t = some T → e ∈ T.connections → ¬ t = C := by
    intro t T e hT he heq
    rw [heq] at hT
    rw [hC T hT] at he
    cases he
  have hold : ∀ t T, (w.freeSignal C).signals t = some T → w.signals t = some T := by
    intro t T hT
    by_cases ht : t = C
    · simp [World.freeSignal, ht] at hT
    · simpa [World.freeSignal, ht] using hT
  refine ⟨⟨?_, ?_, ?_, hw.linked.freshConn, hw.linked.freshSlot⟩, ?_, ?_⟩
  · intro t T hT
    exact hw.linked.sorted t T (hold t T hT)
  · intro t T hT e he
    exact hw.linked.entry t T (hold t T hT) e he
  · intro b sb c hsb hcb
    obtain ⟨conn, T, hc, hslot, hT, hmem⟩ := hw.linked.link b sb c hsb hcb
    refine ⟨conn, T, hc, hslot, ?_, hmem⟩
    simp [World.freeSignal, hne _ T _ hT hmem, hT]
  · intro t T hT
    exact hw.keys t T (hold t T hT)
  · intro t T hT
    exact hw.counter t T (hold t T hT)

/-! ## Every operation with valid operands runs and keeps the invariants -/

theorem World.CallerOwned.owned {w : World} {a : Nat} {s : Slot} (h : w.CallerOwned a)
    (hs : w.slots a = some s) :
    ∀ c conn, s.connection = some c → w.conns c = some conn → conn.managed = false := by
  intro c conn hb hc
  obtain ⟨s1, hs1, hown⟩ := h
  rw [hs] at hs1
  cases hs1
  obtain ⟨conn1, hc1, hm⟩ := hown c hb
  rw [hc] at hc1
  cases hc1
  exact hm

theorem clear_total (w : World) (sig : Nat) (S : Signal) (hw : w.WF)
    (hS : w.signals sig = some S) :
    ∃ w1, Signal.clear w sig = .ok w1 ∧ w1.WF ∧
      w1.signals sig = some { connections := [], sequence := S.sequence } := by
  obtain ⟨w1, hclear, hsig1, hconns1, hnc1, hns1, hrel1, hframe1⟩ :=
    clear_ok w sig S hw.linked hS
  exact ⟨w1, hclear, clear_wf w w1 sig S hw hS hsig1 hconns1 hnc1 hns1 hrel1 hframe1,
    by simp [hsig1]⟩

theorem signal_destroy_total (w : World) (sig : Nat) (S : Signal) (hw : w.WF)
    (hS : w.signals sig = some S) :
    ∃ w2, Signal.destroy w sig = .ok w2 ∧ w2.WF := by
  obtain ⟨w1, hclear, hw1, hS1⟩ := clear_total w sig S hw hS
  refine ⟨w1.freeSignal sig, ?_, ?_⟩
  · simp [Signal.destroy, hclear, hS1, bind, Except.bind, pure, Except.pure]
  · apply freeSignal_wf w1 hw1 sig
    intro T hT
    rw [hS1] at hT
    cases hT
    rfl

theorem signal_move_self (w : World) (A : Nat) (SA : Signal) (hw : w.WF)
    (hA : w.signals A = some SA) :
    ∃ w2, Signal.move w A A = .ok w2 ∧ w2.WF := by
  obtain ⟨w1, hclear, hw1, hA1⟩ := clear_total w A SA hw hA
  refine ⟨(w1.setSignal A { connections := [], sequence := 0 }).freeConns [], ?_, ?_⟩
  · simp [Signal.move, hclear, hA1, Signal.repoint, bind, Except.bind, pure, Except.pure,
      World.setSignal, World.freeConns]
    funext x
    by_cases hx : x = A <;> simp [hx]
  · apply reset_signal_wf w1 _ hw1 A 0
    · intro T hT
      rw [hA1] at hT
      cases hT
      rfl
    · simp [SIZE_MOD]
    · rfl
    · rfl
    · funext y
      simp [World.freeConns, World.setSignal]
    · rfl
    · rfl

theorem signal_move_total (w : World) (B A : Nat) (SA SB : Signal) (hw : w.WF)
    (hA : w.signals A = some SA) (hB : w.signals B = some SB) :
    ∃ w2, Signal.move w B A = .ok w2 ∧ w2.WF := by
  by_cases hne : A = B
  · subst hne
    exact signal_move_self w A SA hw hA
  · obtain ⟨w2, hrun, _, _, _, _, _, _, _, hwf⟩ := move_spec w A B SA SB hw hne hA hB
    exact ⟨w2, hrun, hwf⟩

theorem signal_moveConstruct_total (w : World) (p src : Nat) (g : SlotKey) (S : Signal)
    (hw : w.WF) (hp : w.signals p = none) (hS : w.signals src = some S) (hg : g < SIZE_MOD) :
    ∃ w2, Signal.moveConstruct w p src g = .ok w2 ∧ w2.WF := by
  have hne : ¬ p = src := by
    intro h
    rw [h, hS] at hp
    cases hp
  have hne' : ¬ src = p := fun h => hne h.symm
  have hw0 := construct_wf w p g hw hp hg
  exact signal_move_total _ p src S { connections := [], sequence := g } hw0
    (by simp [hne', hS]) (by simp)

theorem slot_disconnect_total (w : World) (a : Nat) (hw : w.WF) (hown : w.CallerOwned a) :
    ∃ w1, ∃ d : Slot, Slot.disconnect w a = .ok w1 ∧ w1.WF ∧
      w1.slots a = some { callback := d.callback, connection := none } := by
  obtain ⟨d, hd, _⟩ := id hown
  obtain ⟨w1, hrun, hw1, hslots, _⟩ := slot_disconnect_owned w a d hw hd (hown.owned hd)
  exact ⟨w1, d, hrun, hw1, by simp [hslots]⟩

theorem slot_destroy_total (w : World) (a : Nat) (hw : w.WF) (hown : w.CallerOwned a) :
    ∃ w2, Slot.destroy w a = .ok w2 ∧ w2.WF := by
  obtain ⟨w1, d, hrun, hw1, hs1⟩ := slot_disconnect_total w a hw hown
  refine ⟨w1.freeSlot a, ?_, freeSlot_wf w1 a _ hw1 hs1 rfl⟩
  simp [Slot.destroy, hrun, hs1, bind, Except.bind, pure, Except.pure]

theorem slot_move_self (w : World) (a : Nat) (t : Slot) (hw : w.WF)
    (ht : w.slots a = some t) (hb : t.connection = none) :
    ∃ w2, Slot.move w a a = .ok w2 ∧ w2.WF := by
  refine ⟨w.setSlot a { callback := t.callback, connection := none }, ?_, ?_⟩
  · have hset : ∀ (s1 s2 : Slot), (w.setSlot a s1).setSlot a s2 = w.setSlot a s2 := by
      intro s1 s2
      simp only [World.setSlot]
      congr 1
      funext x
      by_cases hx : x = a <;> simp [hx]
    simp [Slot.move, ht, hb, hset, bind, Except.bind, pure, Except.pure]
  · have h := setCallback_wf w hw a t t.callback ht
    have heq : ({ t with callback := t.callback } : Slot)
        = { callback := t.callback, connection := none } := by
      cases t
      simp at hb
      simp [hb]
    rw [heq] at h
    exact h

theorem slot_moveAssign_total (w : World) (a b : Nat) (hw : w.WF) (ha : w.CallerOwned a)
    (hb : w.CallerOwned b) :
    ∃ w2, Slot.moveAssign w a b = .ok w2 ∧ w2.WF := by
  by_cases hne : a = b
  · subst hne
    obtain ⟨w1, d, hrun, hw1, hs1⟩ := slot_disconnect_total w a hw ha
    obtain ⟨w2, hrun2, hw2⟩ := slot_move_self w1 a _ hw1 hs1 rfl
    exact ⟨w2, by simp [Slot.moveAssign, hrun, hrun2, bind, Except.bind], hw2⟩
  · obtain ⟨d, hd, _⟩ := id ha
    obtain ⟨s, hs, _⟩ := id hb
    obtain ⟨_, w2, _, _, hrun, _, hw2, _⟩ :=
      moveAssign_owned w a b d s hw hd hs hne (ha.owned hd)
    exact ⟨w2, hrun, hw2⟩

theorem slot_copyAssign_total (w : World) (a b : Nat) (hw : w.WF) (ha : w.CallerOwned a)
    (hb : w.CallerOwned b) :
    ∃ w2, Slot.copyAssign w a b = .ok w2 ∧ w2.WF := by
  obtain ⟨d, hd, _⟩ := ha
  obtain ⟨s, hs, _⟩ := hb
  refine ⟨w.setSlot a { d with callback := s.callback }, ?_,
    setCallback_wf w hw a d s.callback hd⟩
  simp [Slot.copyAssign, hd, hs, bind, Except.bind, pure, Except.pure]

theorem slot_setCallback_total (w : World) (a : Nat) (f : Option Nat) (hw : w.WF)
    (ha : w.CallerOwned a) :
    ∃ w2, Slot.setCallback w a f = .ok w2 ∧ w2.WF := by
  obtain ⟨d, hd, _⟩ := ha
  refine ⟨w.setSlot a { d with callback := f }, ?_, setCallback_wf w hw a d f hd⟩
  simp [Slot.setCallback, hd, bind, Except.bind, pure, Except.pure]

theorem slot_copy_total (w : World) (src : Nat) (hw : w.WF) (hsrc : w.CallerOwned src) :
    ∃ w2, Slot.copyConstruct { w with nextSlot := w.nextSlot + 1 } w.nextSlot src = .ok w2 ∧
      w2.WF := by
  obtain ⟨s, hs, _⟩ := hsrc
  refine ⟨Slot.construct { w with nextSlot := w.nextSlot + 1 } w.nextSlot s.callback, ?_,
    newSlot_wf w hw s.callback⟩
  simp [Slot.copyConstruct, Slot.construct, World.getSlot, hs, bind, Except.bind, pure,
    Except.pure]

theorem slot_moveConstruct_total (w : World) (src : Nat) (hw : w.WF)
    (hsrc : w.CallerOwned src) :
    ∃ w2, Slot.moveConstruct { w with nextSlot := w.nextSlot + 1 } w.nextSlot src = .ok w2 ∧
      w2.WF := by
  obtain ⟨s, hs, hconn⟩ := hsrc
  cases hb : s.connection with
  | none =>
    obtain ⟨w1, hrun, _, _, _, _, _, hw1⟩ := moveConstruct_unconnected w src s hw hs hb
    exact ⟨w1, hrun, hw1⟩
  | some c =>
    obtain ⟨conn, hc, hm⟩ := hconn c hb
    obtain ⟨w1, hrun, _, _, _, _, _, hw1⟩ := moveConstruct_connected w src c s conn hw hs hb hc hm
    exact ⟨w1, hrun, hw1⟩

theorem World.empty_wf : World.empty.WF := by
  refine ⟨⟨?_, ?_, ?_, ?_, ?_⟩, ?_, ?_⟩
  · intro t T hT
    simp [World.empty] at hT
  · intro t T hT
    simp [World.empty] at hT
  · intro b sb c hsb
    simp [World.empty] at hsb
  · intro c _
    rfl
  · intro a _
    rfl
  · intro t T hT
    simp [World.empty] at hT
  · intro t T hT
    simp [World.empty] at hT

theorem Op.run_wf (w : World) (op : Op) (hw : w.WF) (hv : op.Valid w) (hr : op.Room w) :
    ∃ w2, op.run w = .ok w2 ∧ w2.WF := by
  cases op with
  | newSignal p => exact ⟨_, rfl, construct_wf w p 0 hw hv (by simp [SIZE_MOD])⟩
  | newSlot f => exact ⟨_, rfl, newSlot_wf w hw f⟩
  | signal sig op =>
    obtain ⟨⟨S, hS⟩, hvop⟩ := hv
    cases op with
    | connect slot =>
      cases slot with
      | none =>
        refine ⟨w, ?_, hw⟩
        simp [Op.run, SigOp.run, Signal.connectPtr, Signal.connect, issued, bind, Except.bind,
          pure, Except.pure]
      | some a =>
        obtain ⟨r, hrun, hwf⟩ := connect_total w sig a false S hw hS (hr S hS) hvop
        refine ⟨r.1, ?_, hwf⟩
        simp [Op.run, SigOp.run, Signal.connectPtr, hrun, issued, bind, Except.bind, pure,
          Except.pure]
    | connectMove src =>
      obtain ⟨r, hrun, hwf⟩ := connectMove_total w sig src S hw hS (hr S hS) hvop
      refine ⟨r.1, ?_, hwf⟩
      simp [Op.run, SigOp.run, hrun, issued, bind, Except.bind, pure, Except.pure]
    | disconnectKey key =>
      obtain ⟨w1, hrun, hwf⟩ := disconnectKey_total w sig key S hw hS
      exact ⟨w1, by simp [Op.run, SigOp.run, hrun, bind, Except.bind, pure, Except.pure], hwf⟩
    | disconnectSlot slot =>
      have hv' : ∀ a, slot = some a → ∃ s, w.slots a = some s := by
        intro a ha
        subst ha
        exact hvop
      obtain ⟨w1, hrun, hwf⟩ := disconnectSlot_total w sig slot S hw hS hv'
      exact ⟨w1, by simp [Op.run, SigOp.run, hrun, bind, Except.bind, pure, Except.pure], hwf⟩
    | clear =>
      obtain ⟨w1, hrun, hwf, _⟩ := clear_total w sig S hw hS
      exact ⟨w1, by simp [Op.run, SigOp.run, hrun, bind, Except.bind, pure, Except.pure], hwf⟩
  | slotCopy src => exact slot_copy_total w src hw hv
  | slotMove src => exact slot_moveConstruct_total w src hw hv
  | slotCopyAssign dst src => exact slot_copyAssign_total w dst src hw hv.1 hv.2
  | slotMoveAssign dst src => exact slot_moveAssign_total w dst src hw hv.1 hv.2
  | slotSetCallback a f => exact slot_setCallback_total w a f hw hv
  | slotDisconnect a =>
    obtain ⟨w1, _, hrun, hwf, _⟩ := slot_disconnect_total w a hw hv
    exact ⟨w1, hrun, hwf⟩
  | slotDestroy a => exact slot_destroy_total w a hw hv
  | signalMove dst src =>
    obtain ⟨⟨T, hT⟩, S, hS⟩ := hv
    exact signal_move_total w dst src S T hw hS hT
  | signalMoveConstruct p src g =>
    obtain ⟨hp, ⟨S, hS⟩, hg⟩ := hv
    exact signal_moveConstruct_total w p src g S hw hp hS hg
  | signalDestroy sig =>
    obtain ⟨S, hS⟩ := hv
    exact signal_destroy_total w sig S hw hS

theorem Reach.wf {w : World} (h : Reach Op.Room w) : w.WF := by
  induction h with
  | empty => exact World.empty_wf
  | step op _ hv hr hrun ih =>
    obtain ⟨w2, hrun2, hwf⟩ := Op.run_wf _ op ih hv hr
    rw [hrun] at hrun2
    cases hrun2
    exact hwf

/-! ## A key collision after the counter has wrapped -/

theorem Registry.erase_insert (m : Registry) (key : SlotKey) (c : Nat)
    (habs : ∀ e ∈ m, e.1 ≠ key) : Registry.erase (Registry.insert m key c) key = m := by
  induction m with
  | nil => simp [Registry.insert, Registry.erase]
  | cons e m ih =>
    obtain ⟨k, c'⟩ := e
    have hk : k ≠ key := habs (k, c') (List.mem_cons_self _ _)
    have ih' := ih (fun e he => habs e (List.mem_cons_of_mem _ he))
    by_cases hlt : key < k
    · simp only [Registry.insert, hlt, if_true]
      rw [Registry.erase_cons, Registry.erase_cons]
      simp only [if_true, hk, if_false]
      congr 1
      exact Registry.erase_eq_self m key (fun e he => habs e (List.mem_cons_of_mem _ he))
    · simp only [Registry.insert, hlt, if_false]
      rw [Registry.erase_cons]
      simp only [hk, if_false]
      rw [ih']

theorem held_round (m : Nat) (hpos : 1 ≤ m) (hm : ¬ 1 = (m + 1) % SIZE_MOD) :
    ∃ w1, SigOp.run (World.held m) 0 (SigOp.connect (some 0))
        = .ok (w1, some ((m + 1) % SIZE_MOD)) ∧
      (∃ s, w1.slots 0 = some s) ∧ (∃ S, w1.signals 0 = some S) ∧
      SigOp.run w1 0 (SigOp.disconnectSlot (some 0)) = .ok (World.held (m + 1), none) := by
  have hS : (World.held m).signals 0
      = some { connections := [(1, 0)], sequence := m % SIZE_MOD } := by
    simp [World.held]
  have hs : (World.held m).slots 0 = some { callback := some 7, connection := none } := by
    simp [World.held]
  have hkey : (m % SIZE_MOD + 1) % SIZE_MOD = (m + 1) % SIZE_MOD := Nat.mod_add_mod _ _ _
  have hm0 : ¬ m = 0 := Nat.pos_iff_ne_zero.1 hpos
  have habs : Registry.find [((1 : SlotKey), (0 : Nat))] ((m + 1) % SIZE_MOD) = none := by
    simp [Registry.find, hm]
  obtain ⟨w1, hrun1, hsig1, hconns1, hslots1, hnc1, hns1⟩ :=
    connectNew_ok (World.held m) 0 0 false _ _ hS hs (by rw [hkey]; exact habs)
  simp only [hkey] at hrun1 hsig1 hconns1 hslots1
  have hn : (World.held m).nextConn = m := rfl
  rw [hn] at hsig1 hconns1 hslots1 hnc1
  have hS1 : w1.signals 0 = some
      { connections := Registry.insert [(1, 0)] ((m + 1) % SIZE_MOD) m,
        sequence := (m + 1) % SIZE_MOD } := by
    simp [hsig1]
  have hs1 : w1.slots 0 = some { callback := some 7, connection := some m } := by
    simp [hslots1]
  have hc1 : w1.conns m = some
      { signal := 0, slot := 0, key := (m + 1) % SIZE_MOD, managed := false } := by
    simp [hconns1]
  have hfind : Registry.find (Registry.insert [(1, 0)] ((m + 1) % SIZE_MOD) m)
      ((m + 1) % SIZE_MOD) = some m := by
    rw [Registry.find_insert _ _ _ habs]
    simp
  obtain ⟨w2, hrun2, hsig2, hconns2, hslots2, hnc2, hns2⟩ :=
    disconnectKey_ok w1 0 ((m + 1) % SIZE_MOD) _ m _ _ hS1 hfind hc1 hs1
  have herase : Registry.erase (Registry.insert [(1, 0)] ((m + 1) % SIZE_MOD) m)
      ((m + 1) % SIZE_MOD) = [(1, 0)] := by
    apply Registry.erase_insert
    intro e he
    simp at he
    subst he
    exact hm
  have hw2 : w2 = World.held (m + 1) := by
    apply World.ext_fields
    · rw [hslots2, hslots1]
      funext x
      by_cases hx : x = 0
      · simp [hx, World.held]
      · simp [hx, World.held]
    · rw [hsig2, hsig1]
      funext x
      by_cases hx : x = 0
      · simp [hx, World.held, herase]
      · simp [hx, World.held]
    · rw [hconns2, hconns1]
      funext y
      by_cases hy : y = m
      · simp [hy, World.held, hm0]
      · simp [hy, World.held]
    · rw [hns2, hns1]
      rfl
    · rw [hnc2, hnc1]
      rfl
  refine ⟨w1, ?_, ⟨_, hs1⟩, ⟨_, hS1⟩, ?_⟩
  · have hne : ¬ w1.nextConn = m := by rw [hnc1]; exact Nat.succ_ne_self m
    simp [SigOp.run, Signal.connectPtr, Signal.connect, hs, hrun1, bind, Except.bind, pure,
      Except.pure, issued, hne, hn]
  · rw [← hw2]
    simp [SigOp.run, disconnectSlot_connected w1 0 0 m _ _ hs1 rfl hc1 rfl, hrun2, bind,
      Except.bind, pure, Except.pure]

theorem held_one_run :
    ∃ w3, Op.run World.empty (Op.newSignal 0) = .ok (Signal.construct World.empty 0) ∧
      Op.run (Signal.construct World.empty 0) (Op.newSlot (some 7))
        = .ok (Slot.construct { Signal.construct World.empty 0 with nextSlot := 1 } 0 (some 7)) ∧
      Op.run (Slot.construct { Signal.construct World.empty 0 with nextSlot := 1 } 0 (some 7))
        (Op.newSlot (some 8)) = .ok w3 ∧
      w3.CallerOwned 1 ∧ (∃ S, w3.signals 0 = some S) ∧
      (Op.signal 0 (SigOp.connect (some 1))).Room w3 ∧
      Op.run w3 (Op.signal 0 (SigOp.connect (some 1))) = .ok (World.held 1) := by
  obtain ⟨w3, hw3⟩ : ∃ w3, w3 = Slot.construct
      { Slot.construct { Signal.construct World.empty 0 with nextSlot := 1 } 0 (some 7) with
        nextSlot := 2 } 1 (some 8) := ⟨_, rfl⟩
  have hS : w3.signals 0 = some { connections := [], sequence := 0 } := by
    rw [hw3]; rfl
  have hs : w3.slots 1 = some { callback := some 8, connection := none } := by
    rw [hw3]; rfl
  have hs0 : w3.slots 0 = some { callback := some 7, connection := none } := by
    rw [hw3]; rfl
  have hsl : ∀ x, ¬ x = 0 → ¬ x = 1 → w3.slots x = none := by
    intro x h0 h1
    rw [hw3]
    simp [Slot.construct, Signal.construct, World.empty, h0, h1]
  have hsg : ∀ x, ¬ x = 0 → w3.signals x = none := by
    intro x h0
    rw [hw3]
    simp [Slot.construct, Signal.construct, World.empty, h0]
  have hcn : w3.conns = fun _ => none := by
    rw [hw3]; rfl
  have hn : w3.nextConn = 0 := by
    rw [hw3]; rfl
  have hns : w3.nextSlot = 2 := by
    rw [hw3]; rfl
  have hroom : (Op.signal 0 (SigOp.connect (some 1))).Room w3 := by
    intro S hS'
    rw [hS] at hS'
    cases hS'
    simp [SIZE_MOD]
  refine ⟨w3, rfl, rfl, by rw [hw3]; rfl, ⟨_, hs, fun c hc => by cases hc⟩, ⟨_, hS⟩, hroom,
    ?_⟩
  obtain ⟨w4, hrun4, hsig4, hconns4, hslots4, hnc4, hns4⟩ :=
    connectNew_ok w3 0 1 false _ _ hS hs (by simp [Registry.find])
  have hkey : (0 + 1) % SIZE_MOD = 1 := by simp [SIZE_MOD]
  simp only [hkey] at hrun4 hsig4 hconns4 hslots4
  rw [hn] at hsig4 hconns4 hslots4 hnc4
  have hw4 : w4 = World.held 1 := by
    apply World.ext_fields
    · rw [hslots4]
      funext x
      by_cases h1 : x = 1
      · simp [h1, World.held]
      · by_cases h0 : x = 0
        · simp [h0, World.held, hs0]
        · simp [h0, h1, World.held, hsl x h0 h1]
    · rw [hsig4]
      funext x
      by_cases h0 : x = 0
      · simp [h0, World.held, Registry.insert, SIZE_MOD]
      · simp [h0, World.held, hsg x h0]
    · rw [hconns4, hcn]
      funext y
      by_cases h0 : y = 0 <;> simp [h0, World.held]
    · rw [hns4, hns]
      rfl
    · rw [hnc4]
      rfl
  rw [← hw4]
  have hne : ¬ w4.nextConn = 0 := by rw [hnc4]; exact Nat.succ_ne_zero 0
  simp [Op.run, SigOp.run, Signal.connectPtr, Signal.connect, hs, hrun4, bind, Except.bind,
    pure, Except.pure, issued, hne, hn]

theorem reach_held_one (room : World → Op → Prop) (hroom : ∀ w op, Op.Room w op → room w op) :
    Reach room (World.held 1) := by
  obtain ⟨w3, h1, h2, h3, hown, hsig, hr, h4⟩ := held_one_run
  have r0 : Reach room World.empty := Reach.empty
  have r1 := Reach.step (Op.newSignal 0) r0 rfl (hroom _ _ trivial) h1
  have r2 := Reach.step (Op.newSlot (some 7)) r1 trivial (hroom _ _ trivial) h2
  have r3 := Reach.step (Op.newSlot (some 8)) r2 trivial (hroom _ _ trivial) h3
  exact Reach.step (Op.signal 0 (SigOp.connect (some 1))) r3 ⟨hsig, hown⟩ (hroom _ _ hr) h4

theorem reach_held (room : World → Op → Prop) (hroom : ∀ w op, room w op) :
    ∀ n m, 1 ≤ m → m + n ≤ SIZE_MOD → Reach room (World.held m) →
      Reach room (World.held (m + n)) := by
  intro n
  induction n with
  | zero =>
    intro m _ _ h
    exact h
  | succ n ih =>
    intro m hpos hle h
    have hm : ¬ 1 = (m + 1) % SIZE_MOD := by
      have hlt : m + 1 ≤ SIZE_MOD := by omega
      rcases Nat.lt_or_eq_of_le hlt with h1 | h1
      · rw [Nat.mod_eq_of_lt h1]
        omega
      · rw [h1, Nat.mod_self]
        omega
    obtain ⟨w1, hrun1, hs1, hS1, hrun2⟩ := held_round m hpos hm
    have hown : (World.held m).CallerOwned 0 :=
      ⟨{ callback := some 7, connection := none }, by simp [World.held],
        fun c hc => by cases hc⟩
    have r1 : Reach room w1 := by
      refine Reach.step (Op.signal 0 (SigOp.connect (some 0))) h
        ⟨⟨{ connections := [(1, 0)], sequence := m % SIZE_MOD }, by simp [World.held]⟩, hown⟩
        (hroom _ _) ?_
      simp [Op.run, hrun1, bind, Except.bind, pure, Except.pure]
    have r2 : Reach room (World.held (m + 1)) := by
      refine Reach.step (Op.signal 0 (SigOp.disconnectSlot (some 0))) r1 ⟨hS1, hs1⟩
        (hroom _ _) ?_
      simp [Op.run, hrun2, bind, Except.bind, pure, Except.pure]
    have h3 := ih (m + 1) (Nat.le_succ_of_le hpos) (by omega) r2
    have heq : m + 1 + n = m + (n + 1) := by omega
    rw [heq] at h3
    exact h3

theorem held_collision :
    ∃ w, Op.run (World.held SIZE_MOD) (Op.signal 0 (SigOp.connect (some 0))) = .ok w ∧
      w.slots 0 = some { callback := some 7, connection := some 0 } ∧
      w.conns 0 = some { signal := 0, slot := 1, key := 1, managed := false } := by
  obtain ⟨w0, hw0, hS, hs, hc⟩ : ∃ w0, w0 = World.held SIZE_MOD ∧
      w0.signals 0 = some { connections := [(1, 0)], sequence := 0 } ∧
      w0.slots 0 = some { callback := some 7, connection := none } ∧
      w0.conns 0 = some { signal := 0, slot := 1, key := 1, managed := false } := by
    refine ⟨_, rfl, ?_, ?_, ?_⟩
    · simp [World.held]
    · simp [World.held]
    · simp [World.held]
  rw [← hw0]
  have hkey : (0 + 1) % SIZE_MOD = 1 := by simp [SIZE_MOD]
  refine ⟨(w0.setSignal 0 { connections := [(1, 0)], sequence := 1 }).setSlot 0
    { callback := some 7, connection := some 0 }, ?_, by simp, by simp [hc]⟩
  simp [Op.run, SigOp.run, Signal.connectPtr, Signal.connect, Signal.connectNew, hs, hS, hkey,
    Registry.find, bind, Except.bind, pure, Except.pure, issued]

/-! ## Connecting after the counter has wrapped -/

theorem held_connect_collides (n : Nat) (hn : n % SIZE_MOD = 0) :
    ∃ w2, Signal.connect (World.held n) 0 (some 0) false = .ok (w2, 1) ∧
      w2.conns = (World.held n).conns ∧ w2.nextConn = (World.held n).nextConn ∧
      w2.signals 0 = some { connections := [(1, 0)], sequence := 1 } ∧
      w2.slots 0 = some { callback := some 7, connection := some 0 } ∧
      w2.conns 0 = some { signal := 0, slot := 1, key := 1, managed := false } := by
  have hS : (World.held n).signals 0 = some { connections := [(1, 0)], sequence := 0 } := by
    simp [World.held, hn]
  have hs : (World.held n).slots 0 = some { callback := some 7, connection := none } := by
    simp [World.held]
  have hc : (World.held n).conns 0
      = some { signal := 0, slot := 1, key := 1, managed := false } := by
    simp [World.held]
  have hkey : (0 + 1) % SIZE_MOD = 1 := by simp [SIZE_MOD]
  refine ⟨((World.held n).setSignal 0 { connections := [(1, 0)], sequence := 1 }).setSlot 0
    { callback := some 7, connection := some 0 }, ?_, rfl, rfl, by simp, by simp, by simp [hc]⟩
  simp [Signal.connect, Signal.connectNew, hs, hS, hkey, Registry.find, bind, Except.bind,
    pure, Except.pure]

theorem held_connect_zero (n : Nat) (hpos : 1 ≤ n) (hlt : n < SIZE_MOD)
    (hkey : (n + 1) % SIZE_MOD = 0) :
    ∃ w2 w3, Signal.connect (World.held n) 0 (some 0) false = .ok (w2, 0) ∧
      w2.signals 0 = some { connections := [(0, n), (1, 0)], sequence := 0 } ∧
      Signal.emit Env.idle 2 w2 0 [] = .ok (w3,
        [{ slot := 0, callback := 7, args := [] }, { slot := 1, callback := 8, args := [] }]) := by
  have hn0 : ¬ n = 0 := Nat.pos_iff_ne_zero.1 hpos
  have hn0' : ¬ 0 = n := fun h => hn0 h.symm
  have hS : (World.held n).signals 0 = some { connections := [(1, 0)], sequence := n } := by
    simp [World.held, Nat.mod_eq_of_lt hlt]
  have hs : (World.held n).slots 0 = some { callback := some 7, connection := none } := by
    simp [World.held]
  obtain ⟨w2, hrun, hsig, hconns, hslots, _, _⟩ :=
    connectNew_ok (World.held n) 0 0 false _ _ hS hs (by simp [hkey, Registry.find])
  simp only [hkey] at hrun hsig hconns hslots
  have hnc : (World.held n).nextConn = n := rfl
  rw [hnc] at hsig hconns hslots
  have hS2 : w2.signals 0 = some { connections := [(0, n), (1, 0)], sequence := 0 } := by
    simp [hsig, Registry.insert]
  have hcn : w2.conns n = some { signal := 0, slot := 0, key := 0, managed := false } := by
    simp [hconns]
  have hc0 : w2.conns 0 = some { signal := 0, slot := 1, key := 1, managed := false } := by
    simp [hconns, hn0', World.held]
  have hs0 : w2.slots 0 = some { callback := some 7, connection := some n } := by
    simp [hslots]
  have hs1 : w2.slots 1 = some { callback := some 8, connection := some 0 } := by
    simp [hslots, World.held]
  refine ⟨w2, w2, ?_, hS2, ?_⟩
  · simp [Signal.connect, hs, hrun, bind, Except.bind]
  · simp [Signal.emit, Signal.emitLoop, hS2, hcn, hc0, hs0, hs1, Registry.next, Env.idle,
      received, forwarded, hn0, hn0', bind, Except.bind, pure, Except.pure]

theorem reach_split (room : World → Op → Prop) (hroom : ∀ w op, room w op) (n : Nat)
    (hpos : 1 ≤ n) (h : Reach room (World.held n)) : Reach room (World.split n) := by
  have hn0 : ¬ n = 0 := Nat.pos_iff_ne_zero.1 hpos
  have hn0' : ¬ 0 = n := fun h => hn0 h.symm
  have hfree : (World.held n).signals 1 = none := by simp [World.held]
  have r1 : Reach room (Signal.construct (World.held n) 1) :=
    Reach.step (Op.newSignal 1) h hfree (hroom _ _) rfl
  obtain ⟨w1, hw1, hS, hs⟩ : ∃ w1, w1 = Signal.construct (World.held n) 1 ∧
      w1.signals 1 = some { connections := [], sequence := 0 } ∧
      w1.slots 0 = some { callback := some 7, connection := none } := by
    refine ⟨_, rfl, by simp [Signal.construct], by simp [Signal.construct, World.held]⟩
  rw [← hw1] at r1
  obtain ⟨w2, hrun, hsig, hconns, hslots, hnc, hns⟩ :=
    connectNew_ok w1 1 0 false _ _ hS hs (by simp [Registry.find])
  have hkey : (0 + 1) % SIZE_MOD = 1 := by simp [SIZE_MOD]
  simp only [hkey] at hrun hsig hconns hslots
  have hn1 : w1.nextConn = n := by rw [hw1]; rfl
  rw [hn1] at hsig hconns hslots hnc
  have hw2 : w2 = World.split n := by
    apply World.ext_fields
    · rw [hslots, hw1]
      funext x
      by_cases h0 : x = 0
      · simp [h0, World.split]
      · simp [h0, World.split, World.held, Signal.construct]
    · rw [hsig, hw1]
      funext x
      by_cases h1 : x = 1
      · simp [h1, World.split, Registry.insert]
      · simp [h1, World.split, World.held, Signal.construct]
    · rw [hconns, hw1]
      funext y
      by_cases hy : y = n
      · simp [hy, World.split, hn0]
      · simp [hy, World.split, World.held, Signal.construct]
    · rw [hns, hw1]
      rfl
    · rw [hnc]
      rfl
  rw [← hw2]
  refine Reach.step (Op.signal 1 (SigOp.connect (some 0))) r1
    ⟨⟨_, hS⟩, ⟨_, hs, fun c hc => by cases hc⟩⟩ (hroom _ _) ?_
  have hne : ¬ w2.nextConn = n := by rw [hnc]; exact Nat.succ_ne_self n
  simp [Op.run, SigOp.run, Signal.connectPtr, Signal.connect, hs, hrun, bind, Except.bind,
    pure, Except.pure, issued, hne, hn1]

theorem split_connect_collides (n : Nat) (hpos : 1 ≤ n) (hn : n % SIZE_MOD = 0) :
    ∃ w2, Signal.connect (World.split n) 0 (some 0) false = .ok (w2, 1) ∧
      w2.signals 1 = some { connections := [], sequence := 1 } ∧
      w2.signals 0 = some { connections := [(1, 0)], sequence := 1 } ∧
      w2.nextConn = (World.split n).nextConn ∧
      (∀ c conn, w2.conns c = some conn → conn.slot ≠ 0) ∧
      w2.slots 0 = some { callback := some 7, connection := some 0 } ∧
      w2.conns 0 = some { signal := 0, slot := 1, key := 1, managed := false } := by
  have hn0 : ¬ n = 0 := Nat.pos_iff_ne_zero.1 hpos
  have hn0' : ¬ 0 = n := fun h => hn0 h.symm
  have hS1 : (World.split n).signals 1 = some { connections := [(1, n)], sequence := 1 } := by
    simp [World.split]
  have hs : (World.split n).slots 0 = some { callback := some 7, connection := some n } := by
    simp [World.split]
  have hc : (World.split n).conns n
      = some { signal := 1, slot := 0, key := 1, managed := false } := by
    simp [World.split, hn0]
  obtain ⟨w1, hrun1, hsig1, hconns1, hslots1, hnc1, hns1⟩ :=
    disconnectKey_ok (World.split n) 1 1 _ n _ _ hS1 (by simp [Registry.find]) hc hs
  have hdis : Slot.disconnect (World.split n) 0 = .ok w1 := by
    rw [slot_disconnect_connected (World.split n) 0 n _ _ hs rfl hc]
    exact hrun1
  have hS0 : w1.signals 0 = some { connections := [(1, 0)], sequence := 0 } := by
    simp [hsig1, World.split, hn]
  have hs0 : w1.slots 0 = some { callback := some 7, connection := none } := by
    simp [hslots1]
  have hkey : (0 + 1) % SIZE_MOD = 1 := by simp [SIZE_MOD]
  refine ⟨(w1.setSignal 0 { connections := [(1, 0)], sequence := 1 }).setSlot 0
    { callback := some 7, connection := some 0 }, ?_, ?_, by simp, ?_, ?_, by simp, ?_⟩
  · simp [Signal.connect, hs, hc, hdis, Signal.connectNew, hS0, hs0, hkey, Registry.find,
      bind, Except.bind, pure, Except.pure]
  · simp [hsig1, Registry.erase]
  · simp [hnc1]
  · intro c conn hcc
    simp only [setSlot_conns, setSignal_conns, hconns1] at hcc
    by_cases hcn : c = n
    · simp [hcn] at hcc
    · simp only [hcn, if_false] at hcc
      by_cases hc0 : c = 0
      · simp [hc0, World.split] at hcc
        rw [← hcc]
        simp
      · simp [World.split, hc0, hcn] at hcc
  · simp [hconns1, hn0', World.split]

/-! ## Connection order -/

theorem runOps_connects (sig : Nat) : ∀ (as : List Nat) (w : World) (S : Signal), w.WF →
    w.signals sig = some S → S.sequence + as.length < SIZE_MOD → as.Nodup →
    (∀ a ∈ as, ∃ s, w.slots a = some s ∧ s.connection = none) →
    ∃ w2 S2, runOps sig w (as.map fun a => SigOp.connect (some a))
        = .ok (w2, List.range' (S.sequence + 1) as.length) ∧
      w2.WF ∧ w2.signals sig = some S2 ∧
      S2.connections.map Prod.fst
        = S.connections.map Prod.fst ++ List.range' (S.sequence + 1) as.length ∧
      S2.connections.filterMap w2.target
        = S.connections.filterMap w.target
          ++ as.filterMap (fun a => (w.slots a).bind fun s => s.callback.map fun f => (a, f)) := by
  intro as
  induction as with
  | nil =>
    intro w S hw hS _ _ _
    exact ⟨w, S, rfl, hw, hS, by simp, by simp⟩
  | cons a rest ih =>
    intro w S hw hS hroom hnd hfree
    obtain ⟨sa, hsa, hbc⟩ := hfree a (List.mem_cons_self _ _)
    have hroom0 : S.sequence + (rest.length + 1) < SIZE_MOD := by
      simpa only [List.length_cons] using hroom
    have hroom1 : S.sequence + 1 < SIZE_MOD :=
      Nat.lt_of_le_of_lt (Nat.add_le_add_left (Nat.le_add_left 1 rest.length) S.sequence)
        hroom0
    obtain ⟨w1, hrun, hw1, hS1, hframe, hcn, hb1, hnc, hslots⟩ :=
      connect_appends w sig a S sa hw hS hsa hbc hroom1
    rw [List.nodup_cons] at hnd
    have hfree1 : ∀ b ∈ rest, ∃ s, w1.slots b = some s ∧ s.connection = none := by
      intro b hb
      have hne : b ≠ a := fun h => hnd.1 (h ▸ hb)
      rw [hslots b hne]
      exact hfree b (List.mem_cons_of_mem _ hb)
    have hroom2 : (S.sequence + 1) + rest.length < SIZE_MOD := by
      rw [Nat.add_assoc, Nat.add_comm 1]
      exact hroom0
    obtain ⟨w2, S2, hrun2, hw2, hS2, hkeys2, hcalls2⟩ := ih w1 _ hw1 hS1 hroom2 hnd.2 hfree1
    have hstep : SigOp.run w sig (SigOp.connect (some a)) = .ok (w1, some (S.sequence + 1)) := by
      have hne : ¬ w1.nextConn = w.nextConn := by rw [hnc]; exact Nat.succ_ne_self _
      simp [SigOp.run, Signal.connectPtr, hrun, issued, hne, bind, Except.bind, pure,
        Except.pure]
    have hold : (S.connections ++ [(S.sequence + 1, w.nextConn)]).filterMap w1.target
        = S.connections.filterMap w.target
          ++ (sa.callback.map fun f => (a, f)).toList := by
      rw [List.filterMap_append]
      congr 1
      · apply List.filterMap_congr
        intro e he
        obtain ⟨conn, s, hc, hs⟩ := hw.linked.live hS e he
        have h := hframe e he
        simp [World.target, h.1, hc, h.2 conn hc, hs]
      · cases hcb : sa.callback <;>
          simp [List.filterMap, World.target, hcn, hb1, hcb]
    have hrest : rest.filterMap
          (fun b => (w1.slots b).bind fun s => s.callback.map fun f => (b, f))
        = rest.filterMap
          (fun b => (w.slots b).bind fun s => s.callback.map fun f => (b, f)) := by
      apply List.filterMap_congr
      intro b hb
      have hne : b ≠ a := fun h => hnd.1 (h ▸ hb)
      rw [hslots b hne]
    refine ⟨w2, S2, ?_, hw2, hS2, ?_, ?_⟩
    · simp only [List.map_cons, runOps, hstep, hrun2, bind, Except.bind, pure, Except.pure]
      simp [List.range'_succ]
    · rw [hkeys2]
      simp [List.range'_succ]
    · rw [hcalls2, hold, hrest, List.append_assoc]
      congr 1
      cases hcb : sa.callback <;> simp [List.filterMap_cons, hsa, hcb]

theorem reach_held_below (room : World → Op → Prop) (hroom : ∀ w op, Op.Room w op → room w op) :
    ∀ n m, 1 ≤ m → m + n < SIZE_MOD → Reach room (World.held m) →
      Reach room (World.held (m + n)) := by
  intro n
  induction n with
  | zero =>
    intro m _ _ h
    exact h
  | succ n ih =>
    intro m hpos hle h
    have hlt : m + 1 < SIZE_MOD := by omega
    have hm : ¬ 1 = (m + 1) % SIZE_MOD := by
      rw [Nat.mod_eq_of_lt hlt]
      omega
    obtain ⟨w1, hrun1, hs1, hS1, hrun2⟩ := held_round m hpos hm
    have hown : (World.held m).CallerOwned 0 :=
      ⟨{ callback := some 7, connection := none }, by simp [World.held],
        fun c hc => by cases hc⟩
    have hS : (World.held m).signals 0
        = some { connections := [(1, 0)], sequence := m % SIZE_MOD } := by
      simp [World.held]
    have hr : (Op.signal 0 (SigOp.connect (some 0))).Room (World.held m) := by
      intro S hS'
      rw [hS] at hS'
      cases hS'
      show m % SIZE_MOD + 1 < SIZE_MOD
      rw [Nat.mod_eq_of_lt (Nat.lt_of_succ_lt hlt)]
      exact hlt
    have r1 : Reach room w1 := by
      refine Reach.step (Op.signal 0 (SigOp.connect (some 0))) h ⟨⟨_, hS⟩, hown⟩
        (hroom _ _ hr) ?_
      simp [Op.run, hrun1, bind, Except.bind, pure, Except.pure]
    have r2 : Reach room (World.held (m + 1)) := by
      refine Reach.step (Op.signal 0 (SigOp.disconnectSlot (some 0))) r1 ⟨hS1, hs1⟩
        (hroom _ _ trivial) ?_
      simp [Op.run, hrun2, bind, Except.bind, pure, Except.pure]
    have h3 := ih (m + 1) (Nat.le_succ_of_le hpos) (by omega) r2
    have heq : m + 1 + n = m + (n + 1) := by omega
    rw [heq] at h3
    exact h3


/-! ## The claims -/

/-- C1 as stated fails once the counter wraps: the state `World.held (2^64 - 1)` is reached
without any wrap; in it Slot 1 is connected to Signal 0 under key 1 and Slot 0 is not
connected.  Connecting Slot 0 now issues key 0, so the registry lists Slot 0 before Slot 1,
and `emit` invokes Slot 0, connected last, before Slot 1: ascending key order is not the
order in which the connections were made. -/
theorem C1_emit_order_differs_from_connection_order_after_wrap :
    Reach Op.Room (World.held (SIZE_MOD - 1)) ∧
    (World.held (SIZE_MOD - 1)).slots 0 = some { callback := some 7, connection := none } ∧
    (World.held (SIZE_MOD - 1)).slots 1 = some { callback := some 8, connection := some 0 } ∧
    ∃ w2 w3, Signal.connectRef (World.held (SIZE_MOD - 1)) 0 0 = .ok (w2, 0) ∧
      w2.signals 0 = some { connections := [(0, SIZE_MOD - 1), (1, 0)], sequence := 0 } ∧
      Signal.emit Env.idle 2 w2 0 [] = .ok (w3,
        [{ slot := 0, callback := 7, args := [] }, { slot := 1, callback := 8, args := [] }]) := by
  have h2 : 2 ≤ SIZE_MOD := by simp [SIZE_MOD]
  have hsum : 1 + (SIZE_MOD - 2) = SIZE_MOD - 1 := by omega
  have hreach : Reach Op.Room (World.held (SIZE_MOD - 1)) := by
    have h := reach_held_below Op.Room (fun _ _ h => h) (SIZE_MOD - 2) 1 (le_refl 1)
      (by omega) (reach_held_one Op.Room (fun _ _ h => h))
    rw [hsum] at h
    exact h
  obtain ⟨w2, w3, hrun, hS2, hemit⟩ := held_connect_zero (SIZE_MOD - 1) (by omega) (by omega)
    (by rw [Nat.sub_add_cancel (Nat.le_of_succ_le h2), Nat.mod_self])
  exact ⟨hreach, by simp [World.held], by simp [World.held], w2, w3, hrun, hS2, hemit⟩

/-- C1, amended: in a well-formed state (link consistent, every registry key between 1 and
the counter of its Signal, as in every state reached before a counter wraps), when no
callback mutates the registry, `emit` returns having invoked exactly the callbacks of the
connected Slots whose callback is set, one invocation per Slot, in the order of the registry,
which is ascending in the key; an empty registry gives no invocation, and the Signal's
registry and counter are as before.  As long as the counter does not wrap, that order is the
order in which the connections were made: connecting further unconnected Slots one after
another issues the keys counter + 1, counter + 2, ..., and an emit then invokes the Slots
connected before, in their order, followed by the newly connected Slots in the order of
their `connect` calls. -/
theorem C1_emit_order_is_connection_order_until_wrap (env : Env) (w : World) (sig : Nat)
    (S : Signal) (args : List Arg) (fuel : Nat) (hw : w.WF) (hS : w.signals sig = some S)
    (hq : Env.Quiet env sig w) (hfuel : S.connections.length ≤ fuel) :
    (∃ w2 log, Signal.emit env fuel w sig args = .ok (w2, log) ∧
      log.map Call.target = S.connections.filterMap w.target ∧
      (log.map Call.slot).Nodup ∧
      (S.connections.Pairwise fun e1 e2 => e1.1 < e2.1) ∧
      (S.connections = [] → log = []) ∧
      w2.signals sig = some S) ∧
    ∀ as : List Nat, S.sequence + as.length < SIZE_MOD → as.Nodup →
      (∀ a ∈ as, ∃ s, w.slots a = some s ∧ s.connection = none) →
      ∃ w1 S1, runOps sig w (as.map fun a => SigOp.connect (some a))
          = .ok (w1, List.range' (S.sequence + 1) as.length) ∧
        w1.signals sig = some S1 ∧
        S1.connections.map Prod.fst
          = S.connections.map Prod.fst ++ List.range' (S.sequence + 1) as.length ∧
        ∀ (env1 : Env) (fuel1 : Nat) (args1 : List Arg), Env.Quiet env1 sig w1 →
          S1.connections.length ≤ fuel1 →
          ∃ w2 log, Signal.emit env1 fuel1 w1 sig args1 = .ok (w2, log) ∧
            log.map Call.target = S.connections.filterMap w.target
              ++ as.filterMap
                (fun a => (w.slots a).bind fun s => s.callback.map fun f => (a, f)) := by
  constructor
  · obtain ⟨w2, h2, hag⟩ := emit_quiet env w sig S hS hq (hw.linked.nodes_nodup hS)
      (hw.linked.live hS) fuel hfuel args
    have ht := World.calls_target w S.connections (hw.linked.live hS) args
    refine ⟨w2, _, h2, ht, ?_, hw.linked.sorted sig S hS, ?_, ?_⟩
    · have hslot : (w.calls S.connections args).map Call.slot
          = ((w.calls S.connections args).map Call.target).map Prod.fst := by
        simp [Call.target, Function.comp_def]
      rw [hslot, ht]
      exact hw.linked.target_slots_nodup hS
    · intro hnil
      simp [hnil, World.calls]
    · rw [hag.1]; exact hS
  · intro as hroom hnd hfree
    obtain ⟨w1, S1, hrun, hw1, hS1, hkeys, hcalls⟩ :=
      runOps_connects sig as w S hw hS hroom hnd hfree
    refine ⟨w1, S1, hrun, hS1, hkeys, ?_⟩
    intro env1 fuel1 args1 hq1 hfuel1
    obtain ⟨w2, log, hemit, _, ht, _, _⟩ :=
      emit_slots env1 w1 sig S1 args1 fuel1 hw1.linked hS1 hq1 hfuel1
    exact ⟨w2, log, hemit, by rw [ht, hcalls]⟩

/-- C1 (amended) at the sample state: emitting on Signal 0 with idle callbacks, and the
order after further connections. -/
theorem C1_emit_order_is_connection_order_until_wrap_witness :
    World.demo.WF ∧ Env.Quiet Env.idle 0 World.demo ∧
    ((∃ w2 log, Signal.emit Env.idle 2 World.demo 0 [] = .ok (w2, log) ∧
      log.map Call.target
        = [((1 : SlotKey), 0), ((2 : SlotKey), 1)].filterMap World.demo.target ∧
      (log.map Call.slot).Nodup ∧
      ([((1 : SlotKey), 0), ((2 : SlotKey), 1)].Pairwise fun e1 e2 => e1.1 < e2.1) ∧
      ([((1 : SlotKey), 0), ((2 : SlotKey), 1)] = [] → log = []) ∧
      w2.signals 0 = some { connections := [(1, 0), (2, 1)], sequence := 2 }) ∧
    ∀ as : List Nat, 2 + as.length < SIZE_MOD → as.Nodup →
      (∀ a ∈ as, ∃ s, World.demo.slots a = some s ∧ s.connection = none) →
      ∃ w1 S1, runOps 0 World.demo (as.map fun a => SigOp.connect (some a))
          = .ok (w1, List.range' (2 + 1) as.length) ∧
        w1.signals 0 = some S1 ∧
        S1.connections.map Prod.fst
          = [((1 : SlotKey), 0), ((2 : SlotKey), 1)].map Prod.fst
            ++ List.range' (2 + 1) as.length ∧
        ∀ (env1 : Env) (fuel1 : Nat) (args1 : List Arg), Env.Quiet env1 0 w1 →
          S1.connections.length ≤ fuel1 →
          ∃ w2 log, Signal.emit env1 fuel1 w1 0 args1 = .ok (w2, log) ∧
            log.map Call.target
              = [((1 : SlotKey), 0), ((2 : SlotKey), 1)].filterMap World.demo.target
                ++ as.filterMap (fun a =>
                  (World.demo.slots a).bind fun s => s.callback.map fun f => (a, f))) :=
  ⟨World.demo_wf, Env.idle_quiet 0 World.demo,
    C1_emit_order_is_connection_order_until_wrap Env.idle World.demo 0
      { connections := [(1, 0), (2, 1)], sequence := 2 } [] 2 World.demo_wf rfl
      (Env.idle_quiet 0 World.demo) (by decide)⟩

/-- C2 as stated fails once the counter has wrapped: the state `World.held (2^64)` is reached
by valid calls; in it Signal 0 has wrapped to counter 0 while it still holds Slot 1 under
key 1, and Slot 0 has no connection.  `connect` of Slot 0 returns key 1, but `emplace` finds
key 1 present and inserts nothing: no Connection is added (the nodes are as before, the
registry still has its one entry), and the back-reference of Slot 0 is set to the Connection
of Slot 1. -/
theorem C2_connect_after_wrap_adds_no_connection :
    Reach (fun _ _ => True) (World.held SIZE_MOD) ∧
    (World.held SIZE_MOD).slots 0 = some { callback := some 7, connection := none } ∧
    ∃ w2, Signal.connectRef (World.held SIZE_MOD) 0 0 = .ok (w2, 1) ∧
      w2.conns = (World.held SIZE_MOD).conns ∧
      w2.nextConn = (World.held SIZE_MOD).nextConn ∧
      w2.signals 0 = some { connections := [(1, 0)], sequence := 1 } ∧
      w2.slots 0 = some { callback := some 7, connection := some 0 } ∧
      w2.conns 0 = some { signal := 0, slot := 1, key := 1, managed := false } := by
  have hpos : 1 ≤ SIZE_MOD := by simp [SIZE_MOD]
  have hreach : Reach (fun _ _ => True) (World.held SIZE_MOD) := by
    have h := reach_held (fun _ _ => True) (fun _ _ => trivial) (SIZE_MOD - 1) 1 (le_refl 1)
      (le_of_eq (Nat.add_sub_cancel' hpos))
      (reach_held_one (fun _ _ => True) (fun _ _ _ => trivial))
    rw [Nat.add_sub_cancel' hpos] at h
    exact h
  exact ⟨hreach, by simp [World.held], held_connect_collides SIZE_MOD (Nat.mod_self _)⟩

/-- C2, amended: in a well-formed state (link consistent, every registry key between 1 and
the counter of its Signal, as in every state reached before a counter wraps), connecting by
reference a live Slot that has no connection advances the Signal's
counter by one (as `++` on `std::size_t` does), returns the new counter value as the key, adds
exactly one Connection, stored in a fresh node under that key, with `signal` the Signal,
`slot` the Slot, `key` the returned key and `managed = false`, points the Slot's
back-reference at it, and leaves every other registry entry, Connection, Slot and Signal as
it was. -/
theorem C2_connect_reference_creates_connection (w : World) (sig a : Nat) (S : Signal)
    (s : Slot) (hw : w.WF) (hS : w.signals sig = some S) (hs : w.slots a = some s)
    (hnc : s.connection = none) :
    ∃ w2, Signal.connectRef w sig a = .ok (w2, (S.sequence + 1) % SIZE_MOD) ∧
      Signal.connectPtr w sig (some a) = .ok (w2, (S.sequence + 1) % SIZE_MOD) ∧
      (S.sequence + 1 < SIZE_MOD → (S.sequence + 1) % SIZE_MOD = S.sequence + 1) ∧
      w2.signals sig = some
        { connections := S.connections.insert ((S.sequence + 1) % SIZE_MOD) w.nextConn,
          sequence := (S.sequence + 1) % SIZE_MOD } ∧
      S.connections.find ((S.sequence + 1) % SIZE_MOD) = none ∧
      (∀ k, (S.connections.insert ((S.sequence + 1) % SIZE_MOD) w.nextConn).find k
        = if k = (S.sequence + 1) % SIZE_MOD then some w.nextConn else S.connections.find k) ∧
      (S.connections.insert ((S.sequence + 1) % SIZE_MOD) w.nextConn).length
        = S.connections.length + 1 ∧
      w.conns w.nextConn = none ∧
      w2.conns w.nextConn = some
        { signal := sig, slot := a, key := (S.sequence + 1) % SIZE_MOD, managed := false } ∧
      (∀ c, c ≠ w.nextConn → w2.conns c = w.conns c) ∧
      w2.slots a = some { s with connection := some w.nextConn } ∧
      (∀ b, b ≠ a → w2.slots b = w.slots b) ∧
      (∀ t, t ≠ sig → w2.signals t = w.signals t) := by
  have habs := hw.next_key_absent hS
  obtain ⟨w2, hrun, hsig, hconn, hslot, _, _⟩ := connectNew_ok w sig a false S s hS hs habs
  have hcall : Signal.connectRef w sig a = .ok (w2, (S.sequence + 1) % SIZE_MOD) := by
    simp [Signal.connectRef, Signal.connect, hs, hnc, bind, Except.bind, hrun]
  refine ⟨w2, hcall, hcall, fun h => Nat.mod_eq_of_lt h, ?_, habs,
    Registry.find_insert _ _ _ habs, Registry.length_insert _ _ _,
    hw.linked.freshConn _ (le_refl _), ?_, ?_, ?_, ?_, ?_⟩
  · simp [hsig]
  · simp [hconn]
  · intro c hc
    simp [hconn, hc]
  · simp [hslot]
  · intro b hb
    simp [hslot, hb]
  · intro t ht
    simp [hsig, ht]

/-- C2 at the sample state: connecting the unconnected Slot 1 to Signal 1. -/
theorem C2_connect_reference_creates_connection_witness :
    World.demo.WF ∧
    ∃ w2, Signal.connectRef World.demo 1 1 = .ok (w2, (1 + 1) % SIZE_MOD) ∧
      Signal.connectPtr World.demo 1 (some 1) = .ok (w2, (1 + 1) % SIZE_MOD) ∧
      (1 + 1 < SIZE_MOD → (1 + 1) % SIZE_MOD = 1 + 1) ∧
      w2.signals 1 = some
        { connections := Registry.insert [(1, 2)] ((1 + 1) % SIZE_MOD) 3,
          sequence := (1 + 1) % SIZE_MOD } ∧
      Registry.find [(1, 2)] ((1 + 1) % SIZE_MOD) = none ∧
      (∀ k, (Registry.insert [(1, 2)] ((1 + 1) % SIZE_MOD) 3).find k
        = if k = (1 + 1) % SIZE_MOD then some 3 else Registry.find [(1, 2)] k) ∧
      (Registry.insert [(1, 2)] ((1 + 1) % SIZE_MOD) 3).length = [((1 : SlotKey), 2)].length + 1 ∧
      World.demo.conns 3 = none ∧
      w2.conns 3 = some
        { signal := 1, slot := 1, key := (1 + 1) % SIZE_MOD, managed := false } ∧
      (∀ c, c ≠ 3 → w2.conns c = World.demo.conns c) ∧
      w2.slots 1 = some { callback := some 8, connection := some 3 } ∧
      (∀ b, b ≠ 1 → w2.slots b = World.demo.slots b) ∧
      (∀ t, t ≠ 1 → w2.signals t = World.demo.signals t) :=
  ⟨World.demo_wf,
    C2_connect_reference_creates_connection World.demo 1 1
      { connections := [(1, 2)], sequence := 1 } { callback := some 8, connection := none }
      World.demo_wf rfl rfl rfl⟩

/-- C3: for a key present in the registry, `disconnect(key)` removes exactly the entry of that
key (and releases its node), sets the referenced Slot's back-reference to none, destroys that
Slot if and only if the Connection was managed, and leaves the other entries, the counter and
all other objects unchanged; the state stays well formed and a later `emit` on the Signal
returns without invoking that Slot. -/
theorem C3_disconnect_key_removes_entry (w : World) (sig : Nat) (key : SlotKey) (S : Signal)
    (c : Nat) (conn : Connection) (s : Slot) (hw : w.WF) (hS : w.signals sig = some S)
    (hfind : S.connections.find key = some c) (hc : w.conns c = some conn)
    (hs : w.slots conn.slot = some s) :
    ∃ w2, Signal.disconnectKey w sig key = .ok w2 ∧
      w2.signals sig = some
        { connections := S.connections.erase key, sequence := S.sequence } ∧
      (∀ k, (S.connections.erase key).find k
        = if k = key then none else S.connections.find k) ∧
      (S.connections.erase key).length + 1 = S.connections.length ∧
      w2.conns c = none ∧
      (∀ y, y ≠ c → w2.conns y = w.conns y) ∧
      (conn.managed = true → w2.slots conn.slot = none) ∧
      (conn.managed = false → w2.slots conn.slot = some { s with connection := none }) ∧
      (∀ b, b ≠ conn.slot → w2.slots b = w.slots b) ∧
      (∀ t, t ≠ sig → w2.signals t = w.signals t) ∧
      w2.WF ∧
      ∀ (env : Env) (fuel : Nat) (args : List Arg), Env.Quiet env sig w2 →
        (S.connections.erase key).length ≤ fuel →
        ∃ w3 log, Signal.emit env fuel w2 sig args = .ok (w3, log) ∧
          conn.slot ∉ log.map Call.slot := by
  obtain ⟨w2, hrun, hsig, hconns, hslots, hnc, hns⟩ :=
    disconnectKey_ok w sig key S c conn s hS hfind hc hs
  have hw2 : w2.WF :=
    disconnectKey_wf w w2 hw sig key S c conn s hS hfind hc hs hsig hconns hslots hnc hns
  have hS2 : w2.signals sig
      = some { connections := S.connections.erase key, sequence := S.sequence } := by
    simp [hsig]
  refine ⟨w2, hrun, hS2, Registry.find_erase _ _,
    Registry.length_erase _ _ c (hw.linked.sorted sig S hS) (Registry.mem_of_find _ _ _ hfind),
    ?_, ?_, ?_, ?_, ?_, ?_, hw2, ?_⟩
  · simp [hconns]
  · intro y hy
    simp [hconns, hy]
  · intro hm
    simp [hslots, hm]
  · intro hm
    simp [hslots, hm]
  · intro b hb
    simp [hslots, hb]
  · intro t ht
    simp [hsig, ht]
  · intro env fuel args hq hfuel
    refine emit_skips env w2 sig _ args fuel hw2.linked hS2 hq hfuel conn.slot ?_
    intro s2 c2 conn2 hs2 hb2 _ _
    cases hm : conn.managed <;> simp [hslots, hm] at hs2
    subst hs2
    simp at hb2

/-- C3 at the sample state: disconnecting key 2 of Signal 0, whose Slot 2 is managed. -/
theorem C3_disconnect_key_removes_entry_witness :
    World.demo.WF ∧
    ∃ w2, Signal.disconnectKey World.demo 0 2 = .ok w2 ∧
      w2.signals 0 = some { connections := Registry.erase [(1, 0), (2, 1)] 2, sequence := 2 } ∧
      (∀ k, (Registry.erase [(1, 0), (2, 1)] 2).find k
        = if k = 2 then none else Registry.find [(1, 0), (2, 1)] k) ∧
      (Registry.erase [(1, 0), (2, 1)] 2).length + 1
        = [((1 : SlotKey), 0), ((2 : SlotKey), 1)].length ∧
      w2.conns 1 = none ∧
      (∀ y, y ≠ 1 → w2.conns y = World.demo.conns y) ∧
      (true = true → w2.slots 2 = none) ∧
      (true = false → w2.slots 2 = some { callback := some 9, connection := none }) ∧
      (∀ b, b ≠ 2 → w2.slots b = World.demo.slots b) ∧
      (∀ t, t ≠ 0 → w2.signals t = World.demo.signals t) ∧
      w2.WF ∧
      ∀ (env : Env) (fuel : Nat) (args : List Arg), Env.Quiet env 0 w2 →
        (Registry.erase [(1, 0), (2, 1)] 2).length ≤ fuel →
        ∃ w3 log, Signal.emit env fuel w2 0 args = .ok (w3, log) ∧
          2 ∉ log.map Call.slot :=
  ⟨World.demo_wf,
    C3_disconnect_key_removes_entry World.demo 0 2
      { connections := [(1, 0), (2, 1)], sequence := 2 } 1
      { signal := 0, slot := 2, key := 2, managed := true }
      { callback := some 9, connection := some 1 } World.demo_wf rfl rfl rfl rfl⟩

/-- C4: connecting a Slot that is already connected to this Signal returns the key of its
existing Connection and leaves the whole state as it was, whatever ownership flag the call
carries; a subsequent `emit` invokes the Slot's callback exactly once. -/
theorem C4_connect_again_is_idempotent (w : World) (sig a c : Nat) (S : Signal) (s : Slot)
    (conn : Connection) (hw : w.WF) (hS : w.signals sig = some S)
    (hs : w.slots a = some s) (hb : s.connection = some c) (hc : w.conns c = some conn)
    (hsig : conn.signal = sig) :
    Signal.connectRef w sig a = .ok (w, conn.key) ∧
    Signal.connectPtr w sig (some a) = .ok (w, conn.key) ∧
    (∀ managed, Signal.connect w sig (some a) managed = .ok (w, conn.key)) ∧
    S.connections.find conn.key = some c ∧
    ∀ (env : Env) (fuel : Nat) (args : List Arg) (f : Nat), Env.Quiet env sig w →
      S.connections.length ≤ fuel → s.callback = some f →
      ∃ w3 log, Signal.emit env fuel w sig args = .ok (w3, log) ∧
        (log.map Call.slot).count a = 1 ∧ (a, f) ∈ log.map Call.target := by
  have hconn : ∀ managed, Signal.connect w sig (some a) managed = .ok (w, conn.key) := by
    intro managed
    simp [Signal.connect, hs, hb, hc, hsig, bind, Except.bind, pure, Except.pure]
  refine ⟨hconn false, hconn false, hconn, ?_, ?_⟩
  · obtain ⟨conn1, S1, hc1, _, hS1, hfind⟩ := hw.linked.find_of_link hs hb
    rw [hc] at hc1
    cases hc1
    rw [hsig, hS] at hS1
    cases hS1
    exact hfind
  · intro env fuel args f hq hfuel hf
    exact emit_once env w sig S args fuel hw.linked hS hq hfuel a c f s conn hs hb hc hsig hf

/-- C4 at the sample state: connecting Slot 0 to Signal 0 again. -/
theorem C4_connect_again_is_idempotent_witness :
    World.demo.WF ∧
    (Signal.connectRef World.demo 0 0 = .ok (World.demo, 1) ∧
    Signal.connectPtr World.demo 0 (some 0) = .ok (World.demo, 1) ∧
    (∀ managed, Signal.connect World.demo 0 (some 0) managed = .ok (World.demo, 1)) ∧
    Registry.find [(1, 0), (2, 1)] 1 = some 0 ∧
    ∀ (env : Env) (fuel : Nat) (args : List Arg) (f : Nat), Env.Quiet env 0 World.demo →
      [((1 : SlotKey), 0), ((2 : SlotKey), 1)].length ≤ fuel → some 7 = some f →
      ∃ w3 log, Signal.emit env fuel World.demo 0 args = .ok (w3, log) ∧
        (log.map Call.slot).count 0 = 1 ∧ (0, f) ∈ log.map Call.target) :=
  ⟨World.demo_wf,
    C4_connect_again_is_idempotent World.demo 0 0 0
      { connections := [(1, 0), (2, 1)], sequence := 2 }
      { callback := some 7, connection := some 0 }
      { signal := 0, slot := 0, key := 1, managed := false } World.demo_wf rfl rfl rfl rfl rfl⟩

/-- C5 as stated fails once the counter of B has wrapped: the state `World.split (2^64)` is
reached by valid calls; in it Signal 0 (B) has wrapped to counter 0 while it still holds
Slot 1 under key 1, and Slot 0 is connected to Signal 1 (A).  `B.connect` of Slot 0 removes
the Connection from A, then issues key 1, which `emplace` finds present: no Connection is
created in B (no node is allocated, the registry of B has its one entry, of Slot 1), no
Connection references Slot 0, and its back-reference is set to the Connection of Slot 1. -/
theorem C5_connect_after_wrap_creates_no_connection :
    Reach (fun _ _ => True) (World.split SIZE_MOD) ∧
    (World.split SIZE_MOD).slots 0
      = some { callback := some 7, connection := some SIZE_MOD } ∧
    (World.split SIZE_MOD).conns SIZE_MOD
      = some { signal := 1, slot := 0, key := 1, managed := false } ∧
    (World.split SIZE_MOD).signals 1
      = some { connections := [(1, SIZE_MOD)], sequence := 1 } ∧
    ∃ w2, Signal.connectRef (World.split SIZE_MOD) 0 0 = .ok (w2, 1) ∧
      w2.signals 1 = some { connections := [], sequence := 1 } ∧
      w2.signals 0 = some { connections := [(1, 0)], sequence := 1 } ∧
      w2.nextConn = (World.split SIZE_MOD).nextConn ∧
      (∀ c conn, w2.conns c = some conn → conn.slot ≠ 0) ∧
      w2.slots 0 = some { callback := some 7, connection := some 0 } ∧
      w2.conns 0 = some { signal := 0, slot := 1, key := 1, managed := false } := by
  have hpos : 1 ≤ SIZE_MOD := by simp [SIZE_MOD]
  have hne : ¬ SIZE_MOD = 0 := Nat.pos_iff_ne_zero.1 hpos
  have hreach : Reach (fun _ _ => True) (World.held SIZE_MOD) := by
    have h := reach_held (fun _ _ => True) (fun _ _ => trivial) (SIZE_MOD - 1) 1 (le_refl 1)
      (le_of_eq (Nat.add_sub_cancel' hpos))
      (reach_held_one (fun _ _ => True) (fun _ _ _ => trivial))
    rw [Nat.add_sub_cancel' hpos] at h
    exact h
  exact ⟨reach_split (fun _ _ => True) (fun _ _ => trivial) SIZE_MOD hpos hreach,
    by simp [World.split], by simp [World.split, hne], by simp [World.split],
    split_connect_collides SIZE_MOD hpos (Nat.mod_self _)⟩

/-- C5, amended: in a well-formed state (link consistent, every registry key between 1 and
the counter of its Signal, as in every state reached before a counter wraps), for distinct
Signals A and B and a caller-owned Slot connected to A, `B.connect(slot)`
first removes the Slot's Connection from A (no entry of A references the Slot any more, and A
is empty if that was its only connection), then creates a Connection in B under the key
issued by B's own counter; afterwards the Slot's back-reference is B's new Connection, the
links stay consistent, and `emit` on A returns without invoking the Slot. -/
theorem C5_connect_moves_slot_between_signals (w : World) (sigA sigB a c : Nat)
    (SA SB : Signal) (s : Slot) (conn : Connection) (hw : w.WF) (hne : sigA ≠ sigB)
    (hA : w.signals sigA = some SA) (hB : w.signals sigB = some SB)
    (hs : w.slots a = some s) (hb : s.connection = some c) (hc : w.conns c = some conn)
    (hsigA : conn.signal = sigA) (hm : conn.managed = false) :
    ∃ w2, Signal.connectRef w sigB a = .ok (w2, (SB.sequence + 1) % SIZE_MOD) ∧
      w2.signals sigA = some
        { connections := SA.connections.erase conn.key, sequence := SA.sequence } ∧
      SA.connections.find conn.key = some c ∧
      (SA.connections.erase conn.key).find conn.key = none ∧
      w2.conns c = none ∧
      (∀ e ∈ SA.connections.erase conn.key, ∀ conn1, w2.conns e.2 = some conn1 →
        conn1.slot ≠ a) ∧
      (SA.connections = [(conn.key, c)] → SA.connections.erase conn.key = []) ∧
      w2.signals sigB = some
        { connections := SB.connections.insert ((SB.sequence + 1) % SIZE_MOD) w.nextConn,
          sequence := (SB.sequence + 1) % SIZE_MOD } ∧
      (SB.connections.insert ((SB.sequence + 1) % SIZE_MOD) w.nextConn).find
        ((SB.sequence + 1) % SIZE_MOD) = some w.nextConn ∧
      w2.conns w.nextConn = some
        { signal := sigB, slot := a, key := (SB.sequence + 1) % SIZE_MOD, managed := false } ∧
      w2.slots a = some { callback := s.callback, connection := some w.nextConn } ∧
      w2.Linked ∧
      ∀ (env : Env) (fuel : Nat) (args : List Arg), Env.Quiet env sigA w2 →
        (SA.connections.erase conn.key).length ≤ fuel →
        ∃ w3 log, Signal.emit env fuel w2 sigA args = .ok (w3, log) ∧
          a ∉ log.map Call.slot := by
  obtain ⟨w2, hrun, hsig, hconns, hslots, _, _, hlinked, _⟩ :=
    connect_migrate w sigA sigB a c SA SB s conn false hw hne hA hB hs hb hc hsigA hm
  have hfresh : w.conns w.nextConn = none := hw.linked.freshConn _ (le_refl _)
  have hcne : c ≠ w.nextConn := by
    intro h
    rw [h, hfresh] at hc
    cases hc
  have hA2 : w2.signals sigA = some
      { connections := SA.connections.erase conn.key, sequence := SA.sequence } := by
    simp [hsig, hne]
  have hfind : SA.connections.find conn.key = some c := by
    obtain ⟨conn1, S1, hc1, _, hS1, hf⟩ := hw.linked.find_of_link hs hb
    rw [hc] at hc1
    cases hc1
    rw [hsigA, hA] at hS1
    cases hS1
    exact hf
  have hsa : w2.slots a = some { callback := s.callback, connection := some w.nextConn } := by
    simp [hslots]
  have hnew : w2.conns w.nextConn = some
      { signal := sigB, slot := a, key := (SB.sequence + 1) % SIZE_MOD, managed := false } := by
    simp [hconns]
  refine ⟨w2, hrun, hA2, hfind, ?_, ?_, ?_, ?_, ?_, ?_, hnew, hsa, hlinked, ?_⟩
  · simp [Registry.find_erase]
  · simp [hconns, hcne]
  · intro e he conn1 hc1 hslot
    obtain ⟨conn2, s2, hc2, hsig2, _, hs2, hb2⟩ := hlinked.entry sigA _ hA2 e he
    rw [hc1] at hc2
    cases hc2
    rw [hslot, hsa] at hs2
    cases hs2
    simp only [Option.some.injEq] at hb2
    rw [← hb2, hnew] at hc1
    cases hc1
    exact hne hsig2.symm
  · intro hone
    simp [hone, Registry.erase]
  · simp [hsig]
  · rw [Registry.find_insert _ _ _ (hw.next_key_absent hB)]
    simp
  · intro env fuel args hq hfuel
    refine emit_skips env w2 sigA _ args fuel hlinked hA2 hq hfuel a ?_
    intro s2 c2 conn2 hs2 hb2 hc2 hsig2
    rw [hsa] at hs2
    cases hs2
    simp only [Option.some.injEq] at hb2
    rw [← hb2, hnew] at hc2
    cases hc2
    exact hne hsig2.symm

/-- C5 at the sample state: connecting Slot 0, connected to Signal 0, to Signal 1. -/
theorem C5_connect_moves_slot_between_signals_witness :
    World.demo.WF ∧ (0 : Nat) ≠ 1 ∧
    ∃ w2, Signal.connectRef World.demo 1 0 = .ok (w2, (1 + 1) % SIZE_MOD) ∧
      w2.signals 0 = some
        { connections := Registry.erase [(1, 0), (2, 1)] 1, sequence := 2 } ∧
      Registry.find [(1, 0), (2, 1)] 1 = some 0 ∧
      (Registry.erase [(1, 0), (2, 1)] 1).find 1 = none ∧
      w2.conns 0 = none ∧
      (∀ e ∈ Registry.erase [(1, 0), (2, 1)] 1, ∀ conn1, w2.conns e.2 = some conn1 →
        conn1.slot ≠ 0) ∧
      ([((1 : SlotKey), 0), ((2 : SlotKey), 1)] = [(1, 0)] →
        Registry.erase [(1, 0), (2, 1)] 1 = []) ∧
      w2.signals 1 = some
        { connections := Registry.insert [(1, 2)] ((1 + 1) % SIZE_MOD) 3,
          sequence := (1 + 1) % SIZE_MOD } ∧
      (Registry.insert [(1, 2)] ((1 + 1) % SIZE_MOD) 3).find ((1 + 1) % SIZE_MOD) = some 3 ∧
      w2.conns 3 = some
        { signal := 1, slot := 0, key := (1 + 1) % SIZE_MOD, managed := false } ∧
      w2.slots 0 = some { callback := some 7, connection := some 3 } ∧
      w2.Linked ∧
      ∀ (env : Env) (fuel : Nat) (args : List Arg), Env.Quiet env 0 w2 →
        (Registry.erase [(1, 0), (2, 1)] 1).length ≤ fuel →
        ∃ w3 log, Signal.emit env fuel w2 0 args = .ok (w3, log) ∧
          0 ∉ log.map Call.slot :=
  ⟨World.demo_wf, by decide,
    C5_connect_moves_slot_between_signals World.demo 0 1 0 0
      { connections := [(1, 0), (2, 1)], sequence := 2 }
      { connections := [(1, 2)], sequence := 1 }
      { callback := some 7, connection := some 0 }
      { signal := 0, slot := 0, key := 1, managed := false } World.demo_wf (by decide)
      rfl rfl rfl rfl rfl rfl rfl⟩

/-- C6 at the failing input: Slot 0 of the sample state is connected to Signal 0 under key 1;
passing it to the by-value `connect` of that same Signal returns key 1, and the Connection
then references the newly allocated Slot 4 with `managed = false`, so that neither
`disconnect(1)` nor `clear()` destroys Slot 4.  (For the unconnected Slot 1, and for Slot 3,
which is connected to Signal 1, the same call creates a Connection under key 3 that
references the new Slot 4 with `managed = true`.) -/
theorem C6_connect_value_already_connected_here_is_unmanaged :
    World.demo.slots 4 = none ∧
    (∃ w2, Signal.connectMove World.demo 0 0 = .ok (w2, 1) ∧
      w2.signals 0 = some { connections := [(1, 0), (2, 1)], sequence := 2 } ∧
      w2.conns 0 = some { signal := 0, slot := 4, key := 1, managed := false } ∧
      w2.slots 4 = some { callback := some 7, connection := some 0 } ∧
      w2.slots 0 = some { callback := none, connection := none } ∧
      (∃ w3, Signal.disconnectKey w2 0 1 = .ok w3 ∧
        w3.signals 0 = some { connections := [(2, 1)], sequence := 2 } ∧
        w3.slots 4 = some { callback := some 7, connection := none }) ∧
      (∃ w3, Signal.clear w2 0 = .ok w3 ∧
        w3.signals 0 = some { connections := [], sequence := 2 } ∧
        w3.slots 4 = some { callback := some 7, connection := none })) ∧
    (∃ w2, Signal.connectMove World.demo 0 1 = .ok (w2, 3) ∧
      w2.conns 3 = some { signal := 0, slot := 4, key := 3, managed := true } ∧
      w2.slots 4 = some { callback := some 8, connection := some 3 }) ∧
    (∃ w2, Signal.connectMove World.demo 0 3 = .ok (w2, 3) ∧
      w2.conns 3 = some { signal := 0, slot := 4, key := 3, managed := true } ∧
      w2.slots 4 = some { callback := none, connection := some 3 } ∧
      w2.signals 1 = some { connections := [], sequence := 1 }) :=
  ⟨rfl, ⟨_, rfl, rfl, rfl, rfl, rfl, ⟨_, rfl, rfl, rfl⟩, ⟨_, rfl, rfl, rfl⟩⟩,
    ⟨_, rfl, rfl, rfl⟩, ⟨_, rfl, rfl, rfl, rfl⟩⟩

/-- C7 as stated fails: on a newly constructed Signal, `2^64` rounds of connecting a Slot by
reference and disconnecting it run without fault and every round creates a Connection, but
the keys issued are 1, 2, ..., `2^64 - 1` and then 0, so they are not strictly increasing in
call order. -/
theorem C7_keys_wrap_around :
    runOps 0 World.fresh (churnOps SIZE_MOD)
      = .ok (World.churned SIZE_MOD, churnKeys 0 SIZE_MOD) ∧
    ¬ (churnKeys 0 SIZE_MOD).Pairwise (fun k1 k2 => k1 < k2) := by
  refine ⟨?_, churnKeys_not_increasing⟩
  rw [World.fresh_eq_churned]
  have h := runOps_churn SIZE_MOD 0
  rw [Nat.zero_add] at h
  exact h

/-- C7, amended: take a well-formed state and a sequence of `connect` (by pointer, reference
or value), `disconnect(key)`, `disconnect(slot)` and `clear` calls on one Signal, with the
counter plus the number of calls below `2^64`.  If every call has valid arguments the
sequence runs without fault and ends in a well-formed state; and whenever it runs without
fault, the keys returned by the calls that create a new Connection are strictly increasing
in call order, each lies above the starting counter and at most the final counter (so no key
is issued twice, also after its connection was removed), every key in the final registry is
at most the final counter, and the counter never decreased. -/
theorem C7_keys_increase_until_wrap (sig : Nat) (ops : List SigOp) (w : World) (S : Signal)
    (hw : w.WF) (hS : w.signals sig = some S)
    (hroom : S.sequence + ops.length < SIZE_MOD) :
    (ValidRun sig w ops → ∃ w2 keys, runOps sig w ops = .ok (w2, keys) ∧ w2.WF) ∧
    ∀ w2 keys, runOps sig w ops = .ok (w2, keys) →
      ∃ S2, w2.signals sig = some S2 ∧ S.sequence ≤ S2.sequence ∧
        S2.sequence ≤ S.sequence + ops.length ∧
        (∀ e ∈ S2.connections, e.1 ≤ S2.sequence) ∧
        keys.Pairwise (fun k1 k2 => k1 < k2) ∧ keys.Nodup ∧
        ∀ k ∈ keys, S.sequence < k ∧ k ≤ S2.sequence := by
  refine ⟨runOps_total sig ops w S hw hS hroom, ?_⟩
  intro w2 keys hrun
  obtain ⟨S2, hS2, hle, hup, hb2, hpw, hks⟩ :=
    runOps_keys sig ops w S w2 keys hS (fun e he => (hw.keys sig S hS e he).2) hroom hrun
  exact ⟨S2, hS2, hle, hup, hb2, hpw, hpw.imp (fun h => ne_of_lt h), hks⟩

/-- C7, amended, at the sample state: five calls on Signal 0 issue the keys 3, 4 and 5. -/
theorem C7_keys_increase_until_wrap_witness :
    World.demo.WF ∧
    World.demo.signals 0 = some { connections := [(1, 0), (2, 1)], sequence := 2 } ∧
    2 + demoOps.length < SIZE_MOD ∧
    runOps 0 World.demo demoOps = .ok (finalWorld (runOps 0 World.demo demoOps), [3, 4, 5]) ∧
    ((ValidRun 0 World.demo demoOps →
      ∃ w2 keys, runOps 0 World.demo demoOps = .ok (w2, keys) ∧ w2.WF) ∧
    ∀ w2 keys, runOps 0 World.demo demoOps = .ok (w2, keys) →
      ∃ S2, w2.signals 0 = some S2 ∧ 2 ≤ S2.sequence ∧ S2.sequence ≤ 2 + demoOps.length ∧
        (∀ e ∈ S2.connections, e.1 ≤ S2.sequence) ∧
        keys.Pairwise (fun k1 k2 => k1 < k2) ∧ keys.Nodup ∧
        ∀ k ∈ keys, 2 < k ∧ k ≤ S2.sequence) :=
  ⟨World.demo_wf, rfl, by decide, rfl,
    C7_keys_increase_until_wrap 0 demoOps World.demo
      { connections := [(1, 0), (2, 1)], sequence := 2 } World.demo_wf rfl (by decide)⟩

/-- C8: on a connected Slot, `Slot::disconnect` is the owning Signal's `disconnect(key)` for
the Slot's key: the entry leaves that Signal's registry, its node is released, the Slot's
back-reference is none, and a later `emit` on that Signal does not invoke the Slot; for a
caller-owned Slot a second `disconnect` changes nothing and destruction is this disconnect
followed by the release of the Slot.  On an unconnected Slot `disconnect` changes nothing, so
that calling it twice is the same as calling it once, and destruction only releases the
Slot. -/
theorem C8_slot_disconnect_matches_signal_disconnect (w : World) (a c : Nat) (s : Slot)
    (conn : Connection) (S : Signal) (hw : w.WF) (hs : w.slots a = some s)
    (hb : s.connection = some c) (hc : w.conns c = some conn)
    (hS : w.signals conn.signal = some S) :
    Slot.disconnect w a = Signal.disconnectKey w conn.signal conn.key ∧
    (∃ w2, Slot.disconnect w a = .ok w2 ∧
      w2.signals conn.signal = some
        { connections := S.connections.erase conn.key, sequence := S.sequence } ∧
      S.connections.find conn.key = some c ∧
      (S.connections.erase conn.key).find conn.key = none ∧
      w2.conns c = none ∧
      (∀ s2, w2.slots a = some s2 → s2.connection = none) ∧
      w2.WF ∧
      (∀ (env : Env) (fuel : Nat) (args : List Arg), Env.Quiet env conn.signal w2 →
        (S.connections.erase conn.key).length ≤ fuel →
        ∃ w3 log, Signal.emit env fuel w2 conn.signal args = .ok (w3, log) ∧
          a ∉ log.map Call.slot) ∧
      (conn.managed = false →
        w2.slots a = some { s with connection := none } ∧
        Slot.disconnect w2 a = .ok w2 ∧
        Slot.destroy w a = .ok (w2.freeSlot a) ∧
        (w2.freeSlot a).WF ∧
        ∀ (env : Env) (fuel : Nat) (args : List Arg),
          Env.Quiet env conn.signal (w2.freeSlot a) →
          (S.connections.erase conn.key).length ≤ fuel →
          ∃ w3 log, Signal.emit env fuel (w2.freeSlot a) conn.signal args = .ok (w3, log) ∧
            a ∉ log.map Call.slot)) ∧
    (∀ b sb, w.slots b = some sb → sb.connection = none →
      Slot.disconnect w b = .ok w ∧
      (Slot.disconnect w b >>= fun w1 => Slot.disconnect w1 b) = Slot.disconnect w b ∧
      Slot.destroy w b = .ok (w.freeSlot b)) := by
  have heq := slot_disconnect_connected w a c s conn hs hb hc
  obtain ⟨conn1, S1, hc1, hslot, hS1, hfind⟩ := hw.linked.find_of_link hs hb
  rw [hc] at hc1
  cases hc1
  rw [hS] at hS1
  cases hS1
  have hs' : w.slots conn.slot = some s := by rw [hslot]; exact hs
  obtain ⟨w2, hrun, hsig, hconns, hslots, hnc, hns⟩ :=
    disconnectKey_ok w conn.signal conn.key S c conn s hS hfind hc hs'
  have hw2 : w2.WF :=
    disconnectKey_wf w w2 hw conn.signal conn.key S c conn s hS hfind hc hs' hsig hconns hslots
      hnc hns
  have hS2 : w2.signals conn.signal = some
      { connections := S.connections.erase conn.key, sequence := S.sequence } := by
    simp [hsig]
  have hnone : ∀ s2, w2.slots a = some s2 → s2.connection = none := by
    intro s2 hs2
    cases hm : conn.managed <;> simp [hslots, hslot, hm] at hs2
    subst hs2
    rfl
  have hskip : ∀ (env : Env) (fuel : Nat) (args : List Arg), Env.Quiet env conn.signal w2 →
      (S.connections.erase conn.key).length ≤ fuel →
      ∃ w3 log, Signal.emit env fuel w2 conn.signal args = .ok (w3, log) ∧
        a ∉ log.map Call.slot := by
    intro env fuel args hq hfuel
    refine emit_skips env w2 conn.signal _ args fuel hw2.linked hS2 hq hfuel a ?_
    intro s2 c2 conn2 hs2 hb2 _ _
    rw [hnone s2 hs2] at hb2
    cases hb2
  refine ⟨heq, ⟨w2, heq.trans hrun, hS2, hfind, by simp [Registry.find_erase], by simp [hconns],
    hnone, hw2, hskip, ?_⟩, ?_⟩
  · intro hm
    have hs2 : w2.slots a = some { s with connection := none } := by
      simp [hslots, hslot, hm]
    have hfree : (w2.freeSlot a).WF := freeSlot_wf w2 a _ hw2 hs2 rfl
    refine ⟨hs2, slot_disconnect_unconnected w2 a _ hs2 rfl, ?_, hfree, ?_⟩
    · simp [Slot.destroy, heq, hrun, hs2, bind, Except.bind, pure, Except.pure]
    · intro env fuel args hq hfuel
      have hS3 : (w2.freeSlot a).signals conn.signal = some
          { connections := S.connections.erase conn.key, sequence := S.sequence } := by
        simpa using hS2
      refine emit_skips env (w2.freeSlot a) conn.signal _ args fuel hfree.linked hS3 hq hfuel
        a ?_
      intro s3 c3 conn3 hs3 _ _ _
      simp at hs3
  · intro b sb hsb hbb
    have hd := slot_disconnect_unconnected w b sb hsb hbb
    refine ⟨hd, ?_, slot_destroy_unconnected w b sb hsb hbb⟩
    simp [hd, bind, Except.bind]

/-- C8 at the sample state: Slot 0, connected to Signal 0 under key 1. -/
theorem C8_slot_disconnect_matches_signal_disconnect_witness :
    World.demo.WF ∧
    (Slot.disconnect World.demo 0 = Signal.disconnectKey World.demo 0 1 ∧
    (∃ w2, Slot.disconnect World.demo 0 = .ok w2 ∧
      w2.signals 0 = some
        { connections := Registry.erase [(1, 0), (2, 1)] 1, sequence := 2 } ∧
      Registry.find [(1, 0), (2, 1)] 1 = some 0 ∧
      (Registry.erase [(1, 0), (2, 1)] 1).find 1 = none ∧
      w2.conns 0 = none ∧
      (∀ s2, w2.slots 0 = some s2 → s2.connection = none) ∧
      w2.WF ∧
      (∀ (env : Env) (fuel : Nat) (args : List Arg), Env.Quiet env 0 w2 →
        (Registry.erase [(1, 0), (2, 1)] 1).length ≤ fuel →
        ∃ w3 log, Signal.emit env fuel w2 0 args = .ok (w3, log) ∧
          0 ∉ log.map Call.slot) ∧
      (false = false →
        w2.slots 0 = some { callback := some 7, connection := none } ∧
        Slot.disconnect w2 0 = .ok w2 ∧
        Slot.destroy World.demo 0 = .ok (w2.freeSlot 0) ∧
        (w2.freeSlot 0).WF ∧
        ∀ (env : Env) (fuel : Nat) (args : List Arg),
          Env.Quiet env 0 (w2.freeSlot 0) →
          (Registry.erase [(1, 0), (2, 1)] 1).length ≤ fuel →
          ∃ w3 log, Signal.emit env fuel (w2.freeSlot 0) 0 args = .ok (w3, log) ∧
            0 ∉ log.map Call.slot)) ∧
    (∀ b sb, World.demo.slots b = some sb → sb.connection = none →
      Slot.disconnect World.demo b = .ok World.demo ∧
      (Slot.disconnect World.demo b >>= fun w1 => Slot.disconnect w1 b)
        = Slot.disconnect World.demo b ∧
      Slot.destroy World.demo b = .ok (World.demo.freeSlot b))) :=
  ⟨World.demo_wf,
    C8_slot_disconnect_matches_signal_disconnect World.demo 0 0
      { callback := some 7, connection := some 0 }
      { signal := 0, slot := 0, key := 1, managed := false }
      { connections := [(1, 0), (2, 1)], sequence := 2 } World.demo_wf rfl rfl rfl rfl⟩

/-- C10: moving the Signal A into a different Signal B (move assignment) gives B exactly A's
former registry (same keys, same nodes, hence same Slots and ownership flags) with the
`signal` field of every transferred Connection set to B, so that every transferred Slot, whose
back-reference is unchanged, now leads to B; B gets A's counter; A is left with no connection
and counter 0; the Connections B held before are released, their Slots disconnected
(destroyed when managed); other Signals are untouched and the state stays well formed.  Move
construction into fresh storage C does the same with C in place of B. -/
theorem C10_signal_move_transfers_connections (w : World) (A B : Nat) (SA SB : Signal)
    (hw : w.WF) (hne : A ≠ B) (hA : w.signals A = some SA) (hB : w.signals B = some SB) :
    (∃ w2, Signal.moveAssign w B A = .ok w2 ∧
      w2.signals B = some { connections := SA.connections, sequence := SA.sequence } ∧
      w2.signals A = some { connections := [], sequence := 0 } ∧
      (∀ e ∈ SA.connections, ∀ conn, w.conns e.2 = some conn →
        w2.conns e.2 = some { conn with signal := B }) ∧
      (∀ e ∈ SA.connections, ∀ conn s, w.conns e.2 = some conn →
        w.slots conn.slot = some s → w2.slots conn.slot = some s ∧ s.connection = some e.2) ∧
      (∀ e ∈ SB.connections, w2.conns e.2 = none) ∧
      (∀ e ∈ SB.connections, ∀ conn s, w.conns e.2 = some conn → w.slots conn.slot = some s →
        (conn.managed = true → w2.slots conn.slot = none) ∧
        (conn.managed = false → w2.slots conn.slot = some { s with connection := none })) ∧
      (∀ t, t ≠ A → t ≠ B → w2.signals t = w.signals t) ∧
      w2.WF) ∧
    (∀ C garbage, w.signals C = none → garbage < SIZE_MOD →
      ∃ w3, Signal.moveConstruct w C A garbage = .ok w3 ∧
        w3.signals C = some { connections := SA.connections, sequence := SA.sequence } ∧
        w3.signals A = some { connections := [], sequence := 0 } ∧
        (∀ e ∈ SA.connections, ∀ conn, w.conns e.2 = some conn →
          w3.conns e.2 = some { conn with signal := C }) ∧
        (∀ e ∈ SA.connections, ∀ conn s, w.conns e.2 = some conn →
          w.slots conn.slot = some s → w3.slots conn.slot = some s ∧ s.connection = some e.2) ∧
        w3.WF) := by
  constructor
  · exact move_spec w A B SA SB hw hne hA hB
  · intro C garbage hC hg
    have hAC : A ≠ C := by
      intro heq
      rw [heq, hC] at hA
      cases hA
    have hw' := construct_wf w C garbage hw hC hg
    have hA' : (w.setSignal C { connections := [], sequence := garbage }).signals A
        = some SA := by
      simp [hAC, hA]
    have hC' : (w.setSignal C { connections := [], sequence := garbage }).signals C
        = some { connections := [], sequence := garbage } := by
      simp
    obtain ⟨w3, hrun, h1, h2, h3, h4, _, _, _, hw3⟩ :=
      move_spec _ A C SA _ hw' hAC hA' hC'
    exact ⟨w3, hrun, h1, h2, h3, h4, hw3⟩

/-- C10 at the sample state: moving Signal 0 into Signal 1. -/
theorem C10_signal_move_transfers_connections_witness :
    World.demo.WF ∧ (0 : Nat) ≠ 1 ∧
    ((∃ w2, Signal.moveAssign World.demo 1 0 = .ok w2 ∧
      w2.signals 1 = some { connections := [(1, 0), (2, 1)], sequence := 2 } ∧
      w2.signals 0 = some { connections := [], sequence := 0 } ∧
      (∀ e ∈ [((1 : SlotKey), 0), ((2 : SlotKey), 1)], ∀ conn,
        World.demo.conns e.2 = some conn → w2.conns e.2 = some { conn with signal := 1 }) ∧
      (∀ e ∈ [((1 : SlotKey), 0), ((2 : SlotKey), 1)], ∀ conn s,
        World.demo.conns e.2 = some conn → World.demo.slots conn.slot = some s →
        w2.slots conn.slot = some s ∧ s.connection = some e.2) ∧
      (∀ e ∈ [((1 : SlotKey), 2)], w2.conns e.2 = none) ∧
      (∀ e ∈ [((1 : SlotKey), 2)], ∀ conn s, World.demo.conns e.2 = some conn →
        World.demo.slots conn.slot = some s →
        (conn.managed = true → w2.slots conn.slot = none) ∧
        (conn.managed = false → w2.slots conn.slot = some { s with connection := none })) ∧
      (∀ t, t ≠ 0 → t ≠ 1 → w2.signals t = World.demo.signals t) ∧
      w2.WF) ∧
    (∀ C garbage, World.demo.signals C = none → garbage < SIZE_MOD →
      ∃ w3, Signal.moveConstruct World.demo C 0 garbage = .ok w3 ∧
        w3.signals C = some { connections := [(1, 0), (2, 1)], sequence := 2 } ∧
        w3.signals 0 = some { connections := [], sequence := 0 } ∧
        (∀ e ∈ [((1 : SlotKey), 0), ((2 : SlotKey), 1)], ∀ conn,
          World.demo.conns e.2 = some conn → w3.conns e.2 = some { conn with signal := C }) ∧
        (∀ e ∈ [((1 : SlotKey), 0), ((2 : SlotKey), 1)], ∀ conn s,
          World.demo.conns e.2 = some conn → World.demo.slots conn.slot = some s →
          w3.slots conn.slot = some s ∧ s.connection = some e.2) ∧
        w3.WF)) :=
  ⟨World.demo_wf, by decide,
    C10_signal_move_transfers_connections World.demo 0 1
      { connections := [(1, 0), (2, 1)], sequence := 2 }
      { connections := [(1, 2)], sequence := 1 } World.demo_wf (by decide) rfl rfl⟩

/-- C15: `connect` with a null Slot pointer returns the key 0 and the state it was given:
no Connection is created, no node is allocated and no counter advances. -/
theorem C15_connect_null_returns_zero (w : World) (sig : Nat) :
    Signal.connectPtr w sig none = .ok (w, 0) ∧
    ∀ managed, Signal.connect w sig none managed = .ok (w, 0) :=
  ⟨rfl, fun _ => rfl⟩

/-- C17: `disconnect(key)` with a key that is not in the registry, and `disconnect(slot)`
with a null pointer, with an unconnected Slot, or with a Slot connected to a different
Signal, return the state they were given: registries, counters, Connections and Slots are
all as before. -/
theorem C17_disconnect_without_match_changes_nothing (w : World) (sig : Nat) (S : Signal)
    (hS : w.signals sig = some S) :
    (∀ key, S.connections.find key = none → Signal.disconnectKey w sig key = .ok w) ∧
    Signal.disconnectSlot w sig none = .ok w ∧
    (∀ a s, w.slots a = some s → s.connection = none →
      Signal.disconnectSlot w sig (some a) = .ok w ∧ Signal.disconnectRef w sig a = .ok w) ∧
    (∀ a s c conn, w.slots a = some s → s.connection = some c → w.conns c = some conn →
      conn.signal ≠ sig →
      Signal.disconnectSlot w sig (some a) = .ok w ∧ Signal.disconnectRef w sig a = .ok w) := by
  refine ⟨fun key hf => disconnectKey_absent w sig key S hS hf, rfl, ?_, ?_⟩
  · intro a s hs hb
    have h : Signal.disconnectSlot w sig (some a) = .ok w := by
      simp [Signal.disconnectSlot, hs, hb, bind, Except.bind, pure, Except.pure]
    exact ⟨h, h⟩
  · intro a s c conn hs hb hc hne
    have h : Signal.disconnectSlot w sig (some a) = .ok w := by
      simp [Signal.disconnectSlot, hs, hb, hc, hne, bind, Except.bind, pure, Except.pure]
    exact ⟨h, h⟩

/-- C17 at the sample state, on Signal 1: key 5 is absent, Slot 1 is unconnected and Slot 0
is connected to Signal 0. -/
theorem C17_disconnect_without_match_changes_nothing_witness :
    World.demo.signals 1 = some { connections := [(1, 2)], sequence := 1 } ∧
    ((∀ key, Registry.find [(1, 2)] key = none →
      Signal.disconnectKey World.demo 1 key = .ok World.demo) ∧
    Signal.disconnectSlot World.demo 1 none = .ok World.demo ∧
    (∀ a s, World.demo.slots a = some s → s.connection = none →
      Signal.disconnectSlot World.demo 1 (some a) = .ok World.demo ∧
      Signal.disconnectRef World.demo 1 a = .ok World.demo) ∧
    (∀ a s c conn, World.demo.slots a = some s → s.connection = some c →
      World.demo.conns c = some conn → conn.signal ≠ 1 →
      Signal.disconnectSlot World.demo 1 (some a) = .ok World.demo ∧
      Signal.disconnectRef World.demo 1 a = .ok World.demo)) :=
  ⟨rfl, C17_disconnect_without_match_changes_nothing World.demo 1
    { connections := [(1, 2)], sequence := 1 } rfl⟩

/-- C18: copy-constructing a Slot in fresh storage from any live Slot, connected or not,
yields a Slot with the same callback and no connection and changes nothing else: the source
keeps its callback and back-reference, every Signal and Connection is as before, and when the
source is connected its Signal's registry still leads to its Connection, which is the one
entry of that registry that references the source, while no entry references the copy. -/
theorem C18_copy_construct_copies_callback_only (w : World) (dst src : Nat) (s : Slot)
    (hw : w.Linked) (hs : w.slots src = some s) (hd : w.slots dst = none) :
    ∃ w2, Slot.copyConstruct w dst src = .ok w2 ∧
      w2.slots dst = some { callback := s.callback, connection := none } ∧
      w2.slots src = some s ∧
      (∀ b, b ≠ dst → w2.slots b = w.slots b) ∧
      w2.signals = w.signals ∧ w2.conns = w.conns ∧
      ∀ c conn S, s.connection = some c → w.conns c = some conn →
        w.signals conn.signal = some S →
        conn.slot = src ∧ S.connections.find conn.key = some c ∧
        ∀ e ∈ S.connections, ∀ conn1, w2.conns e.2 = some conn1 →
          (conn1.slot = src ↔ e.2 = c) ∧ conn1.slot ≠ dst := by
  have hne : src ≠ dst := by
    intro h
    rw [h, hd] at hs
    cases hs
  refine ⟨w.setSlot dst { callback := s.callback, connection := none }, ?_, by simp,
    by simp [hne, hs], fun b hb => by simp [hb], rfl, rfl, ?_⟩
  · simp [Slot.copyConstruct, hs, bind, Except.bind, pure, Except.pure]
  · intro c conn S hb hc hS
    obtain ⟨conn0, S0, hc0, hslot, hS0, hfind⟩ := hw.find_of_link hs hb
    rw [hc] at hc0
    cases hc0
    rw [hS] at hS0
    cases hS0
    refine ⟨hslot, hfind, ?_⟩
    intro e he conn1 hc1
    obtain ⟨conn2, s2, hc2, _, _, hs2, hb2⟩ := hw.entry conn.signal S hS e he
    simp only [setSlot_conns] at hc1
    rw [hc1] at hc2
    cases hc2
    constructor
    · constructor
      · intro h
        rw [h, hs] at hs2
        cases hs2
        rw [hb] at hb2
        exact (Option.some.inj hb2).symm
      · intro h
        rw [h, hc] at hc1
        cases hc1
        exact hslot
    · intro h
      rw [h, hd] at hs2
      cases hs2

/-- C18 at the sample state: copying the connected Slot 0 into the fresh storage 4. -/
theorem C18_copy_construct_copies_callback_only_witness :
    World.demo.Linked ∧ World.demo.slots 4 = none ∧
    ∃ w2, Slot.copyConstruct World.demo 4 0 = .ok w2 ∧
      w2.slots 4 = some { callback := some 7, connection := none } ∧
      w2.slots 0 = some { callback := some 7, connection := some 0 } ∧
      (∀ b, b ≠ 4 → w2.slots b = World.demo.slots b) ∧
      w2.signals = World.demo.signals ∧ w2.conns = World.demo.conns ∧
      ∀ c conn S, some 0 = some c → World.demo.conns c = some conn →
        World.demo.signals conn.signal = some S →
        conn.slot = 0 ∧ S.connections.find conn.key = some c ∧
        ∀ e ∈ S.connections, ∀ conn1, w2.conns e.2 = some conn1 →
          (conn1.slot = 0 ↔ e.2 = c) ∧ conn1.slot ≠ 4 :=
  ⟨World.demo_linked, rfl,
    C18_copy_construct_copies_callback_only World.demo 4 0
      { callback := some 7, connection := some 0 } World.demo_linked rfl rfl⟩

/-- C11: move-constructing a Slot in fresh storage from a connected Slot hands over the
callback and the Connection: the Connection's `slot` is the destination, its `managed` flag
is false, its Signal and key are as before, the destination's back-reference is that
Connection, and the source, where it still exists, has no back-reference (a caller-owned
source stays, emptied; a managed source is deleted by `releaseSlot`); no Signal changes, so
the registry has the same keys, the same key for this Connection and the same counter.
Moving from an unconnected Slot yields a destination with the callback and no connection. -/
theorem C11_slot_move_construct_transfers_connection (w : World) (dst src : Nat) (s : Slot)
    (hw : w.Linked) (hs : w.slots src = some s) (hd : w.slots dst = none) :
    (∀ c conn S, s.connection = some c → w.conns c = some conn →
      w.signals conn.signal = some S →
      ∃ w2, Slot.moveConstruct w dst src = .ok w2 ∧
        w2.conns c = some { conn with slot := dst, managed := false } ∧
        w2.slots dst = some { callback := s.callback, connection := some c } ∧
        (∀ s2, w2.slots src = some s2 → s2.connection = none) ∧
        (conn.managed = false →
          w2.slots src = some { callback := none, connection := none }) ∧
        (conn.managed = true → w2.slots src = none) ∧
        w2.signals = w.signals ∧ w2.signals conn.signal = some S ∧
        S.connections.find conn.key = some c ∧
        (∀ y, y ≠ c → w2.conns y = w.conns y) ∧
        (∀ b, b ≠ dst → b ≠ src → w2.slots b = w.slots b)) ∧
    (s.connection = none →
      ∃ w2, Slot.moveConstruct w dst src = .ok w2 ∧
        w2.slots dst = some { callback := s.callback, connection := none } ∧
        w2.slots src = some { callback := none, connection := none } ∧
        w2.signals = w.signals ∧ w2.conns = w.conns ∧
        (∀ b, b ≠ dst → b ≠ src → w2.slots b = w.slots b)) := by
  have hne : dst ≠ src := by
    intro h
    rw [← h, hd] at hs
    cases hs
  have hne' : ¬ src = dst := fun h => hne h.symm
  have ht : (w.setSlot dst { callback := none, connection := none }).slots dst
      = some { callback := none, connection := none } := by simp
  have hs' : (w.setSlot dst { callback := none, connection := none }).slots src = some s := by
    simp [hne', hs]
  constructor
  · intro c conn S hb hc hS
    obtain ⟨conn0, S0, hc0, hslot, hS0, hfind⟩ := hw.find_of_link hs hb
    rw [hc] at hc0
    cases hc0
    rw [hS] at hS0
    cases hS0
    obtain ⟨w2, hrun, hslots, hsig, hconns, _, _⟩ :=
      slot_move_connected _ dst src c _ s conn ht hs' hne hb hc hslot
    refine ⟨w2, hrun, by simp [hconns], by simp [hslots], ?_, ?_, ?_, hsig, ?_, hfind, ?_, ?_⟩
    · intro s2 hs2
      cases hm : conn.managed <;> simp [hslots, hne', hm] at hs2
      subst hs2
      rfl
    · intro hm
      simp [hslots, hne', hm]
    · intro hm
      simp [hslots, hne', hm]
    · rw [hsig]; exact hS
    · intro y hy
      simp [hconns, hy]
    · intro b hb1 hb2
      simp [hslots, hb1, hb2]
  · intro hb
    obtain ⟨w2, hrun, hslots, hsig, hconns, _, _⟩ :=
      slot_move_unconnected _ dst src _ s ht hs' hne hb
    refine ⟨w2, hrun, by simp [hslots], by simp [hslots, hne'], hsig, hconns, ?_⟩
    intro b hb1 hb2
    simp [hslots, hb1, hb2]

/-- C11 at the sample state: moving the connected Slot 0 into the fresh storage 4. -/
theorem C11_slot_move_construct_transfers_connection_witness :
    World.demo.Linked ∧ World.demo.slots 4 = none ∧
    ((∀ c conn S, some 0 = some c → World.demo.conns c = some conn →
      World.demo.signals conn.signal = some S →
      ∃ w2, Slot.moveConstruct World.demo 4 0 = .ok w2 ∧
        w2.conns c = some { conn with slot := 4, managed := false } ∧
        w2.slots 4 = some { callback := some 7, connection := some c } ∧
        (∀ s2, w2.slots 0 = some s2 → s2.connection = none) ∧
        (conn.managed = false →
          w2.slots 0 = some { callback := none, connection := none }) ∧
        (conn.managed = true → w2.slots 0 = none) ∧
        w2.signals = World.demo.signals ∧ w2.signals conn.signal = some S ∧
        S.connections.find conn.key = some c ∧
        (∀ y, y ≠ c → w2.conns y = World.demo.conns y) ∧
        (∀ b, b ≠ 4 → b ≠ 0 → w2.slots b = World.demo.slots b)) ∧
    (some 0 = none →
      ∃ w2, Slot.moveConstruct World.demo 4 0 = .ok w2 ∧
        w2.slots 4 = some { callback := some 7, connection := none } ∧
        w2.slots 0 = some { callback := none, connection := none } ∧
        w2.signals = World.demo.signals ∧ w2.conns = World.demo.conns ∧
        (∀ b, b ≠ 4 → b ≠ 0 → w2.slots b = World.demo.slots b))) :=
  ⟨World.demo_linked, rfl,
    C11_slot_move_construct_transfers_connection World.demo 4 0
      { callback := some 7, connection := some 0 } World.demo_linked rfl rfl⟩


/-- C20: for two distinct live Slots `D` and `S` (with `D` owned by the caller), copy
assignment `D = S` replaces only the callback of `D`: the back-references of `D` and `S`,
every registry and every Connection are unchanged.  Move assignment `D = std::move(S)` first
disconnects `D` (its Signal loses the entry of `D`, whose Connection is deleted), and then
takes over the callback and the Connection of `S` as in move construction: the Connection
points at `D` with `managed` false, `D` refers back to it, and `S`, where it still exists, is
left without callback and without connection. -/
theorem C20_slot_assignment_move_and_copy (w : World) (D S : Nat) (d s : Slot) (hw : w.WF)
    (hd : w.slots D = some d) (hs : w.slots S = some s) (hne : D ≠ S)
    (hown : ∀ c conn, d.connection = some c → w.conns c = some conn → conn.managed = false) :
    (∃ w2, Slot.copyAssign w D S = .ok w2 ∧
      w2.slots D = some { callback := s.callback, connection := d.connection } ∧
      w2.slots S = some s ∧ (∀ x, x ≠ D → w2.slots x = w.slots x) ∧
      w2.signals = w.signals ∧ w2.conns = w.conns) ∧
    (∃ w1 w2, Slot.disconnect w D = .ok w1 ∧ Slot.move w1 D S = .ok w2 ∧
      Slot.moveAssign w D S = .ok w2 ∧ w2.WF ∧
      (∀ cD connD SD, d.connection = some cD → w.conns cD = some connD →
        w.signals connD.signal = some SD →
        SD.connections.find connD.key = some cD ∧
        w2.signals connD.signal = some { connections := SD.connections.erase connD.key,
                                         sequence := SD.sequence } ∧
        (∀ x, x ≠ connD.signal → w2.signals x = w.signals x) ∧
        w2.conns cD = none) ∧
      (d.connection = none → w2.signals = w.signals) ∧
      (∀ c conn, s.connection = some c → w.conns c = some conn →
        w2.conns c = some { conn with slot := D, managed := false } ∧
        w2.slots D = some { callback := s.callback, connection := some c } ∧
        (∀ s2, w2.slots S = some s2 → s2.connection = none) ∧
        (conn.managed = false →
          w2.slots S = some { callback := none, connection := none }) ∧
        (conn.managed = true → w2.slots S = none)) ∧
      (s.connection = none →
        w2.slots D = some { callback := s.callback, connection := none } ∧
        w2.slots S = some { callback := none, connection := none })) := by
  have hne' : ¬ S = D := fun h => hne h.symm
  constructor
  · refine ⟨w.setSlot D { d with callback := s.callback }, ?_, by simp, by simp [hne', hs],
      ?_, rfl, rfl⟩
    · simp [Slot.copyAssign, hd, hs, bind, Except.bind, pure, Except.pure]
    · intro x hx
      simp [hx]
  · obtain ⟨w1, w2, hrun1, hrun2, hrun, _, hw2, _, hsame, hdetail, hsig2, _, _, hnone, hsome⟩ :=
      moveAssign_owned w D S d s hw hd hs hne hown
    refine ⟨w1, w2, hrun1, hrun2, hrun, hw2, ?_, ?_, ?_, ?_⟩
    · intro cD connD SD hb hc hS
      obtain ⟨hfind, hsig1, hconns1⟩ := hdetail cD connD SD hb hc hS
      refine ⟨hfind, by simp [hsig2, hsig1], ?_, ?_⟩
      · intro x hx
        simp [hsig2, hsig1, hx]
      · cases hsb : s.connection with
        | none =>
          rw [(hnone hsb).2, hconns1]
          simp
        | some c =>
          obtain ⟨conn, _, hc0, _, _, _⟩ := hw.linked.find_of_link hs hsb
          obtain ⟨hc1, _, hconns2⟩ := hsome c conn hsb hc0
          have hcne : ¬ cD = c := by
            intro h
            rw [← h, hconns1] at hc1
            simp at hc1
          rw [hconns2, hconns1]
          simp [hcne]
    · intro hb
      rw [hsig2, hsame hb]
    · intro c conn hb hc
      obtain ⟨_, hslots2, hconns2⟩ := hsome c conn hb hc
      refine ⟨by simp [hconns2], by simp [hslots2], ?_, ?_, ?_⟩
      · intro s2 hs2
        cases hm : conn.managed <;> simp [hslots2, hne', hm] at hs2
        subst hs2
        rfl
      · intro hm
        simp [hslots2, hne', hm]
      · intro hm
        simp [hslots2, hne', hm]
    · intro hb
      obtain ⟨hslots2, _⟩ := hnone hb
      exact ⟨by simp [hslots2], by simp [hslots2, hne']⟩

/-- C20 at the sample state: Slot 3 (connected to Signal 1) is assigned from Slot 0
(connected to Signal 0 with callback 7). -/
theorem C20_slot_assignment_move_and_copy_witness :
    World.demo.WF ∧ (3 : Nat) ≠ 0 ∧
    (∃ w2, Slot.copyAssign World.demo 3 0 = .ok w2 ∧
      w2.slots 3 = some { callback := some 7, connection := some 2 } ∧
      w2.slots 0 = some { callback := some 7, connection := some 0 } ∧
      (∀ x, x ≠ 3 → w2.slots x = World.demo.slots x) ∧
      w2.signals = World.demo.signals ∧ w2.conns = World.demo.conns) ∧
    (∃ w1 w2, Slot.disconnect World.demo 3 = .ok w1 ∧ Slot.move w1 3 0 = .ok w2 ∧
      Slot.moveAssign World.demo 3 0 = .ok w2 ∧ w2.WF ∧
      (∀ cD connD SD, some 2 = some cD → World.demo.conns cD = some connD →
        World.demo.signals connD.signal = some SD →
        SD.connections.find connD.key = some cD ∧
        w2.signals connD.signal = some { connections := SD.connections.erase connD.key,
                                         sequence := SD.sequence } ∧
        (∀ x, x ≠ connD.signal → w2.signals x = World.demo.signals x) ∧
        w2.conns cD = none) ∧
      (some 2 = none → w2.signals = World.demo.signals) ∧
      (∀ c conn, some 0 = some c → World.demo.conns c = some conn →
        w2.conns c = some { conn with slot := 3, managed := false } ∧
        w2.slots 3 = some { callback := some 7, connection := some c } ∧
        (∀ s2, w2.slots 0 = some s2 → s2.connection = none) ∧
        (conn.managed = false →
          w2.slots 0 = some { callback := none, connection := none }) ∧
        (conn.managed = true → w2.slots 0 = none)) ∧
      (some 0 = none →
        w2.slots 3 = some { callback := some 7, connection := none } ∧
        w2.slots 0 = some { callback := none, connection := none })) :=
  ⟨World.demo_wf, by decide,
    C20_slot_assignment_move_and_copy World.demo 3 0
      { callback := none, connection := some 2 } { callback := some 7, connection := some 0 }
      World.demo_wf rfl rfl (by decide)
      (by
        intro c conn h1 h2
        cases h1
        cases h2
        rfl)⟩

/-- C14 at the failing input: Signal 0 of the sample state has two Slots with callbacks
(Slot 0 with target 7, then Slot 2 with target 9).  Emitting one argument of a by-value,
movable type with value 5 hands 5 to the first callback and the moved-from value to the
second, because `std::forward<Args>(args)...` is evaluated anew in every iteration of the
loop.  (An argument of reference type reaches both callbacks as 5.) -/
theorem C14_emit_moves_by_value_arguments_into_first_callback :
    Signal.emit Env.idle 2 World.demo 0 [{ val := .val 5, byValue := true }]
      = .ok (World.demo,
          [{ slot := 0, callback := 7, args := [.val 5] },
           { slot := 2, callback := 9, args := [.movedFrom] }]) ∧
    Signal.emit Env.idle 2 World.demo 0 [{ val := .val 5, byValue := false }]
      = .ok (World.demo,
          [{ slot := 0, callback := 7, args := [.val 5] },
           { slot := 2, callback := 9, args := [.val 5] }]) :=
  ⟨rfl, rfl⟩

/-- C16 as stated fails at the top of the counter: `2^64 - 1` rounds of connecting and
disconnecting a Slot bring a newly constructed Signal to counter `2^64 - 1` with an empty
registry; the next `connect` of that (non-null) Slot returns key 0 and stores its Connection
under key 0. -/
theorem C16_connect_issues_zero_after_wrap :
    runOps 0 World.fresh (churnOps (SIZE_MOD - 1))
      = .ok (World.churned (SIZE_MOD - 1), churnKeys 0 (SIZE_MOD - 1)) ∧
    ∃ w2, Signal.connectRef (World.churned (SIZE_MOD - 1)) 0 0 = .ok (w2, 0) ∧
      w2.signals 0 = some { connections := [(0, SIZE_MOD - 1)], sequence := 0 } := by
  have hrun : runOps 0 World.fresh (churnOps (SIZE_MOD - 1))
      = .ok (World.churned (SIZE_MOD - 1), churnKeys 0 (SIZE_MOD - 1)) := by
    rw [World.fresh_eq_churned]
    have h := runOps_churn (SIZE_MOD - 1) 0
    rw [Nat.zero_add] at h
    exact h
  have hseq : (SIZE_MOD - 1) % SIZE_MOD = SIZE_MOD - 1 := by simp [SIZE_MOD]
  have hstate : ∃ w1, w1 = World.churned (SIZE_MOD - 1) ∧
      w1.signals 0 = some { connections := [], sequence := SIZE_MOD - 1 } ∧
      w1.slots 0 = some { callback := some 7, connection := none } ∧
      w1.nextConn = SIZE_MOD - 1 := by
    refine ⟨_, rfl, ?_, ?_, rfl⟩
    · simp [World.churned, hseq]
    · simp [World.churned, World.fresh, Slot.construct]
  refine ⟨hrun, ?_⟩
  obtain ⟨w1, hw1, hS1, hs1, hn1⟩ := hstate
  rw [← hw1]
  obtain ⟨w2, hconn, hsig2, _⟩ :=
    connectNew_ok w1 0 0 false _ _ hS1 hs1 (by simp [Registry.find])
  have hkey : (SIZE_MOD - 1 + 1) % SIZE_MOD = 0 := by simp [SIZE_MOD]
  simp only [hkey] at hconn hsig2
  refine ⟨w2, ?_, ?_⟩
  · simp [Signal.connectRef, Signal.connect, hs1, hconn, bind, Except.bind]
  · rw [hsig2, hn1]
    simp [Registry.insert]

/-- C16, amended: take any state reached from the world without objects by constructing
Signals and Slots and by the public operations, every `connect` so far having found the
counter of its Signal below `2^64 - 1`.  A newly constructed Signal has counter 0 and an
empty registry; no registry of the state holds key 0; `connect` with a null pointer returns
0; and for a Signal whose counter is below `2^64 - 1` and a live caller-owned Slot, `connect`
(by pointer, by reference or by value) returns a key other than 0 under which the registry
then holds a Connection, and no registry of the resulting state holds key 0. -/
theorem C16_zero_key_reserved_below_wrap (w : World) (h : Reach Op.Room w) :
    (∀ p, (Signal.construct w p).signals p = some { connections := [], sequence := 0 }) ∧
    (∀ sig S, w.signals sig = some S → ∀ e ∈ S.connections, e.1 ≠ 0) ∧
    (∀ sig, Signal.connectPtr w sig none = .ok (w, 0)) ∧
    ∀ sig S a, w.signals sig = some S → S.sequence + 1 < SIZE_MOD → w.CallerOwned a →
      (∃ w2 key, Signal.connectPtr w sig (some a) = .ok (w2, key) ∧ key ≠ 0 ∧
        (∃ S2 c, w2.signals sig = some S2 ∧ S2.connections.find key = some c) ∧
        ∀ t T, w2.signals t = some T → ∀ e ∈ T.connections, e.1 ≠ 0) ∧
      (∃ w2 key, Signal.connectRef w sig a = .ok (w2, key) ∧ key ≠ 0 ∧
        (∃ S2 c, w2.signals sig = some S2 ∧ S2.connections.find key = some c) ∧
        ∀ t T, w2.signals t = some T → ∀ e ∈ T.connections, e.1 ≠ 0) ∧
      (∃ w2 key, Signal.connectMove w sig a = .ok (w2, key) ∧ key ≠ 0 ∧
        (∃ S2 c, w2.signals sig = some S2 ∧ S2.connections.find key = some c) ∧
        ∀ t T, w2.signals t = some T → ∀ e ∈ T.connections, e.1 ≠ 0) := by
  have hw : w.WF := Reach.wf h
  have hnz : ∀ w2 : World, w2.WF → ∀ t T, w2.signals t = some T →
      ∀ e ∈ T.connections, e.1 ≠ 0 := by
    intro w2 hw2 t T hT e he
    exact Nat.pos_iff_ne_zero.1 (hw2.keys t T hT e he).1
  refine ⟨?_, hnz w hw, fun _ => rfl, ?_⟩
  · intro p
    simp [Signal.construct]
  · intro sig S a hS hroom hown
    obtain ⟨w2, key, hrun, hw2, hkey, hreg⟩ := connect_key w sig a false S hw hS hroom hown
    obtain ⟨w3, key3, hrun3, hw3, hkey3, hreg3⟩ := connectMove_key w sig a S hw hS hroom hown
    exact ⟨⟨w2, key, hrun, Nat.pos_iff_ne_zero.1 hkey, hreg, hnz w2 hw2⟩,
      ⟨w2, key, hrun, Nat.pos_iff_ne_zero.1 hkey, hreg, hnz w2 hw2⟩,
      ⟨w3, key3, hrun3, Nat.pos_iff_ne_zero.1 hkey3, hreg3, hnz w3 hw3⟩⟩

/-- C16 (amended) at the reachable state `World.held 1`: Signal 0 holds Slot 1 under key 1,
Slot 0 is not connected. -/
theorem C16_zero_key_reserved_below_wrap_witness :
    Reach Op.Room (World.held 1) ∧
    ((∀ p, (Signal.construct (World.held 1) p).signals p
        = some { connections := [], sequence := 0 }) ∧
    (∀ sig S, (World.held 1).signals sig = some S → ∀ e ∈ S.connections, e.1 ≠ 0) ∧
    (∀ sig, Signal.connectPtr (World.held 1) sig none = .ok (World.held 1, 0)) ∧
    ∀ sig S a, (World.held 1).signals sig = some S → S.sequence + 1 < SIZE_MOD →
      (World.held 1).CallerOwned a →
      (∃ w2 key, Signal.connectPtr (World.held 1) sig (some a) = .ok (w2, key) ∧ key ≠ 0 ∧
        (∃ S2 c, w2.signals sig = some S2 ∧ S2.connections.find key = some c) ∧
        ∀ t T, w2.signals t = some T → ∀ e ∈ T.connections, e.1 ≠ 0) ∧
      (∃ w2 key, Signal.connectRef (World.held 1) sig a = .ok (w2, key) ∧ key ≠ 0 ∧
        (∃ S2 c, w2.signals sig = some S2 ∧ S2.connections.find key = some c) ∧
        ∀ t T, w2.signals t = some T → ∀ e ∈ T.connections, e.1 ≠ 0) ∧
      (∃ w2 key, Signal.connectMove (World.held 1) sig a = .ok (w2, key) ∧ key ≠ 0 ∧
        (∃ S2 c, w2.signals sig = some S2 ∧ S2.connections.find key = some c) ∧
        ∀ t T, w2.signals t = some T → ∀ e ∈ T.connections, e.1 ≠ 0)) :=
  ⟨reach_held_one Op.Room (fun _ _ h => h),
    C16_zero_key_reserved_below_wrap (World.held 1)
      (reach_held_one Op.Room (fun _ _ h => h))⟩

/-- C13 as stated fails: in the sample state Signal 0 holds Slot 0 (target 7) and Slot 2
(target 9), and Slot 1 (target 8) is not connected.  When the callback with target 7 connects
Slot 1 to Signal 0, the same emit goes on to invoke Slot 1, which was not connected when the
emit started: the new Connection has the largest key, so the loop reaches it before
`end()`. -/
theorem C13_connection_added_during_emit_is_visited :
    World.demo.slots 1 = some { callback := some 8, connection := none } ∧
    World.demo.signals 0 = some { connections := [(1, 0), (2, 1)], sequence := 2 } ∧
    ∃ w2, Signal.emit (Env.connecting 0 1 7) 3 World.demo 0 []
        = .ok (w2, [{ slot := 0, callback := 7, args := [] },
                    { slot := 2, callback := 9, args := [] },
                    { slot := 1, callback := 8, args := [] }]) ∧
      w2.signals 0 = some { connections := [(1, 0), (2, 1), (3, 3)], sequence := 3 } :=
  ⟨rfl, rfl, _, rfl, rfl⟩

/-- C13, amended: in a well-formed state, below the top of the counter, let the callback with
target `f0` connect the unconnected Slot `b` to the emitting Signal (by reference) and let
every other callback leave the object graph alone.  If some Slot of the registry carries
`f0`, an emit with enough fuel returns, and it invokes the callbacks of the Slots connected
when the emit started, in registry order, and after them the callback of the newly connected
Slot `b` (if it has one); the registry then holds the new Connection as its last entry. -/
theorem C13_connection_added_during_emit_is_visited_last (w : World) (sig b f0 : Nat)
    (S : Signal) (sb : Slot) (hw : w.WF) (hS : w.signals sig = some S)
    (hb : w.slots b = some sb) (hbc : sb.connection = none)
    (hroom : S.sequence + 1 < SIZE_MOD)
    (hex : ∃ e ∈ S.connections, ∃ a, w.target e = some (a, f0))
    (fuel : Nat) (hfuel : S.connections.length + 1 ≤ fuel) (args : List Arg) :
    ∃ w2 log, Signal.emit (Env.connecting sig b f0) fuel w sig args = .ok (w2, log) ∧
      log.map Call.target
        = S.connections.filterMap w.target ++ (sb.callback.map fun g => (b, g)).toList ∧
      w2.signals sig = some { connections := S.connections ++ [(S.sequence + 1, w.nextConn)],
                              sequence := S.sequence + 1 } :=
  emit_connecting w sig b f0 S sb hw hS hb hbc hroom hex fuel hfuel args

/-- C13 (amended) at the sample state: the callback of Slot 0 connects Slot 1 to Signal 0. -/
theorem C13_connection_added_during_emit_is_visited_last_witness :
    World.demo.WF ∧ (2 : Nat) + 1 < SIZE_MOD ∧
    (∃ e ∈ [((1 : SlotKey), (0 : Nat)), (2, 1)], ∃ a, World.demo.target e = some (a, 7)) ∧
    ∃ w2 log, Signal.emit (Env.connecting 0 1 7) 3 World.demo 0 [] = .ok (w2, log) ∧
      log.map Call.target
        = [((1 : SlotKey), (0 : Nat)), (2, 1)].filterMap World.demo.target
          ++ ((some 8).map fun g => (1, g)).toList ∧
      w2.signals 0 = some { connections := [(1, 0), (2, 1)] ++ [(2 + 1, 3)],
                            sequence := 2 + 1 } :=
  ⟨World.demo_wf, by simp [SIZE_MOD], ⟨(1, 0), by simp, 0, rfl⟩,
    C13_connection_added_during_emit_is_visited_last World.demo 0 1 7
      { connections := [(1, 0), (2, 1)], sequence := 2 }
      { callback := some 8, connection := none } World.demo_wf rfl rfl rfl
      (by simp [SIZE_MOD]) ⟨(1, 0), by simp, 0, rfl⟩ 3 (by decide) []⟩

/-- C12 as stated fails: in the state `World.held 1` (reached by constructing Signal 0 and
Slots 0 and 1 and connecting Slot 1) the registry of Signal 0 has the single entry of Slot 1,
which carries the callback with target 8.  When that callback disconnects its own Slot
(`disconnect(1)` on Signal 0), the map node the loop of `emit` stands on is erased, and the
increment of the loop iterator is undefined behaviour: the emit does not run to completion,
whatever the fuel. -/
theorem C12_self_disconnect_during_emit_is_undefined :
    Reach Op.Room (World.held 1) ∧
    (World.held 1).signals 0 = some { connections := [(1, 0)], sequence := 1 % SIZE_MOD } ∧
    (World.held 1).target (1, 0) = some (1, 8) ∧
    ∀ fuel, Signal.emit (Env.disconnecting 0 1 8) (fuel + 1) (World.held 1) 0 []
      = .error Fault.undefined := by
  refine ⟨reach_held_one Op.Room (fun _ _ h => h), rfl, rfl, ?_⟩
  intro fuel
  rfl

/-- C12, amended: in a link-consistent state, let every callback that the dispatch invokes
return, leave the object graph link consistent and leave the registry of the emitting Signal
as it was except for entries it removes, never the entry of the Slot whose callback is
running (`Signal.Tolerated`).  Then an emit with fuel for the entries present at the start
returns, and it returns what the dispatch over the snapshot of those entries returns: an
entry that has been removed from the registry when its turn comes is not invoked, and the
Slot of every other entry is invoked if it has a callback. -/
theorem C12_emit_tolerates_disconnecting_other_slots (env : Env) (sig : Nat) (w : World)
    (S : Signal) (args : List Arg) (fuel : Nat) (hw : w.Linked)
    (hS : w.signals sig = some S)
    (htol : Signal.Tolerated env sig S.connections w args)
    (hfuel : S.connections.length ≤ fuel) :
    ∃ r, Signal.emit env fuel w sig args = .ok r ∧
      Signal.dispatchSnapshot env sig S.connections w args [] = .ok r ∧ r.1.Linked :=
  emit_tolerated env sig w S hw hS args htol fuel hfuel

/-- C12 (amended) at the sample state with the callback of Slot 2 set to target 7, the
target that Slot 0 carries as well: the callback with target 7 disconnects key 2 of
Signal 0, the entry of Slot 2.  The emit returns, having invoked Slot 0 only. -/
theorem C12_emit_tolerates_disconnecting_other_slots_witness :
    (World.demo.setSlot 2 { callback := some 7, connection := some 1 }).Linked ∧
    Signal.Tolerated (Env.disconnecting 0 2 7) 0 [(1, 0), (2, 1)]
      (World.demo.setSlot 2 { callback := some 7, connection := some 1 }) [] ∧
    (∃ w2, Signal.emit (Env.disconnecting 0 2 7) 2
        (World.demo.setSlot 2 { callback := some 7, connection := some 1 }) 0 []
      = .ok (w2, [{ slot := 0, callback := 7, args := [] }])) ∧
    ∃ r, Signal.emit (Env.disconnecting 0 2 7) 2
        (World.demo.setSlot 2 { callback := some 7, connection := some 1 }) 0 [] = .ok r ∧
      Signal.dispatchSnapshot (Env.disconnecting 0 2 7) 0 [(1, 0), (2, 1)]
        (World.demo.setSlot 2 { callback := some 7, connection := some 1 }) [] [] = .ok r ∧
      r.1.Linked := by
  have hW : (World.demo.setSlot 2 { callback := some 7, connection := some 1 }).Linked :=
    (setCallback_wf World.demo World.demo_wf 2 { callback := some 9, connection := some 1 }
      (some 7) rfl).linked
  have htol : Signal.Tolerated (Env.disconnecting 0 2 7) 0 [(1, 0), (2, 1)]
      (World.demo.setSlot 2 { callback := some 7, connection := some 1 }) [] := by
    refine ⟨{ connections := [(1, 0), (2, 1)], sequence := 2 }, rfl, ?_, ?_, ?_⟩
    · intro h
      exact absurd (List.mem_cons_self _ _) h
    · intro _ h
      cases h
    · intro _ a f h
      cases h
      obtain ⟨w1, hrun, hsig, hconns, hslots, hnc, hns⟩ := disconnectKey_ok
        (World.demo.setSlot 2 { callback := some 7, connection := some 1 }) 0 2
        { connections := [(1, 0), (2, 1)], sequence := 2 } 1
        { signal := 0, slot := 2, key := 2, managed := true }
        { callback := some 7, connection := some 1 } rfl rfl rfl rfl
      have hw1 : w1.Linked := disconnectKey_linked _ w1 hW 0 2 _ 1 _ _ rfl rfl rfl rfl hsig
        hconns hslots hnc hns
      have hS1 : w1.signals 0 = some
          { connections := Registry.erase [(1, 0), (2, 1)] 2, sequence := 2 } := by
        simp [hsig]
      refine ⟨w1, _, fun e => decide (e.1 ≠ 2), ?_, hw1, hS1, rfl, by decide, ?_⟩
      · simp [Env.disconnecting, hrun]
      · refine ⟨_, hS1, fun _ => trivial, ?_, ?_⟩
        · intro h
          simp [Registry.erase] at h
        · intro h
          simp [Registry.erase] at h
  exact ⟨hW, htol, ⟨_, rfl⟩,
    C12_emit_tolerates_disconnecting_other_slots (Env.disconnecting 0 2 7) 0
      (World.demo.setSlot 2 { callback := some 7, connection := some 1 })
      { connections := [(1, 0), (2, 1)], sequence := 2 } [] 2 hW rfl htol (by decide)⟩

/-- C19 as stated fails once a counter has wrapped: construct Signal 0 and Slots 0 and 1,
connect Slot 1 (key 1), then connect and disconnect Slot 0 `2^64 - 1` times; every operand is
valid and the state `World.held (2^64)` is reached, with counter 0 and Slot 1 still under
key 1.  The next `connect` of Slot 0 issues key 1 again, `emplace` inserts nothing and
returns the node of Slot 1, and Slot 0 is left with a back-reference to a Connection that
references Slot 1: no Connection references Slot 0. -/
theorem C19_link_consistency_breaks_after_wrap :
    Reach (fun _ _ => True) (World.held SIZE_MOD) ∧
    ∃ w, Op.run (World.held SIZE_MOD) (Op.signal 0 (SigOp.connect (some 0))) = .ok w ∧
      Reach (fun _ _ => True) w ∧
      w.slots 0 = some { callback := some 7, connection := some 0 } ∧
      w.conns 0 = some { signal := 0, slot := 1, key := 1, managed := false } ∧
      ¬ w.LinkConsistent := by
  have hpos : 1 ≤ SIZE_MOD := by simp [SIZE_MOD]
  have hreach : Reach (fun _ _ => True) (World.held SIZE_MOD) := by
    have h := reach_held (fun _ _ => True) (fun _ _ => trivial) (SIZE_MOD - 1) 1 (le_refl 1)
      (le_of_eq (Nat.add_sub_cancel' hpos))
      (reach_held_one (fun _ _ => True) (fun _ _ _ => trivial))
    rw [Nat.add_sub_cancel' hpos] at h
    exact h
  obtain ⟨w, hrun, hs, hc⟩ := held_collision
  refine ⟨hreach, w, hrun, ?_, hs, hc, ?_⟩
  · refine Reach.step (Op.signal 0 (SigOp.connect (some 0))) hreach ?_ trivial hrun
    exact ⟨⟨{ connections := [(1, 0)], sequence := SIZE_MOD % SIZE_MOD }, by simp [World.held]⟩,
      ⟨{ callback := some 7, connection := none }, by simp [World.held],
        fun c h => by cases h⟩⟩
  · intro hcons
    obtain ⟨sig, key, conn, ⟨S, conn1, _, _, hc1, hslot⟩, _⟩ := (hcons 0 _ hs).2 0 rfl
    rw [hc] at hc1
    cases hc1
    cases hslot

/-- C19, amended: every state reachable from the world without objects by constructing
Signals and Slots and by the public operations with valid operands (`connect` by pointer,
reference and value, `disconnect` by key and by Slot, `clear`, Slot copy and move
construction and assignment, `setCallback`, Slot `disconnect` and destruction, Signal move
construction and assignment, Signal destruction), each `connect` finding its counter below
`2^64 - 1`, is link consistent and well formed; and from such a state every such operation
returns, in a link-consistent state again. -/
theorem C19_link_consistency_of_reachable_states (w : World) (h : Reach Op.Room w) :
    w.LinkConsistent ∧ w.WF ∧
    ∀ op : Op, op.Valid w → op.Room w → ∃ w2, op.run w = .ok w2 ∧ w2.LinkConsistent := by
  have hw : w.WF := Reach.wf h
  refine ⟨hw.linked.consistent, hw, ?_⟩
  intro op hv hr
  obtain ⟨w2, hrun, hw2⟩ := Op.run_wf w op hw hv hr
  exact ⟨w2, hrun, hw2.linked.consistent⟩

/-- C19 (amended) at a reachable state: Signal 0 holds Slot 1 under key 1, Slot 0 is
unconnected. -/
theorem C19_link_consistency_of_reachable_states_witness :
    Reach Op.Room (World.held 1) ∧
    ((World.held 1).LinkConsistent ∧ (World.held 1).WF ∧
      ∀ op : Op, op.Valid (World.held 1) → op.Room (World.held 1) →
        ∃ w2, op.run (World.held 1) = .ok w2 ∧ w2.LinkConsistent) :=
  ⟨reach_held_one Op.Room (fun _ _ h => h),
    C19_link_consistency_of_reachable_states (World.held 1)
      (reach_held_one Op.Room (fun _ _ h => h))⟩

end Sling
